import Mathlib

/-!
Terminal-session subsystem of opendoc: registry and input framing.

A shallow embedding of `internal/pty/pty.go` (the PTY session wrapper),
`internal/web/session.go` (the session registry and its reaper) and the connection
handler of `internal/web/server.go`, followed by theorems about them.

Conventions of the embedding.

* A `*pty.Session` is a reference (`SessionRef`) into a store of session states
  (`State.procs`); two registry entries may hold the same reference, exactly as two
  Go map values may hold the same pointer.
* A `pty.Session` state records what the code asked of the operating system handles:
  the window size last handed to `pty.Setsize`, the bytes handed to `Pty.Write`, and
  how often the group kill, the handle close and the reap were issued.  Whether the
  operating system honours a request is outside the embedding.
* `time.Time` values are instants in nanoseconds (`Int`); every call of `time.Now()`
  is an explicit argument `now`.
* Every method of the registry runs under its mutex, so each method is one function on
  the state.  `Remove` releases the mutex before it calls `Close`; the deletion and the
  `Close` are taken together as one step.
* Blocking loops (`StreamOutput`, the input loop of the handler) are functions of the
  finite list of results their blocking calls have returned so far; a flag tells whether
  the loop has left or is blocked in the next call.
* The calls the handler makes on the HTTP response, the socket and the spawn primitive
  are recorded as a list of `Action`s; their outcomes are arguments (`Answers`).
-/

namespace Bark

/-! ## Package `pty` -/

namespace pty

/-- Window size handed to `pty.Setsize` (`pty.Winsize`, the two fields the code sets). -/
structure Winsize where
  Rows : UInt16
  Cols : UInt16
deriving DecidableEq, Repr

/-- Resize message sent by the client: `ResizeMsg` in `pty.go`, two `uint16` fields. -/
structure ResizeMsg where
  Cols : UInt16
  Rows : UInt16
deriving DecidableEq, Repr

/-- State of one `pty.Session`.

* `done`      : the `done` channel has been closed;
* `kills`     : number of `syscall.Kill(-pid, SIGKILL)` calls issued;
* `ptyCloses` : number of `Pty.Close()` calls issued;
* `waits`     : number of `Cmd.Wait()` calls issued;
* `size`      : window size last handed to `pty.Setsize`;
* `written`   : all bytes handed to `Pty.Write`, in order. -/
structure Session where
  done : Bool
  kills : Nat
  ptyCloses : Nat
  waits : Nat
  size : Winsize
  written : List UInt8
deriving DecidableEq, Repr

/-- Session state right after a successful `Spawn`: the `done` channel is open and the
initial size is `Winsize{Rows: 24, Cols: 80}`. -/
def Spawn : Session :=
  { done := false, kills := 0, ptyCloses := 0, waits := 0,
    size := { Rows := 24, Cols := 80 }, written := [] }

/-- `Session.Resize(cols, rows)`: `pty.Setsize(s.Pty, &pty.Winsize{Rows: rows, Cols: cols})`. -/
def Session.Resize (s : Session) (cols rows : UInt16) : Session :=
  { s with size := { Rows := rows, Cols := cols } }

/-- `Session.Write(data)`: hands `data` to `s.Pty.Write`. -/
def Session.Write (s : Session) (data : List UInt8) : Session :=
  { s with written := s.written ++ data }

/-- `Session.Done()`, observed with a non-blocking receive: `true` when the channel is
closed. -/
def Session.Done (s : Session) : Bool :=
  s.done

/-- `Session.Close()`: returns at once when `done` is already closed; otherwise closes
`done`, kills the process group, closes the terminal handle and reaps the child.
(`s.Cmd.Process` is non-nil for every session `Spawn` returned.) -/
def Session.Close (s : Session) : Session :=
  if s.done then s
  else { s with done := true, kills := s.kills + 1, ptyCloses := s.ptyCloses + 1,
                waits := s.waits + 1 }

/-- `Session.HandleInput(data)`.  The decoder `unmarshal` stands for
`json.Unmarshal(data[1:], &msg)` with `msg` a fresh `ResizeMsg`: `.ok msg` when the
call returns a nil error, `.error _` otherwise.  The function returns nothing to its
caller; its whole effect is the new session state. -/
def Session.HandleInput (unmarshal : List UInt8 → Except String ResizeMsg)
    (s : Session) (data : List UInt8) : Session :=
  if data.length = 0 then s
  else if data.head? = some 0x01 ∧ data.length > 1 then
    match unmarshal data.tail with
    | .ok msg => if msg.Cols > 0 ∧ msg.Rows > 0 then s.Resize msg.Cols msg.Rows else s
    | .error _ => s
  else s.Write data

/-! ### `json.Unmarshal` into a `ResizeMsg`

`HandleInput` is stated for an arbitrary decoder.  `Unmarshal` below models the call
`json.Unmarshal(data[1:], &msg)` of the source, for a fresh `ResizeMsg`, after the package
`encoding/json`.  That package first checks the whole input with its scanner, one byte
after the other, and returns a syntax error when the input is not one JSON value.  It
then stores the members of the top-level object: a member is stored in the field whose
name it matches, exactly or ignoring case; a member that matches no field is skipped; when
several members match one field, each is stored in turn.  The value `null` leaves a field
as it is; a number is stored in a `uint16` field when it is written with digits only and
is at most 65535; every other value makes the call return an error.  A top-level `null`
leaves the message as it is; any other top-level value that is not an object is an
error.

The model runs the scanner and collects, in the same pass, the members of the top-level
object. -/

/-- What the scanner keeps on its stack for each enclosing object or array. -/
inductive ParseState where
  | parseObjectKey
  | parseObjectValue
  | parseArrayValue
deriving DecidableEq, Repr

/-- `maxNestingDepth` of the scanner. -/
def maxNestingDepth : Nat := 10000

/-- What storing a value in a `uint16` field depends on: the text of a number, `null`, or
any other value (a string, `true`, `false`, an array, an object). -/
inductive Value where
  | number (text : List UInt8)
  | null
  | other
deriving DecidableEq, Repr

/-- One unit of a string: a byte written as it is, or the code unit of an escape. -/
inductive KeyUnit where
  | byte (b : UInt8)
  | escaped (r : Nat)
deriving DecidableEq, Repr

/-- The kind of the top-level value. -/
inductive Top where
  | object
  | null
  | other
deriving DecidableEq, Repr

/-- The step functions of the scanner (`stateBeginValue`, `stateInString`, `state1`, ...).
`inStringEscU read acc` has read `read` of the four hexadecimal digits, of value `acc`;
`literal rest v` expects the bytes `rest` of `true`, `false` or `null`. -/
inductive Step where
  | beginValue
  | beginValueOrEmpty
  | beginStringOrEmpty
  | beginString
  | inString
  | inStringEsc
  | inStringEscU (read : Nat) (acc : Nat)
  | neg
  | s1
  | s0
  | dot
  | dot0
  | e
  | eSign
  | e0
  | literal (rest : List UInt8) (v : Value)
  | endValue
  | endTop
deriving DecidableEq, Repr

/-- The scanner, with what the decoder collects.

* `step`       : the current step function;
* `parseState` : the stack of enclosing objects and arrays, innermost first;
* `top`        : the kind of the top-level value, once known;
* `str`        : the units of the string being read;
* `key`        : the last key read in the top-level object;
* `num`        : the text of the number being read;
* `members`    : the members of the top-level object read so far, in order. -/
structure Scanner where
  step : Step
  parseState : List ParseState
  top : Option Top
  str : List KeyUnit
  key : List KeyUnit
  num : List UInt8
  members : List (List KeyUnit × Value)
deriving DecidableEq, Repr

/-- `isSpace(c)`: space, tab, carriage return, line feed. -/
def isSpace (c : UInt8) : Bool :=
  c = 0x20 || c = 0x09 || c = 0x0d || c = 0x0a

/-- Whether `c` is one of `0` to `9`. -/
def isDigit (c : UInt8) : Bool :=
  0x30 ≤ c && c ≤ 0x39

/-- The value of a hexadecimal digit. -/
def hexValue (c : UInt8) : Option Nat :=
  if 0x30 ≤ c ∧ c ≤ 0x39 then some (c.toNat - 0x30)
  else if 0x61 ≤ c ∧ c ≤ 0x66 then some (c.toNat - 0x61 + 10)
  else if 0x41 ≤ c ∧ c ≤ 0x46 then some (c.toNat - 0x41 + 10)
  else none

/-- The scanner at the start of the input. -/
def Scanner.reset : Scanner :=
  { step := Step.beginValue, parseState := [], top := none, str := [], key := [], num := [],
    members := [] }

/-- A value is complete (or, for an array or object, begins): at the top level its kind is
recorded, as a value of the top-level object it is recorded as a member under the last
key. -/
def emit (s : Scanner) (v : Value) : Scanner :=
  match s.parseState with
  | [] => { s with top := some (if v = Value.null then Top.null else Top.other) }
  | [ParseState.parseObjectValue] => { s with members := s.members ++ [(s.key, v)] }
  | _ => s

/-- `pushParseState`: an object or array begins. -/
def pushParseState (s : Scanner) (newParseState : ParseState) (step : Step) : Option Scanner :=
  if s.parseState.length + 1 ≤ maxNestingDepth then
    some { s with parseState := newParseState :: s.parseState, step := step }
  else none

/-- `stateEndValue`: the byte after a value. -/
def stateEndValue (s : Scanner) (c : UInt8) : Option Scanner :=
  match s.parseState with
  | [] => if isSpace c then some { s with step := Step.endTop } else none
  | ps :: rest =>
      if isSpace c then some { s with step := Step.endValue }
      else
        match ps with
        | ParseState.parseObjectKey =>
            if c = 0x3a then
              some { s with parseState := ParseState.parseObjectValue :: rest,
                            step := Step.beginValue }
            else none
        | ParseState.parseObjectValue =>
            if c = 0x2c then
              some { s with parseState := ParseState.parseObjectKey :: rest,
                            step := Step.beginString }
            else if c = 0x7d then
              some { s with parseState := rest,
                            step := if rest = [] then Step.endTop else Step.endValue }
            else none
        | ParseState.parseArrayValue =>
            if c = 0x2c then some { s with step := Step.beginValue }
            else if c = 0x5d then
              some { s with parseState := rest,
                            step := if rest = [] then Step.endTop else Step.endValue }
            else none

/-- `stateBeginValue`: the first byte of a value. -/
def stateBeginValue (s : Scanner) (c : UInt8) : Option Scanner :=
  if isSpace c then some s
  else if c = 0x7b then
    pushParseState (if s.parseState = [] then { s with top := some Top.object }
      else emit s Value.other) ParseState.parseObjectKey Step.beginStringOrEmpty
  else if c = 0x5b then
    pushParseState (emit s Value.other) ParseState.parseArrayValue Step.beginValueOrEmpty
  else if c = 0x22 then some { s with step := Step.inString, str := [] }
  else if c = 0x2d then some { s with step := Step.neg, num := [c] }
  else if c = 0x30 then some { s with step := Step.s0, num := [c] }
  else if c = 0x74 then some { s with step := Step.literal [0x72, 0x75, 0x65] Value.other }
  else if c = 0x66 then
    some { s with step := Step.literal [0x61, 0x6c, 0x73, 0x65] Value.other }
  else if c = 0x6e then some { s with step := Step.literal [0x75, 0x6c, 0x6c] Value.null }
  else if 0x31 ≤ c ∧ c ≤ 0x39 then some { s with step := Step.s1, num := [c] }
  else none

/-- `stateBeginString`: the opening quote of a key. -/
def stateBeginString (s : Scanner) (c : UInt8) : Option Scanner :=
  if isSpace c then some s
  else if c = 0x22 then some { s with step := Step.inString, str := [] }
  else none

/-- The closing quote of a string: a key of the top-level object is kept, a string that
is a value is recorded. -/
def endString (s : Scanner) : Scanner :=
  match s.parseState with
  | [ParseState.parseObjectKey] => { s with key := s.str, step := Step.endValue }
  | ParseState.parseObjectKey :: _ => { s with step := Step.endValue }
  | _ => { emit s Value.other with step := Step.endValue }

/-- The byte after a number: the number is recorded and the byte is handled by
`stateEndValue`. -/
def endNumber (s : Scanner) (c : UInt8) : Option Scanner :=
  stateEndValue (emit s (Value.number s.num)) c

/-- `state0`: after the integer part of a number. -/
def state0 (s : Scanner) (c : UInt8) : Option Scanner :=
  if c = 0x2e then some { s with step := Step.dot, num := s.num ++ [c] }
  else if c = 0x65 ∨ c = 0x45 then some { s with step := Step.e, num := s.num ++ [c] }
  else endNumber s c

/-- `stateESign`: after the sign of an exponent. -/
def stateESign (s : Scanner) (c : UInt8) : Option Scanner :=
  if isDigit c then some { s with step := Step.e0, num := s.num ++ [c] } else none

/-- One byte handed to the current step function; `none` when the scanner reports an
error. -/
def scanStep (s : Scanner) (c : UInt8) : Option Scanner :=
  match s.step with
  | Step.beginValue => stateBeginValue s c
  | Step.beginValueOrEmpty =>
      if isSpace c then some s
      else if c = 0x5d then stateEndValue s c
      else stateBeginValue s c
  | Step.beginStringOrEmpty =>
      if isSpace c then some s
      else if c = 0x7d then
        stateEndValue { s with parseState := ParseState.parseObjectValue :: s.parseState.tail } c
      else stateBeginString s c
  | Step.beginString => stateBeginString s c
  | Step.inString =>
      if c = 0x22 then some (endString s)
      else if c = 0x5c then some { s with step := Step.inStringEsc }
      else if c < 0x20 then none
      else some { s with str := s.str ++ [KeyUnit.byte c] }
  | Step.inStringEsc =>
      if c = 0x62 then some { s with step := Step.inString, str := s.str ++ [KeyUnit.byte 0x08] }
      else if c = 0x66 then
        some { s with step := Step.inString, str := s.str ++ [KeyUnit.byte 0x0c] }
      else if c = 0x6e then
        some { s with step := Step.inString, str := s.str ++ [KeyUnit.byte 0x0a] }
      else if c = 0x72 then
        some { s with step := Step.inString, str := s.str ++ [KeyUnit.byte 0x0d] }
      else if c = 0x74 then
        some { s with step := Step.inString, str := s.str ++ [KeyUnit.byte 0x09] }
      else if c = 0x5c ∨ c = 0x2f ∨ c = 0x22 then
        some { s with step := Step.inString, str := s.str ++ [KeyUnit.byte c] }
      else if c = 0x75 then some { s with step := Step.inStringEscU 0 0 }
      else none
  | Step.inStringEscU read acc =>
      match hexValue c with
      | some h =>
          if read = 3 then
            some { s with step := Step.inString,
                          str := s.str ++ [KeyUnit.escaped (acc * 16 + h)] }
          else some { s with step := Step.inStringEscU (read + 1) (acc * 16 + h) }
      | none => none
  | Step.neg =>
      if c = 0x30 then some { s with step := Step.s0, num := s.num ++ [c] }
      else if 0x31 ≤ c ∧ c ≤ 0x39 then some { s with step := Step.s1, num := s.num ++ [c] }
      else none
  | Step.s1 =>
      if isDigit c then some { s with num := s.num ++ [c] } else state0 s c
  | Step.s0 => state0 s c
  | Step.dot =>
      if isDigit c then some { s with step := Step.dot0, num := s.num ++ [c] } else none
  | Step.dot0 =>
      if isDigit c then some { s with num := s.num ++ [c] }
      else if c = 0x65 ∨ c = 0x45 then some { s with step := Step.e, num := s.num ++ [c] }
      else endNumber s c
  | Step.e =>
      if c = 0x2b ∨ c = 0x2d then some { s with step := Step.eSign, num := s.num ++ [c] }
      else stateESign s c
  | Step.eSign => stateESign s c
  | Step.e0 =>
      if isDigit c then some { s with num := s.num ++ [c] } else endNumber s c
  | Step.literal rest v =>
      match rest with
      | [] => none
      | b :: more =>
          if c = b then
            if more = [] then some { emit s v with step := Step.endValue }
            else some { s with step := Step.literal more v }
          else none
  | Step.endValue => stateEndValue s c
  | Step.endTop => if isSpace c then some s else none

/-- The scanner run over the bytes of the input. -/
def scanFrom (s : Scanner) : List UInt8 → Option Scanner
  | [] => some s
  | c :: rest =>
      match scanStep s c with
      | some t => scanFrom t rest
      | none => none

/-- `eof`: the end of the input; it is read as a space when the top-level value is not
known to be complete. -/
def eof (s : Scanner) : Option Scanner :=
  if s.step = Step.endTop then some s
  else
    match scanStep s 0x20 with
    | some t => if t.step = Step.endTop then some t else none
    | none => none

/-- The kind of the top-level value of a valid input and the members of a top-level
object; `none` for an input that is not valid JSON. -/
def scan (data : List UInt8) : Option (Top × List (List KeyUnit × Value)) :=
  match scanFrom Scanner.reset data with
  | some s =>
      match eof s with
      | some t =>
          match t.top with
          | some top => some (top, t.members)
          | none => none
      | none => none
  | none => none

/-- The rune a byte of a string stands for on its own: itself for ASCII; the replacement
character otherwise (runes outside ASCII are not told apart, except U+017F below: no
other one equals a letter of `cols` or `rows` when case is ignored). -/
def byteRune (b : UInt8) : Nat :=
  if b < 0x80 then b.toNat else 0xfffd

/-- The runes of a string; the bytes `C5 BF` are U+017F. -/
def keyRunes : List KeyUnit → List Nat
  | [] => []
  | KeyUnit.escaped r :: rest => r :: keyRunes rest
  | [KeyUnit.byte b] => [byteRune b]
  | KeyUnit.byte b :: KeyUnit.escaped r :: rest => byteRune b :: r :: keyRunes rest
  | KeyUnit.byte b :: KeyUnit.byte b2 :: rest =>
      if b = 0xc5 ∧ b2 = 0xbf then 0x17f :: keyRunes rest
      else byteRune b :: keyRunes (KeyUnit.byte b2 :: rest)

/-- The lower-case ASCII letter a rune equals when case is ignored (simple case folding:
`A` to `Z`, U+017F for `s`, U+212A for `k`); the rune itself otherwise. -/
def foldRune (r : Nat) : Nat :=
  if 0x41 ≤ r ∧ r ≤ 0x5a then r + 0x20
  else if r = 0x17f then 0x73
  else if r = 0x212a then 0x6b
  else r

/-- Whether a key matches the field name `name` (lower-case ASCII), exactly or ignoring
case. -/
def matchesField (key : List KeyUnit) (name : List Nat) : Bool :=
  (keyRunes key).map foldRune == name

/-- The name `cols` of the field `Cols`. -/
def colsName : List Nat := [0x63, 0x6f, 0x6c, 0x73]

/-- The name `rows` of the field `Rows`. -/
def rowsName : List Nat := [0x72, 0x6f, 0x77, 0x73]

/-- The number a text of digits denotes. -/
def digitsValue (text : List UInt8) : Nat :=
  text.foldl (fun a b => a * 10 + (b.toNat - 0x30)) 0

/-- A number stored in a `uint16` field: `strconv.ParseUint(text, 10, 64)` succeeds on
digits only, and the value must not overflow the field. -/
def parseUint16 (text : List UInt8) : Option UInt16 :=
  if text ≠ [] ∧ text.all isDigit = true ∧ digitsValue text ≤ 65535 then
    some (UInt16.ofNat (digitsValue text))
  else none

/-- One value stored in a `uint16` field: the field afterwards, or the error. -/
def storeUint16 (field : UInt16) : Value → Except String UInt16
  | Value.number text =>
      match parseUint16 text with
      | some n => .ok n
      | none => .error "json: cannot unmarshal number into Go struct field of type uint16"
  | Value.null => .ok field
  | Value.other => .error "json: cannot unmarshal value into Go struct field of type uint16"

/-- One member of the top-level object stored in the message. -/
def storeMember (msg : ResizeMsg) (m : List KeyUnit × Value) : Except String ResizeMsg :=
  if matchesField m.1 colsName then
    match storeUint16 msg.Cols m.2 with
    | .ok n => .ok { msg with Cols := n }
    | .error err => .error err
  else if matchesField m.1 rowsName then
    match storeUint16 msg.Rows m.2 with
    | .ok n => .ok { msg with Rows := n }
    | .error err => .error err
  else .ok msg

/-- The members of the top-level object stored one after the other.  (The package goes on
after a value it cannot store and returns the error at the end; the message is not used
then.) -/
def storeMembers (msg : ResizeMsg) : List (List KeyUnit × Value) → Except String ResizeMsg
  | [] => .ok msg
  | m :: rest =>
      match storeMember msg m with
      | .ok msg2 => storeMembers msg2 rest
      | .error err => .error err

/-- `json.Unmarshal(data, &msg)` for a fresh `ResizeMsg`: `.ok msg` when the call returns
a nil error. -/
def Unmarshal (data : List UInt8) : Except String ResizeMsg :=
  match scan data with
  | none => .error "json: syntax error"
  | some (Top.object, members) => storeMembers { Cols := 0, Rows := 0 } members
  | some (Top.null, _) => .ok { Cols := 0, Rows := 0 }
  | some (Top.other, _) => .error "json: cannot unmarshal value into Go value of type pty.ResizeMsg"

/-- The bytes of an ASCII text. -/
def asciiBytes (s : String) : List UInt8 :=
  s.data.map (fun c => UInt8.ofNat c.toNat)

/-- A whole number written in decimal. -/
def decimal (n : Nat) : List UInt8 :=
  asciiBytes (toString n)

/-- The text `{"cols":c,"rows":r}` the terminal client sends after the byte `0x01`, for
whole numbers `c` and `r`. -/
def resizeText (c r : Nat) : List UInt8 :=
  asciiBytes "\x7b\"cols\":" ++ decimal c ++ asciiBytes ",\"rows\":" ++ decimal r ++
    asciiBytes "\x7d"

/-- Whether `encoding/json` can store the member: a member that matches `cols` or `rows`
must hold `null` or a number that fits a `uint16`. -/
def fits (m : List KeyUnit × Value) : Bool :=
  if matchesField m.1 colsName || matchesField m.1 rowsName then
    match m.2 with
    | Value.number text => (parseUint16 text).isSome
    | Value.null => true
    | Value.other => false
  else true

/-- The content of a field that held `field` after the members have been stored: the
number of the last member that matches `name` and holds a number that fits. -/
def lastStored (name : List Nat) (field : UInt16) : List (List KeyUnit × Value) → UInt16
  | [] => field
  | m :: rest =>
      lastStored name
        (if matchesField m.1 name then
          match m.2 with
          | Value.number text => (parseUint16 text).getD field
          | _ => field
        else field) rest

/-- The byte of the decimal digit `k`. -/
def digitByte (k : Nat) : UInt8 :=
  UInt8.ofNat (0x30 + k)

/-! ### Frames, the steps of `Close`, and the output loop -/

/-- Control frame, in the words of the specification: the first byte is `0x01` and there
are additional bytes.  Every other frame is a data frame. -/
def isControlFrame (data : List UInt8) : Bool :=
  decide (data.head? = some 0x01) && decide (data.length > 1)

/-- The states a session passes through during one call of `Close`, one after each
statement that changes something: `close(s.done)`, `syscall.Kill(-pid, SIGKILL)`,
`s.Pty.Close()`, `s.Cmd.Wait()`.  A call on a session whose `done` is already closed
returns at once and passes through no new state.  `Done()` takes no lock, so each of
these states can be observed. -/
def Session.CloseSteps (s : Session) : List Session :=
  if s.done then []
  else
    [ { s with done := true },
      { s with done := true, kills := s.kills + 1 },
      { s with done := true, kills := s.kills + 1, ptyCloses := s.ptyCloses + 1 },
      { s with done := true, kills := s.kills + 1, ptyCloses := s.ptyCloses + 1,
               waits := s.waits + 1 } ]

/-- One call on a session. -/
inductive SessionOp where
  | resize (cols rows : UInt16)
  | write (data : List UInt8)
  | handleInput (data : List UInt8)
  | close
deriving DecidableEq, Repr

/-- Effect of one call on a session. -/
def Session.apply (unmarshal : List UInt8 → Except String ResizeMsg) (s : Session) :
    SessionOp → Session
  | .resize cols rows => s.Resize cols rows
  | .write data => s.Write data
  | .handleInput data => s.HandleInput unmarshal data
  | .close => s.Close

/-- Effect of a finite sequence of calls on a session. -/
def Session.applyAll (unmarshal : List UInt8 → Except String ResizeMsg) (s : Session)
    (ops : List SessionOp) : Session :=
  ops.foldl (Session.apply unmarshal) s

/-- Result of one `s.Read(buf)`: the bytes `buf[:n]` that were read and whether `err` is
non-nil (`io.EOF` or another error). -/
structure ReadResult where
  data : List UInt8
  err : Bool
deriving DecidableEq, Repr

/-- Where `StreamOutput` stands after the reads that have returned so far.

* `conn`     : the state of the receiving side after the calls of `send` made so far;
* `reads`    : number of calls of `s.Read` that have returned;
* `sends`    : number of calls of `send`;
* `returned` : the function has returned (`false`: it is blocked in the next `Read`). -/
structure StreamState (σ : Type) where
  conn : σ
  reads : Nat
  sends : Nat
  returned : Bool

/-- `Session.StreamOutput(send)`.  `send c chunk` gives the state of the receiving side
after the call and whether the call returned a non-nil error.  The list holds the results
of the successive reads that return; when it is used up the loop is blocked in `Read`. -/
def Session.StreamOutput {σ : Type} (send : σ → List UInt8 → σ × Bool) :
    List ReadResult → σ → StreamState σ
  | [], c => { conn := c, reads := 0, sends := 0, returned := false }
  | r :: rest, c =>
      if r.data.length > 0 then
        if (send c r.data).2 then
          { conn := (send c r.data).1, reads := 1, sends := 1, returned := true }
        else if r.err then
          { conn := (send c r.data).1, reads := 1, sends := 1, returned := true }
        else
          { conn := (Session.StreamOutput send rest (send c r.data).1).conn,
            reads := (Session.StreamOutput send rest (send c r.data).1).reads + 1,
            sends := (Session.StreamOutput send rest (send c r.data).1).sends + 1,
            returned := (Session.StreamOutput send rest (send c r.data).1).returned }
      else if r.err then
        { conn := c, reads := 1, sends := 0, returned := true }
      else
        { conn := (Session.StreamOutput send rest c).conn,
          reads := (Session.StreamOutput send rest c).reads + 1,
          sends := (Session.StreamOutput send rest c).sends,
          returned := (Session.StreamOutput send rest c).returned }

/-- The reads up to and including the first one that reported an error or EOF (all of
them when none did). -/
def upToFirstErr : List ReadResult → List ReadResult
  | [] => []
  | r :: rest => if r.err then [r] else r :: upToFirstErr rest

/-- A receiving side that records the frames it is sent and never fails. -/
def recordSend (c : List (List UInt8)) (chunk : List UInt8) : List (List UInt8) × Bool :=
  (c ++ [chunk], false)

end pty

/-! ## Package `web`: the session registry -/

namespace web

/-- A `*ptyPkg.Session`. -/
abbrev SessionRef := Nat

/-- Instants (`time.Time`) and durations (`time.Duration`), in nanoseconds. -/
abbrev Time := Int

/-- Largest `time.Duration`. -/
def maxDuration : Int := 2 ^ 63 - 1

/-- Smallest `time.Duration`. -/
def minDuration : Int := -(2 ^ 63)

/-- `t.Sub(u)`: the duration `t - u`, saturated at the largest and the smallest
`time.Duration`. -/
def Time.Sub (t u : Time) : Int :=
  if t - u > maxDuration then maxDuration
  else if t - u < minDuration then minDuration
  else t - u

/-- `sessionEntry`: a session reference with its last-activity instant. -/
structure sessionEntry where
  session : SessionRef
  lastActivity : Time
deriving DecidableEq, Repr

/-- `SessionManager` without its mutex: the map (an association list with pairwise
distinct keys), `maxSessions` and `idleTimeout`. -/
structure SessionManager where
  sessions : AList (fun _ : String => sessionEntry)
  maxSessions : Int
  idleTimeout : Int

/-- The registry together with the store of the sessions its entries point to. -/
structure State where
  sm : SessionManager
  procs : SessionRef → pty.Session

/-- `NewSessionManager(maxSessions, idleTimeout)`.  The reaper goroutine it starts is
embedded as sweeps (`reaperSweep`) that may occur between any two method calls. -/
def NewSessionManager (maxSessions : Int) (idleTimeout : Int) : SessionManager :=
  { sessions := ∅, maxSessions := maxSessions, idleTimeout := idleTimeout }

/-- `SessionManager.Count()`: `len(sm.sessions)`. -/
def SessionManager.Count (sm : SessionManager) : Nat :=
  sm.sessions.entries.length

/-- `SessionManager.CanAccept()`: `len(sm.sessions) < sm.maxSessions`. -/
def SessionManager.CanAccept (sm : SessionManager) : Bool :=
  decide ((sm.sessions.entries.length : Int) < sm.maxSessions)

/-- `SessionManager.Add(id, s)` with `now` the value of `time.Now()`: the returned
boolean and the registry afterwards. -/
def SessionManager.Add (sm : SessionManager) (id : String) (s : SessionRef) (now : Time) :
    Bool × SessionManager :=
  if (sm.sessions.entries.length : Int) ≥ sm.maxSessions then (false, sm)
  else (true, { sm with sessions := sm.sessions.insert id { session := s, lastActivity := now } })

/-- `SessionManager.Touch(id)` with `now` the value of `time.Now()`: the entry is
updated in place when `id` is present. -/
def SessionManager.Touch (sm : SessionManager) (id : String) (now : Time) : SessionManager :=
  match sm.sessions.lookup id with
  | some entry => { sm with sessions := sm.sessions.replace id { entry with lastActivity := now } }
  | none => sm

/-- `SessionManager.GetSession(id)`: `none` stands for the nil pointer. -/
def SessionManager.GetSession (sm : SessionManager) (id : String) : Option SessionRef :=
  match sm.sessions.lookup id with
  | some entry => some entry.session
  | none => none

/-- `SessionManager.Remove(id)`: deletes the entry when present and then calls `Close`
on its session. -/
def Remove (st : State) (id : String) : State :=
  match st.sm.sessions.lookup id with
  | some entry =>
      { sm := { st.sm with sessions := st.sm.sessions.erase id },
        procs := Function.update st.procs entry.session (st.procs entry.session).Close }
  | none => st

/-- Body of the `for id, entry := range sm.sessions` loop of `reaper` for one key. -/
def reaperVisit (now : Time) (st : State) (id : String) : State :=
  match st.sm.sessions.lookup id with
  | some entry =>
      if (st.procs entry.session).Done then
        { st with sm := { st.sm with sessions := st.sm.sessions.erase id } }
      else if st.sm.idleTimeout > 0 ∧ Time.Sub now entry.lastActivity > st.sm.idleTimeout then
        { sm := { st.sm with sessions := st.sm.sessions.erase id },
          procs := Function.update st.procs entry.session (st.procs entry.session).Close }
      else st
  | none => st

/-- Order in which one `range` over a map with keys `keys` visits them.  Go leaves the
order unspecified; `order` is the choice of the runtime: its keys come first, in its
order, then the remaining keys.  Every value of `order` gives a permutation of `keys`,
and every permutation of `keys` arises (from `order` equal to it). -/
def rangeOrder (order keys : List String) : List String :=
  (order.dedup.filter (fun k => decide (k ∈ keys))) ++ keys.filter (fun k => decide (k ∉ order))

/-- One tick of `reaper`: `now := time.Now()` is read once, then every entry is visited.
Only the entry being visited is ever deleted, so each key present at the start is
visited exactly once. -/
def reaperSweep (now : Time) (order : List String) (st : State) : State :=
  (rangeOrder order st.sm.sessions.keys).foldl (reaperVisit now) st

/-- `SessionManager.reaper()` over finitely many ticks, each with the instant it reads
and the visiting order of its `range`. -/
def reaper (ticks : List (Time × List String)) (st : State) : State :=
  ticks.foldl (fun st tick => reaperSweep tick.1 tick.2 st) st

/-- One operation on a registry. -/
inductive Op where
  | add (id : String) (s : SessionRef) (now : Time)
  | touch (id : String) (now : Time)
  | remove (id : String)
  | get (id : String)
  | canAccept
  | sweep (now : Time) (order : List String)

/-- Effect of one operation on the state (results of queries are dropped). -/
def step (st : State) : Op → State
  | .add id s now => { st with sm := (st.sm.Add id s now).2 }
  | .touch id now => { st with sm := st.sm.Touch id now }
  | .remove id => Remove st id
  | .get _ => st
  | .canAccept => st
  | .sweep now order => reaperSweep now order st

/-- Effect of a finite sequence of operations. -/
def run (st : State) (ops : List Op) : State :=
  ops.foldl step st

/-- Results of presenting `reqs` (id, session, instant of the call) to `Add` one after
another, with the registry afterwards. -/
def addAll (sm : SessionManager) : List (String × SessionRef × Time) → List Bool × SessionManager
  | [] => ([], sm)
  | (id, s, now) :: rest =>
      let r := sm.Add id s now
      let rs := addAll r.2 rest
      (r.1 :: rs.1, rs.2)


/-- Idle-expired, in the words of the specification: `idleTimeout > 0` and
`now - lastActivity > idleTimeout`, strictly greater; `now - lastActivity` is the
duration `time.Time.Sub` gives, which is the exact difference whenever that fits a
`time.Duration`. -/
def idleExpired (idleTimeout : Int) (now : Time) (e : sessionEntry) : Bool :=
  decide (idleTimeout > 0 ∧ Time.Sub now e.lastActivity > idleTimeout)

/-- No two ids of the registry hold the same session. -/
def distinctSessions (st : State) : Prop :=
  (st.sm.sessions.entries.map (fun x => x.2.session)).Nodup

/-! ### The acceptor and the two directions of a connection (`server.go`) -/

/-- `Config`: the server configuration. -/
structure Config where
  Port : Int
  MaxSessions : Int
  IdleTimeout : Int
  TUIBinary : String
deriving DecidableEq, Repr

/-- The two websocket message types the handler uses. -/
inductive MessageType where
  | TextMessage
  | BinaryMessage
deriving DecidableEq, Repr

/-- What `HandleWebSocket` does to the outside, as the calls it makes:
`http.Error(w, body, code)`, `s.upgrader.Upgrade(w, r, nil)` with its outcome,
`ptyPkg.Spawn(name, args...)`, `conn.WriteMessage(messageType, data)`, `conn.Close()`. -/
inductive Action where
  | httpError (body : String) (code : Nat)
  | upgrade (ok : Bool)
  | spawn (name : String) (args : List String)
  | writeMessage (messageType : MessageType) (data : String)
  | connClose
deriving DecidableEq, Repr

/-- What the handler reads of the request: `r.RemoteAddr` and
`r.URL.Query().Get("mode")`, which is the empty string when the parameter is absent. -/
structure Request where
  RemoteAddr : String
  mode : String
deriving DecidableEq, Repr

/-- What the environment answers while one request is connecting.

* `others`     : the operations of other goroutines on the registry that take place
                 between the `CanAccept` check and the call of `Add`;
* `upgradeOk`  : `Upgrade` returned a nil error;
* `now`        : `time.Now().UnixNano()` read for the session id;
* `executable` : the path `os.Executable()` returns;
* `spawned`    : the session `Spawn` returns, `none` when it returns an error;
* `addNow`     : `time.Now()` read inside `Add`. -/
structure Answers where
  others : List Op
  upgradeOk : Bool
  now : Int
  executable : String
  spawned : Option SessionRef
  addNow : Time

/-- How the connecting phase ends. -/
inductive Outcome where
  | busy
  | upgradeFailed
  | spawnFailed
  | addFailed
  | accepted (sessionID : String) (sess : SessionRef)
deriving DecidableEq, Repr

/-- State, calls made and outcome at the end of the connecting phase. -/
structure Connecting where
  st : State
  actions : List Action
  outcome : Outcome

/-- The command `HandleWebSocket` spawns for the value `mode` of the request parameter:
`/bin/bash --login` for `shell`, otherwise the TUI binary (the configured one, or the
running executable when none is configured) with the arguments `console tui`. -/
def spawnCommand (cfg : Config) (executable : String) (mode : String) : String × List String :=
  if mode = "shell" then ("/bin/bash", ["--login"])
  else ((if cfg.TUIBinary = "" then executable else cfg.TUIBinary), ["console", "tui"])

/-- `Server.HandleWebSocket` from its entry to the point where the session is
registered (or the request is turned away). -/
def HandleWebSocketConnect (cfg : Config) (st : State) (r : Request) (env : Answers) :
    Connecting :=
  if st.sm.CanAccept = false then
    { st := st,
      actions := [Action.httpError "Server busy: max sessions reached" 503],
      outcome := Outcome.busy }
  else if env.upgradeOk = false then
    { st := run st env.others, actions := [Action.upgrade false],
      outcome := Outcome.upgradeFailed }
  else
    match env.spawned with
    | none =>
        { st := run st env.others,
          actions := [Action.upgrade true,
            Action.spawn (spawnCommand cfg env.executable r.mode).1
              (spawnCommand cfg env.executable r.mode).2,
            Action.writeMessage MessageType.TextMessage "Error: failed to start console\r\n",
            Action.connClose],
          outcome := Outcome.spawnFailed }
    | some sess =>
        if ((run st env.others).sm.Add (r.RemoteAddr ++ "-" ++ toString env.now) sess
            env.addNow).1 = false then
          { st :=
              { sm := ((run st env.others).sm.Add (r.RemoteAddr ++ "-" ++ toString env.now)
                  sess env.addNow).2,
                procs := Function.update (run st env.others).procs sess pty.Spawn.Close },
            actions := [Action.upgrade true,
              Action.spawn (spawnCommand cfg env.executable r.mode).1
                (spawnCommand cfg env.executable r.mode).2,
              Action.writeMessage MessageType.TextMessage "Error: max sessions reached\r\n",
              Action.connClose],
            outcome := Outcome.addFailed }
        else
          { st :=
              { sm := ((run st env.others).sm.Add (r.RemoteAddr ++ "-" ++ toString env.now)
                  sess env.addNow).2,
                procs := Function.update (run st env.others).procs sess pty.Spawn },
            actions := [Action.upgrade true,
              Action.spawn (spawnCommand cfg env.executable r.mode).1
                (spawnCommand cfg env.executable r.mode).2],
            outcome := Outcome.accepted (r.RemoteAddr ++ "-" ++ toString env.now) sess }

/-- Where the input loop stands.

* `st`      : registry and sessions;
* `touches` : the instants of the calls of `Touch`, in order;
* `handled` : the frames handed to `HandleInput`, in order;
* `broke`   : the loop has left through `break` (`false`: it is blocked in
              `ReadMessage`). -/
structure InputState where
  st : State
  touches : List Time
  handled : List (List UInt8)
  broke : Bool

/-- The loop `for { _, msg, err := conn.ReadMessage(); ... }` of `HandleWebSocket`.  The
list holds the results of the successive `ReadMessage` calls that return, `none` for a
non-nil error, each with the instant `Touch` reads when it is called for the frame. -/
def inputLoop (unmarshal : List UInt8 → Except String pty.ResizeMsg) (sessionID : String)
    (sess : SessionRef) : List (Option (List UInt8) × Time) → InputState → InputState
  | [], acc => acc
  | (none, _) :: _, acc => { acc with broke := true }
  | (some msg, now) :: rest, acc =>
      inputLoop unmarshal sessionID sess rest
        { st :=
            { sm := acc.st.sm.Touch sessionID now,
              procs := Function.update acc.st.procs sess
                ((acc.st.procs sess).HandleInput unmarshal msg) },
          touches := acc.touches ++ [now],
          handled := acc.handled ++ [msg],
          broke := false }

/-- The frames received before the first `ReadMessage` error, each with the instant of
its `Touch`. -/
def received : List (Option (List UInt8) × Time) → List (List UInt8 × Time)
  | [] => []
  | (none, _) :: _ => []
  | (some msg, now) :: rest => (msg, now) :: received rest

/-- The goroutine `go func() { sess.StreamOutput(send); conn.Close() }()`: the state of
the connection, and whether the goroutine has finished. -/
def outputDirection {σ : Type} (send : σ → List UInt8 → σ × Bool) (connClose : σ → σ)
    (reads : List pty.ReadResult) (c : σ) : σ × Bool :=
  if (pty.Session.StreamOutput send reads c).returned then
    (connClose (pty.Session.StreamOutput send reads c).conn, true)
  else ((pty.Session.StreamOutput send reads c).conn, false)

/-! ### The whole handler and the monitoring endpoint (`server.go`) -/

/-- `Server`: the configuration and the registry. -/
structure Server where
  config : Config
  sessions : SessionManager

/-- `NewServer(cfg)`. -/
def NewServer (cfg : Config) : Server :=
  { config := cfg, sessions := NewSessionManager cfg.MaxSessions cfg.IdleTimeout }

/-- What a plain HTTP handler writes: the `Content-Type` header and the body. -/
structure Response where
  contentType : String
  body : String
deriving DecidableEq, Repr

/-- `Server.handleHealth`: `fmt.Fprintf(w, ..., s.sessions.Count(), s.config.MaxSessions)`
with the format `{"status":"ok","sessions":%d,"max":%d}`. -/
def Server.handleHealth (s : Server) : Response :=
  { contentType := "application/json",
    body := "\x7b\"status\":\"ok\",\"sessions\":" ++ toString s.sessions.Count ++
      ",\"max\":" ++ toString s.config.MaxSessions ++ "\x7d" }

/-- The member `"key":` occurs in a response body. -/
def hasMember (body key : String) : Bool :=
  decide (("\"" ++ key ++ "\":").data <:+: body.data)

/-- The input loop of `HandleWebSocket` with the other goroutines: each element of the
list is one `ReadMessage` call that returns, with the operations other goroutines (the
reaper, other connections) perform on the registry while the call is blocked, its result
(`none` for a non-nil error) and the instant `Touch` reads. -/
def serveLoop (unmarshal : List UInt8 → Except String pty.ResizeMsg) (sessionID : String)
    (sess : SessionRef) :
    List (List Op × Option (List UInt8) × Time) → InputState → InputState
  | [], acc => acc
  | (others, none, _) :: _, acc => { acc with st := run acc.st others, broke := true }
  | (others, some msg, now) :: rest, acc =>
      serveLoop unmarshal sessionID sess rest
        { st :=
            { sm := (run acc.st others).sm.Touch sessionID now,
              procs := Function.update (run acc.st others).procs sess
                (((run acc.st others).procs sess).HandleInput unmarshal msg) },
          touches := acc.touches ++ [now],
          handled := acc.handled ++ [msg],
          broke := false }

/-- Where a call of `HandleWebSocket` stands.

* `st`            : registry and sessions;
* `actions`       : the calls the handler itself has made on the response, the socket and
                    the spawn primitive, in order;
* `outcome`       : how the connecting phase ended;
* `outputStarted` : the goroutine running `StreamOutput` has been started;
* `touches`, `handled` : the `Touch` instants and the frames of the input loop;
* `returned`      : the handler has returned (`false`: it is blocked in `ReadMessage`). -/
structure Handled where
  st : State
  actions : List Action
  outcome : Outcome
  outputStarted : Bool
  touches : List Time
  handled : List (List UInt8)
  returned : Bool

/-- `Server.HandleWebSocket`: the connecting phase; then, for a registered session, the
start of the output goroutine and the input loop; and, when the loop is left, the
deferred `s.sessions.Remove(sessionID)` and `conn.Close()`. -/
def HandleWebSocket (unmarshal : List UInt8 → Except String pty.ResizeMsg) (cfg : Config)
    (st : State) (r : Request) (env : Answers)
    (rounds : List (List Op × Option (List UInt8) × Time)) : Handled :=
  match (HandleWebSocketConnect cfg st r env).outcome with
  | Outcome.accepted sessionID sess =>
      if (serveLoop unmarshal sessionID sess rounds
          { st := (HandleWebSocketConnect cfg st r env).st, touches := [], handled := [],
            broke := false }).broke then
        { st := Remove (serveLoop unmarshal sessionID sess rounds
              { st := (HandleWebSocketConnect cfg st r env).st, touches := [], handled := [],
                broke := false }).st sessionID,
          actions := (HandleWebSocketConnect cfg st r env).actions ++ [Action.connClose],
          outcome := Outcome.accepted sessionID sess,
          outputStarted := true,
          touches := (serveLoop unmarshal sessionID sess rounds
              { st := (HandleWebSocketConnect cfg st r env).st, touches := [], handled := [],
                broke := false }).touches,
          handled := (serveLoop unmarshal sessionID sess rounds
              { st := (HandleWebSocketConnect cfg st r env).st, touches := [], handled := [],
                broke := false }).handled,
          returned := true }
      else
        { st := (serveLoop unmarshal sessionID sess rounds
              { st := (HandleWebSocketConnect cfg st r env).st, touches := [], handled := [],
                broke := false }).st,
          actions := (HandleWebSocketConnect cfg st r env).actions,
          outcome := Outcome.accepted sessionID sess,
          outputStarted := true,
          touches := (serveLoop unmarshal sessionID sess rounds
              { st := (HandleWebSocketConnect cfg st r env).st, touches := [], handled := [],
                broke := false }).touches,
          handled := (serveLoop unmarshal sessionID sess rounds
              { st := (HandleWebSocketConnect cfg st r env).st, touches := [], handled := [],
                broke := false }).handled,
          returned := false }
  | outcome =>
      { st := (HandleWebSocketConnect cfg st r env).st,
        actions := (HandleWebSocketConnect cfg st r env).actions,
        outcome := outcome,
        outputStarted := false,
        touches := [],
        handled := [],
        returned := true }

end web

/-! ## Go strings and the library functions the other packages call

A Go string is a sequence of bytes; it is modelled as `List UInt8`.  The functions of
the packages `strings` and `path/filepath` (Unix) that the code below calls are modelled
after their documentation. -/

/-- The bytes of a string literal of the source (UTF-8). -/
def utf8 (s : String) : List UInt8 :=
  s.data.flatMap String.utf8EncodeChar

namespace strings

/-- Index of the first occurrence of `substr` in `s`, when there is one. -/
def indexAux (substr : List UInt8) : List UInt8 → Option Nat
  | [] => if substr = [] then some 0 else none
  | b :: rest =>
      if substr.isPrefixOf (b :: rest) then some 0 else (indexAux substr rest).map (· + 1)

/-- `strings.Index(s, substr)`: the index of the first instance of `substr` in `s`, or -1
if `substr` is not present in `s`. -/
def Index (s substr : List UInt8) : Int :=
  match indexAux substr s with
  | some i => i
  | none => -1

/-- `strings.TrimRight(s, cutset)` for a cutset of ASCII characters: `s` without its
trailing bytes contained in `cutset`. -/
def TrimRight (s cutset : List UInt8) : List UInt8 :=
  s.rdropWhile (fun b => decide (b ∈ cutset))

/-- `strings.HasPrefix(s, prefix)`: whether `s` begins with `pre`. -/
def HasPrefix (s pre : List UInt8) : Bool :=
  pre.isPrefixOf s

end strings

namespace filepath

/-- The pieces of a path between its separators `sep` (some may be empty). -/
def split (sep : UInt8) : List UInt8 → List (List UInt8)
  | [] => [[]]
  | b :: rest =>
      if b = sep then [] :: split sep rest
      else
        match split sep rest with
        | [] => [[b]]
        | c :: cs => (b :: c) :: cs

/-- One path element met by `Clean`; `out` holds the elements kept so far, the last one
first.  Empty elements and `.` are dropped; `..` removes the element before it when there
is one that is not `..`, is dropped at the root, and is kept otherwise. -/
def cleanStep (rooted : Bool) (out : List (List UInt8)) (c : List UInt8) : List (List UInt8) :=
  if c = [] ∨ c = utf8 "." then out
  else if c = utf8 ".." then
    match out with
    | [] => if rooted then [] else [c]
    | top :: rest => if top = utf8 ".." then c :: top :: rest else rest
  else c :: out

/-- `filepath.Clean(path)` on Unix: the shortest path name equivalent to `path` by purely
lexical processing. -/
def Clean (path : List UInt8) : List UInt8 :=
  if path = [] then utf8 "."
  else if path.head? = some 0x2f then
    0x2f :: (utf8 "/").intercalate (((split 0x2f path).foldl (cleanStep true) []).reverse)
  else if ((split 0x2f path).foldl (cleanStep false) []) = [] then utf8 "."
  else (utf8 "/").intercalate (((split 0x2f path).foldl (cleanStep false) []).reverse)

/-- `filepath.Join(elem...)`: the non-empty elements joined with the separator and
cleaned; the empty string when every element is empty. -/
def Join (elem : List (List UInt8)) : List UInt8 :=
  if elem.filter (fun e => decide (e ≠ [])) = [] then []
  else Clean ((utf8 "/").intercalate (elem.filter (fun e => decide (e ≠ []))))

/-- The non-empty elements of a path. -/
def elements (path : List UInt8) : List (List UInt8) :=
  (split 0x2f path).filter (fun e => decide (e ≠ []))

end filepath

/-! ## Package `core`: small string functions (`secrets.go`, `builder.go`) -/

namespace core

/-- `MaskKey(key)`: a masked version of an API key for display. -/
def MaskKey (key : List UInt8) : List UInt8 :=
  if key = [] then []
  else if key.length ≤ 8 then utf8 "••••••••"
  else key.take 3 ++ utf8 "•••" ++ key.drop (key.length - 4)

/-- `extractBasePath(siteURL)`: the path component of a URL. -/
def extractBasePath (siteURL : List UInt8) : List UInt8 :=
  if siteURL = [] then []
  else
    let u :=
      if strings.Index siteURL (utf8 "://") ≠ -1 then
        siteURL.drop (strings.Index siteURL (utf8 "://") + 3).toNat
      else siteURL
    if strings.Index u (utf8 "/") ≠ -1 then
      strings.TrimRight (u.drop (strings.Index u (utf8 "/")).toNat) (utf8 "/")
    else []

/-! ### The configuration loader (`config.go`)

The strings of the configuration are decoded from YAML, hence valid UTF-8; they are
modelled as `String`. -/

def ValidLayouts : List String := ["timeline", "grid", "minimal"]

def ValidSorts : List String := ["newest_first", "oldest_first", "alphabetical"]

def isValidLayout (l : String) : Bool :=
  ValidLayouts.any (fun v => v == l)

def isValidSort (s : String) : Bool :=
  ValidSorts.any (fun v => v == s)

structure SiteConfig where
  Name : String
  URL : String
  Description : String
  Author : String
deriving DecidableEq, Repr

structure ContentConfig where
  Dir : String
deriving DecidableEq, Repr

structure BuildConfig where
  OutputDir : String
deriving DecidableEq, Repr

/-- `CollectionConfig`; its field `Sort` is written `Sort_` here, `Sort` being a reserved
word. -/
structure CollectionConfig where
  ItemsPerPage : Int
  DateFormat : String
  Sort_ : String
  Tags : Bool
  Archive : Bool
  Layout : String
deriving DecidableEq, Repr

structure ThemeConfig where
  Name : String
deriving DecidableEq, Repr

structure NavItem where
  Label : String
  Path : String
  Private : Bool
deriving DecidableEq, Repr

/-- The configuration `LoadConfig` returns.  The map `Collections` is the list of its
entries. -/
structure OpenDocConfig where
  Site : SiteConfig
  Content : ContentConfig
  Build : BuildConfig
  Collections : List (String × CollectionConfig)
  Theme : ThemeConfig
  Nav : List NavItem
deriving DecidableEq, Repr

def DefaultSite : SiteConfig :=
  { Name := "My Site", URL := "https://example.com", Description := "", Author := "" }

def DefaultContent : ContentConfig := { Dir := "content" }

def DefaultBuild : BuildConfig := { OutputDir := "dist" }

def DefaultTheme : ThemeConfig := { Name := "default" }

def DefaultCollection : CollectionConfig :=
  { ItemsPerPage := 10, DateFormat := "%B %d, %Y", Sort_ := "newest_first", Tags := true,
    Archive := true, Layout := "timeline" }

/-- A value of type `any` as the YAML decoder produces it: a string, an integer, a
floating-point number (given by its conversion `int(n)`), a boolean, or anything else. -/
inductive YamlValue where
  | str (s : String)
  | int (n : Int)
  | float (truncated : Int)
  | bool (b : Bool)
  | other
deriving DecidableEq, Repr

/-- The structure `rawConfig` the file is decoded into; `none` stands for a nil pointer
or nil map, and a map is the list of its entries in the order `range` visits them. -/
structure rawConfig where
  Site : Option SiteConfig
  Content : Option ContentConfig
  Build : Option BuildConfig
  Collections : Option (List (String × List (String × YamlValue)))
  Blog : Option (List (String × YamlValue))
  Theme : Option ThemeConfig
  Nav : List (List (String × String))
deriving DecidableEq, Repr

/-- `toInt(v)`. -/
def toInt : YamlValue → Option Int
  | .int n => some n
  | .float truncated => some truncated
  | _ => none

/-- The type assertion `v.(string)`. -/
def asString : YamlValue → Option String
  | .str s => some s
  | _ => none

/-- The type assertion `v.(bool)`. -/
def asBool : YamlValue → Option Bool
  | .bool b => some b
  | _ => none

/-- The assignment `m[name] = coll` on a map given by its entries. -/
def setCollection (m : List (String × CollectionConfig)) (name : String)
    (coll : CollectionConfig) : List (String × CollectionConfig) :=
  m.filter (fun p => decide (p.1 ≠ name)) ++ [(name, coll)]

/-- The collection the loop of `parseCollections` builds from the settings of one entry of
`collections:`, before it is validated: `DefaultCollection` with the fields overwritten
whose key is present with a value of the right type. -/
def collectionOf (settings : List (String × YamlValue)) : CollectionConfig :=
  { ItemsPerPage :=
      ((settings.lookup "items_per_page").bind toInt).getD DefaultCollection.ItemsPerPage,
    DateFormat := ((settings.lookup "date_format").bind asString).getD DefaultCollection.DateFormat,
    Sort_ := ((settings.lookup "sort").bind asString).getD DefaultCollection.Sort_,
    Tags := ((settings.lookup "tags").bind asBool).getD DefaultCollection.Tags,
    Archive := ((settings.lookup "archive").bind asBool).getD DefaultCollection.Archive,
    Layout := ((settings.lookup "layout").bind asString).getD DefaultCollection.Layout }

/-- The collection `parseCollections` builds from the legacy `blog:` section. -/
def legacyCollection (blog : List (String × YamlValue)) : CollectionConfig :=
  { ItemsPerPage :=
      ((blog.lookup "posts_per_page").bind toInt).getD DefaultCollection.ItemsPerPage,
    DateFormat := ((blog.lookup "date_format").bind asString).getD DefaultCollection.DateFormat,
    Sort_ := ((blog.lookup "sort").bind asString).getD DefaultCollection.Sort_,
    Tags := ((blog.lookup "tags").bind asBool).getD DefaultCollection.Tags,
    Archive := ((blog.lookup "archive").bind asBool).getD DefaultCollection.Archive,
    Layout := DefaultCollection.Layout }

/-- The loop `for name, settings := range raw.Collections` of `parseCollections`. -/
def parseEach : List (String × List (String × YamlValue)) → OpenDocConfig →
    Except String OpenDocConfig
  | [], cfg => .ok cfg
  | (name, settings) :: rest, cfg =>
      if !isValidLayout (collectionOf settings).Layout then
        .error ("invalid layout '" ++ (collectionOf settings).Layout ++ "' for collection '" ++
          name ++ "'. Must be one of: " ++ ", ".intercalate ValidLayouts)
      else if !isValidSort (collectionOf settings).Sort_ then
        .error ("invalid sort '" ++ (collectionOf settings).Sort_ ++ "' for collection '" ++
          name ++ "'. Must be one of: " ++ ", ".intercalate ValidSorts)
      else
        parseEach rest
          { cfg with Collections := setCollection cfg.Collections name (collectionOf settings) }

/-- `parseCollections(raw, cfg)`: the configuration afterwards, or the error. -/
def parseCollections (raw : rawConfig) (cfg : OpenDocConfig) : Except String OpenDocConfig :=
  match raw.Collections with
  | some collections => parseEach collections cfg
  | none =>
      match raw.Blog with
      | some blog =>
          .ok { cfg with
                Collections := setCollection cfg.Collections
                  (if raw.Content.isSome then
                    ((blog.lookup "posts_dir").bind asString).getD "posts"
                  else "posts")
                  (legacyCollection blog) }
      | none => .ok cfg

/-- One entry of `nav:`; a trailing `?` marks a page as private. -/
def navItem (label rawPath : String) : NavItem :=
  { Label := label,
    Path :=
      if (if rawPath.endsWith "?" then rawPath.dropRight 1 else rawPath) = "index.md" then ""
      else if (if rawPath.endsWith "?" then rawPath.dropRight 1 else rawPath).endsWith ".md" then
        ((if rawPath.endsWith "?" then rawPath.dropRight 1 else rawPath).dropRight 3) ++ "/"
      else (if rawPath.endsWith "?" then rawPath.dropRight 1 else rawPath),
    Private := rawPath.endsWith "?" }

/-- `LoadConfig(projectDir)`.  `file` is what `os.ReadFile` returns for `opendoc.yml`
(`none` for an error) and `unmarshal` stands for `yaml.Unmarshal` into a fresh
`rawConfig`. -/
def LoadConfig (unmarshal : List UInt8 → Except String rawConfig) (projectDir : String)
    (file : Option (List UInt8)) : Except String OpenDocConfig :=
  match file with
  | none => .error ("no opendoc.yml found in " ++ projectDir)
  | some data =>
      match unmarshal data with
      | .error e => .error ("invalid opendoc.yml: " ++ e)
      | .ok raw =>
          parseCollections raw
            { Site :=
                match raw.Site with
                | some site =>
                    { Name := if site.Name ≠ "" then site.Name else DefaultSite.Name,
                      URL := if site.URL ≠ "" then site.URL else DefaultSite.URL,
                      Description :=
                        if site.Description ≠ "" then site.Description
                        else DefaultSite.Description,
                      Author := if site.Author ≠ "" then site.Author else DefaultSite.Author }
                | none => DefaultSite,
              Content :=
                match raw.Content with
                | some content => if content.Dir ≠ "" then content else DefaultContent
                | none => DefaultContent,
              Build :=
                match raw.Build with
                | some build => if build.OutputDir ≠ "" then build else DefaultBuild
                | none => DefaultBuild,
              Collections := [],
              Theme :=
                match raw.Theme with
                | some theme => if theme.Name ≠ "" then theme else DefaultTheme
                | none => DefaultTheme,
              Nav := (raw.Nav.map (fun item => item.map (fun p => navItem p.1 p.2))).flatten }

end core

/-! ## The access check of the file API and of the chat tools -/

namespace server

/-- The first statements of each of the four handlers `GET`, `PUT`, `POST` and `DELETE`
`/api/files/*` of `RegisterFileRoutes`: the path the handler goes on to use, or the status
and error of the response it writes. -/
def fileRouteAccess (workspace relPath : List UInt8) : Except (Nat × String) (List UInt8) :=
  if !strings.HasPrefix (filepath.Join [workspace, relPath]) workspace then
    .error (403, "Access denied")
  else .ok (filepath.Join [workspace, relPath])

/-- The claim's words for a path that is the workspace directory itself or lies inside
it: the elements of the workspace path are the first elements of the path. -/
def withinWorkspace (workspace absPath : List UInt8) : Bool :=
  (filepath.elements (filepath.Clean workspace)).isPrefixOf (filepath.elements absPath)

end server

namespace chat

/-- The first statements of `toolReadFile`, `toolWriteFile` and `toolEditFile`: the path
the tool goes on to use, or the error it returns. -/
def toolAccess (relPath workspace : List UInt8) : Except String (List UInt8) :=
  if !strings.HasPrefix (filepath.Join [workspace, relPath]) workspace then
    .error "Access denied"
  else .ok (filepath.Join [workspace, relPath])

/-- The first statements of `toolListFiles`, which reads an empty path as `.`. -/
def toolListFilesAccess (relPath workspace : List UInt8) : Except String (List UInt8) :=
  toolAccess (if relPath = [] then utf8 "." else relPath) workspace

end chat

namespace web

/-- The entry of `id` holds the session `sess`, or `id` has no entry and `Close` has been
called on `sess`. -/
def heldOrClosed (st : State) (id : String) (sess : SessionRef) : Prop :=
  (∃ e, st.sm.sessions.lookup id = some e ∧ e.session = sess) ∨
    (st.sm.sessions.lookup id = none ∧ (st.procs sess).done = true)

/-- Value of a string of decimal digits. -/
def decimalValue (l : List Char) : Nat :=
  l.foldl (fun a c => 10 * a + (c.toNat - 48)) 0

/-! ### Length of the map under insertion, deletion and replacement -/

theorem length_entries_eq_keys (m : AList (fun _ : String => sessionEntry)) :
    m.entries.length = m.keys.length := by
  simp [AList.keys, List.keys]

theorem length_erase_le (m : AList (fun _ : String => sessionEntry)) (id : String) :
    (m.erase id).entries.length ≤ m.entries.length := by
  rw [length_entries_eq_keys, length_entries_eq_keys, AList.keys_erase]
  exact (List.erase_sublist id m.keys).length_le

theorem length_erase_of_mem (m : AList (fun _ : String => sessionEntry)) (id : String)
    (h : id ∈ m) : (m.erase id).entries.length = m.entries.length - 1 := by
  rw [length_entries_eq_keys, length_entries_eq_keys, AList.keys_erase]
  exact List.length_erase_of_mem (AList.mem_keys.mp h)

theorem length_insert_le (m : AList (fun _ : String => sessionEntry)) (id : String)
    (e : sessionEntry) : (m.insert id e).entries.length ≤ m.entries.length + 1 := by
  rw [AList.insert_entries, List.length_cons]
  exact Nat.succ_le_succ (List.kerase_sublist id m.entries).length_le

theorem length_insert_of_not_mem (m : AList (fun _ : String => sessionEntry)) (id : String)
    (e : sessionEntry) (h : id ∉ m) :
    (m.insert id e).entries.length = m.entries.length + 1 := by
  rw [AList.insert_entries_of_neg h, List.length_cons]

theorem length_insert_of_mem (m : AList (fun _ : String => sessionEntry)) (id : String)
    (e : sessionEntry) (h : id ∈ m) :
    (m.insert id e).entries.length = m.entries.length := by
  have hk : id ∈ m.keys := AList.mem_keys.mp h
  have hpos : 0 < m.keys.length := List.length_pos_of_mem hk
  rw [length_entries_eq_keys, AList.keys_insert, List.length_cons,
    List.length_erase_of_mem hk, length_entries_eq_keys]
  omega

theorem length_replace (m : AList (fun _ : String => sessionEntry)) (id : String)
    (e : sessionEntry) : (m.replace id e).entries.length = m.entries.length := by
  rw [length_entries_eq_keys, length_entries_eq_keys, AList.keys_replace]

theorem dlookup_kreplace (l : List (Sigma (fun _ : String => sessionEntry))) (id id2 : String)
    (e : sessionEntry) :
    List.dlookup id2 (List.kreplace id e l) =
      if id2 = id then (List.dlookup id l).map (fun _ => e) else List.dlookup id2 l := by
  induction l with
  | nil => simp [List.kreplace]
  | cons hd tl ih =>
      obtain ⟨k, v⟩ := hd
      by_cases hk : id = k
      · subst hk
        have : List.kreplace id e (⟨id, v⟩ :: tl) = ⟨id, e⟩ :: tl := by
          simp [List.kreplace, List.lookmap_cons_some]
        rw [this]
        by_cases h2 : id2 = id
        · subst h2
          simp [List.dlookup_cons_eq]
        · simp [h2, List.dlookup_cons_ne]
      · have : List.kreplace id e (⟨k, v⟩ :: tl) = ⟨k, v⟩ :: List.kreplace id e tl := by
          simp [List.kreplace, List.lookmap_cons_none, hk]
        rw [this]
        by_cases h2 : id2 = k
        · subst h2
          have h3 : id2 ≠ id := fun h => hk h.symm
          simp [List.dlookup_cons_eq, h3]
        · have e1 : ∀ t : List (Sigma (fun _ : String => sessionEntry)),
              List.dlookup id2 (⟨k, v⟩ :: t) = List.dlookup id2 t :=
            fun t => List.dlookup_cons_ne t ⟨k, v⟩ h2
          have e2 : List.dlookup id (⟨k, v⟩ :: tl) = List.dlookup id tl :=
            List.dlookup_cons_ne tl ⟨k, v⟩ hk
          rw [e1, e1, e2, ih]

theorem lookup_replace (m : AList (fun _ : String => sessionEntry)) (id id2 : String)
    (e : sessionEntry) :
    (m.replace id e).lookup id2 =
      if id2 = id then (m.lookup id).map (fun _ => e) else m.lookup id2 :=
  dlookup_kreplace m.entries id id2 e

/-! ### The capacity invariant -/

theorem Add_maxSessions (sm : SessionManager) (id : String) (s : SessionRef) (now : Time) :
    (sm.Add id s now).2.maxSessions = sm.maxSessions := by
  unfold SessionManager.Add
  split <;> rfl

theorem Add_count_le (sm : SessionManager) (id : String) (s : SessionRef) (now : Time)
    (B : Int) (hB : sm.maxSessions ≤ B) (h : (sm.Count : Int) ≤ B) :
    ((sm.Add id s now).2.Count : Int) ≤ B := by
  unfold SessionManager.Add
  split
  · exact h
  · rename_i hlt
    have hle := length_insert_le sm.sessions id { session := s, lastActivity := now }
    simp only [SessionManager.Count] at h ⊢
    omega

theorem Touch_maxSessions (sm : SessionManager) (id : String) (now : Time) :
    (sm.Touch id now).maxSessions = sm.maxSessions := by
  unfold SessionManager.Touch
  split <;> rfl

theorem Touch_count (sm : SessionManager) (id : String) (now : Time) :
    (sm.Touch id now).Count = sm.Count := by
  unfold SessionManager.Touch
  split
  · simp only [SessionManager.Count]
    exact length_replace _ _ _
  · rfl

theorem Remove_maxSessions (st : State) (id : String) :
    (Remove st id).sm.maxSessions = st.sm.maxSessions := by
  unfold Remove
  split <;> rfl

theorem Remove_count_le (st : State) (id : String) :
    (Remove st id).sm.Count ≤ st.sm.Count := by
  unfold Remove
  split
  · exact length_erase_le _ _
  · exact Nat.le_refl _

theorem reaperVisit_maxSessions (now : Time) (st : State) (id : String) :
    (reaperVisit now st id).sm.maxSessions = st.sm.maxSessions := by
  unfold reaperVisit
  split
  · split
    · rfl
    · split <;> rfl
  · rfl

theorem reaperVisit_count_le (now : Time) (st : State) (id : String) :
    (reaperVisit now st id).sm.Count ≤ st.sm.Count := by
  unfold reaperVisit
  split
  · split
    · exact length_erase_le _ _
    · split
      · exact length_erase_le _ _
      · exact Nat.le_refl _
  · exact Nat.le_refl _

theorem foldl_reaperVisit_bound (now : Time) (ids : List String) (st : State) :
    ((ids.foldl (reaperVisit now) st).sm.maxSessions = st.sm.maxSessions) ∧
      (ids.foldl (reaperVisit now) st).sm.Count ≤ st.sm.Count := by
  induction ids generalizing st with
  | nil => exact ⟨rfl, Nat.le_refl _⟩
  | cons id ids ih =>
      obtain ⟨h1, h2⟩ := ih (reaperVisit now st id)
      rw [List.foldl_cons]
      exact ⟨h1.trans (reaperVisit_maxSessions now st id),
        h2.trans (reaperVisit_count_le now st id)⟩

theorem step_maxSessions (st : State) (op : Op) :
    (step st op).sm.maxSessions = st.sm.maxSessions := by
  cases op with
  | add id s now => exact Add_maxSessions st.sm id s now
  | touch id now => exact Touch_maxSessions st.sm id now
  | remove id => exact Remove_maxSessions st id
  | get id => rfl
  | canAccept => rfl
  | sweep now order => exact (foldl_reaperVisit_bound now _ st).1

theorem step_count_le (st : State) (op : Op) (B : Int) (hB : st.sm.maxSessions ≤ B)
    (h : (st.sm.Count : Int) ≤ B) : ((step st op).sm.Count : Int) ≤ B := by
  cases op with
  | add id s now => exact Add_count_le st.sm id s now B hB h
  | touch id now =>
      show ((st.sm.Touch id now).Count : Int) ≤ B
      rw [Touch_count]; exact h
  | remove id =>
      have := Remove_count_le st id
      show ((Remove st id).sm.Count : Int) ≤ B
      omega
  | get id => exact h
  | canAccept => exact h
  | sweep now order =>
      have := (foldl_reaperVisit_bound now (rangeOrder order st.sm.sessions.keys) st).2
      show ((reaperSweep now order st).sm.Count : Int) ≤ B
      unfold reaperSweep
      omega

/-- A bound `B` that is at least `maxSessions` and at least the current count stays a
bound on the count after any sequence of operations; `maxSessions` never changes. -/
theorem run_bound (ops : List Op) (st : State) (B : Int) (hB : st.sm.maxSessions ≤ B)
    (h : (st.sm.Count : Int) ≤ B) :
    (run st ops).sm.maxSessions = st.sm.maxSessions ∧ ((run st ops).sm.Count : Int) ≤ B := by
  induction ops generalizing st with
  | nil => exact ⟨rfl, h⟩
  | cons op ops ih =>
      have h1 := step_maxSessions st op
      have h2 := step_count_le st op B hB h
      obtain ⟨h3, h4⟩ := ih (step st op) (by rw [h1]; exact hB) h2
      unfold run at h3 h4 ⊢
      rw [List.foldl_cons]
      exact ⟨h3.trans h1, h4⟩

/-- C1: for a registry created by `NewSessionManager` with `maxSessions ≥ 0`, whatever
the stored sessions are and whatever finite sequence of add, touch, remove, get,
canAccept and reaper-sweep operations is applied, the number of registered sessions
after any number `k` of these steps is at most `maxSessions`. -/
theorem C1_count_never_exceeds_maxSessions (maxSessions idleTimeout : Int)
    (procs : SessionRef → pty.Session) (ops : List Op) (k : Nat) (hmax : 0 ≤ maxSessions) :
    ((run { sm := NewSessionManager maxSessions idleTimeout, procs := procs }
        (ops.take k)).sm.Count : Int) ≤ maxSessions :=
  (run_bound (ops.take k) { sm := NewSessionManager maxSessions idleTimeout, procs := procs }
    maxSessions (Int.le_refl _)
    (by simpa [NewSessionManager, SessionManager.Count] using hmax)).2

/-- C1 at a registry of capacity one that is offered two sessions. -/
theorem C1_count_never_exceeds_maxSessions_witness :
    (0 : Int) ≤ 1 ∧
      ((run { sm := NewSessionManager 1 0, procs := fun _ => pty.Spawn }
        ([Op.add "A" 0 10, Op.add "B" 1 20].take 2)).sm.Count : Int) ≤ 1 :=
  ⟨by decide,
    C1_count_never_exceeds_maxSessions 1 0 (fun _ => pty.Spawn)
      [Op.add "A" 0 10, Op.add "B" 1 20] 2 (by decide)⟩

/-! ### `Add` -/

theorem GetSession_insert (sm : SessionManager) (id : String) (e : sessionEntry) :
    SessionManager.GetSession { sm with sessions := sm.sessions.insert id e } id
      = some e.session := by
  simp [SessionManager.GetSession, AList.lookup_insert]

/-- C2: for every registry, id, session and instant, `Add` returns false exactly when
the registry is full (count ≥ maxSessions); when it is full the registry is returned
unchanged (same map, hence same ids, sessions and lastActivity values, and same limits);
when it is not full `Add` returns true and `GetSession id` afterwards yields the session
that was given. -/
theorem C2_add_false_iff_full (sm : SessionManager) (id : String) (s : SessionRef) (now : Time) :
    ((sm.Add id s now).1 = false ↔ (sm.Count : Int) ≥ sm.maxSessions) ∧
    (((sm.Count : Int) ≥ sm.maxSessions ∧ (sm.Add id s now).2 = sm) ∨
      (¬ (sm.Count : Int) ≥ sm.maxSessions ∧ (sm.Add id s now).1 = true ∧
        (sm.Add id s now).2.GetSession id = some s)) := by
  unfold SessionManager.Add SessionManager.Count
  by_cases h : (sm.sessions.entries.length : Int) ≥ sm.maxSessions
  · rw [if_pos h]
    exact ⟨⟨fun _ => h, fun _ => rfl⟩, Or.inl ⟨h, rfl⟩⟩
  · rw [if_neg h]
    refine ⟨⟨fun hf => absurd hf (by simp), fun hf => absurd hf h⟩, Or.inr ⟨h, rfl, ?_⟩⟩
    exact GetSession_insert sm id { session := s, lastActivity := now }

theorem GetSession_eq_of_lookup (sm : SessionManager) (id : String) (e : sessionEntry)
    (h : sm.sessions.lookup id = some e) : sm.GetSession id = some e.session := by
  simp [SessionManager.GetSession, h]

theorem Add_of_full (sm : SessionManager) (id : String) (s : SessionRef) (now : Time)
    (h : (sm.Count : Int) ≥ sm.maxSessions) : sm.Add id s now = (false, sm) := by
  unfold SessionManager.Add
  exact if_pos h

theorem Add_of_not_full (sm : SessionManager) (id : String) (s : SessionRef) (now : Time)
    (h : (sm.Count : Int) < sm.maxSessions) :
    sm.Add id s now =
      (true, { sm with sessions := sm.sessions.insert id { session := s, lastActivity := now } }) := by
  unfold SessionManager.Add
  exact if_neg (by simpa [SessionManager.Count] using h)

/-- Presenting requests with pairwise distinct ids, none of them registered yet: the
`i`-th call succeeds exactly while the count it meets is below `maxSessions`, ids that
are not presented keep their entry, and every successful request is found afterwards. -/
theorem addAll_spec (reqs : List (String × SessionRef × Time)) :
    ∀ sm : SessionManager, (reqs.map Prod.fst).Nodup → (∀ r ∈ reqs, r.1 ∉ sm.sessions) →
      (addAll sm reqs).1 =
          (List.range reqs.length).map (fun i => decide (((sm.Count + i : Nat) : Int) < sm.maxSessions)) ∧
        (∀ id, (∀ r ∈ reqs, r.1 ≠ id) →
          (addAll sm reqs).2.sessions.lookup id = sm.sessions.lookup id) ∧
        (∀ (i : Nat) (h : i < reqs.length), ((sm.Count + i : Nat) : Int) < sm.maxSessions →
          (addAll sm reqs).2.sessions.lookup (reqs.get ⟨i, h⟩).1 =
            some { session := (reqs.get ⟨i, h⟩).2.1, lastActivity := (reqs.get ⟨i, h⟩).2.2 }) ∧
        (addAll sm reqs).2.Count = sm.Count + min reqs.length (sm.maxSessions - sm.Count).toNat := by
  induction reqs with
  | nil =>
      intro sm _ _
      refine ⟨rfl, fun _ _ => rfl, fun i h => absurd h (Nat.not_lt_zero i), ?_⟩
      simp [addAll]
  | cons r rest ih =>
      obtain ⟨id, s, now⟩ := r
      intro sm hnd hfresh
      have hnd2 : id ∉ rest.map Prod.fst ∧ (rest.map Prod.fst).Nodup := by
        simpa using hnd
      have hid : id ∉ sm.sessions := hfresh (id, s, now) (List.mem_cons_self _ _)
      have hne : ∀ r ∈ rest, r.1 ≠ id := fun r hr heq =>
        hnd2.1 (List.mem_map.mpr ⟨r, hr, heq⟩)
      by_cases hfull : (sm.Count : Int) ≥ sm.maxSessions
      · -- the registry is full: nothing registers any more
        have hrest : ∀ r ∈ rest, r.1 ∉ sm.sessions := fun r hr =>
          hfresh r (List.mem_cons_of_mem _ hr)
        obtain ⟨h1, h2, _, h4⟩ := ih sm hnd2.2 hrest
        have hadd := Add_of_full sm id s now hfull
        simp only [addAll, hadd]
        refine ⟨?_, ?_, ?_, ?_⟩
        · rw [h1, List.length_cons, List.range_succ_eq_map, List.map_cons, List.map_map]
          congr 1
          · simp only [Nat.add_zero]
            exact (decide_eq_false (by omega)).symm
          · apply List.map_congr_left
            intro i _
            simp only [Function.comp]
            rw [decide_eq_false (by omega), decide_eq_false (by omega)]
        · intro id2 hid2
          exact h2 id2 (fun r hr => hid2 r (List.mem_cons_of_mem _ hr))
        · intro i _ hlt
          exfalso; omega
        · rw [h4, List.length_cons]
          omega
      · -- there is room: the request registers
        have hlt : (sm.Count : Int) < sm.maxSessions := by omega
        have hadd := Add_of_not_full sm id s now hlt
        have hcount : SessionManager.Count
            { sm with sessions := sm.sessions.insert id { session := s, lastActivity := now } }
              = sm.Count + 1 := length_insert_of_not_mem _ _ _ hid
        have hrest : ∀ r ∈ rest, r.1 ∉ (sm.sessions.insert id
            { session := s, lastActivity := now }) := fun r hr hmem => by
          rcases (AList.mem_insert _).mp hmem with h | h
          · exact hne r hr h
          · exact hfresh r (List.mem_cons_of_mem _ hr) h
        obtain ⟨h1, h2, h3, h4⟩ :=
          ih { sm with sessions := sm.sessions.insert id { session := s, lastActivity := now } }
            hnd2.2 hrest
        rw [hcount] at h1 h3 h4
        simp only [addAll, hadd]
        refine ⟨?_, ?_, ?_, ?_⟩
        · rw [h1, List.length_cons, List.range_succ_eq_map, List.map_cons, List.map_map]
          congr 1
          · simp only [Nat.add_zero]
            exact (decide_eq_true hlt).symm
          · apply List.map_congr_left
            intro i _
            simp only [Function.comp]
            have : sm.Count + 1 + i = sm.Count + (i + 1) := by omega
            rw [this]
        · intro id2 hid2
          rw [h2 id2 (fun r hr => hid2 r (List.mem_cons_of_mem _ hr))]
          exact AList.lookup_insert_ne (fun h => hid2 (id, s, now) (List.mem_cons_self _ _) h.symm)
        · intro i hi hilt
          cases i with
          | zero =>
              show AList.lookup id _ = _
              rw [h2 id hne]
              exact AList.lookup_insert _
          | succ j =>
              have hj : j < rest.length := by simpa using hi
              have := h3 j hj (by
                have : sm.Count + 1 + j = sm.Count + (j + 1) := by omega
                rw [this]; exact hilt)
              simpa using this
        · rw [h4, List.length_cons]
          show sm.Count + 1 + min rest.length (sm.maxSessions - ((sm.Count + 1 : Nat) : Int)).toNat = _
          omega

/-- C3: starting from the empty registry `NewSessionManager M T` and presenting requests
with pairwise distinct ids in any order (any list), the `i`-th call of `Add` (counting
from 0) returns true exactly when `i < M`: the first `M` requests register and every
later one is rejected.  Every request that registered is found by `GetSession`, and the
final count is the smaller of the number of requests and `M`. -/
theorem C3_first_M_register_rest_rejected (M T : Int) (reqs : List (String × SessionRef × Time))
    (hdistinct : (reqs.map Prod.fst).Nodup) :
    (addAll (NewSessionManager M T) reqs).1 =
        (List.range reqs.length).map (fun (i : Nat) => decide ((i : Int) < M)) ∧
      (∀ (i : Nat) (h : i < reqs.length), (i : Int) < M →
        (addAll (NewSessionManager M T) reqs).2.GetSession (reqs.get ⟨i, h⟩).1 =
          some (reqs.get ⟨i, h⟩).2.1) ∧
      (addAll (NewSessionManager M T) reqs).2.Count = min reqs.length M.toNat := by
  have hempty : (NewSessionManager M T).Count = 0 := rfl
  have hmaxS : (NewSessionManager M T).maxSessions = M := rfl
  obtain ⟨h1, _, h3, h4⟩ := addAll_spec reqs (NewSessionManager M T) hdistinct
    (fun r _ => AList.not_mem_empty r.1)
  rw [hempty, hmaxS] at h1 h3 h4
  refine ⟨?_, ?_, ?_⟩
  · rw [h1]
    apply List.map_congr_left
    intro i _
    simp
  · intro i h hi
    exact GetSession_eq_of_lookup _ _ _ (h3 i h (by simpa using hi))
  · rw [h4]
    simp

/-- C3 with capacity two and three requests: the results are true, true, false. -/
theorem C3_first_M_register_rest_rejected_witness :
    ([("a", 1, 10), ("b", 2, 20), ("c", 3, 30)].map Prod.fst : List String).Nodup ∧
      (addAll (NewSessionManager 2 0) [("a", 1, 10), ("b", 2, 20), ("c", 3, 30)]).1 =
        [true, true, false] :=
  ⟨by decide,
    (C3_first_M_register_rest_rejected 2 0 [("a", 1, 10), ("b", 2, 20), ("c", 3, 30)]
      (by decide)).1.trans (by decide)⟩

/-! ### `Remove` frees a slot -/

theorem Remove_count_of_mem (st : State) (id : String) (h : id ∈ st.sm.sessions) :
    (Remove st id).sm.Count = st.sm.Count - 1 := by
  obtain ⟨e, he⟩ := Option.isSome_iff_exists.mp (AList.lookup_isSome.mpr h)
  simp only [Remove, he, SessionManager.Count]
  exact length_erase_of_mem _ _ h

theorem count_pos_of_mem (sm : SessionManager) (id : String) (h : id ∈ sm.sessions) :
    0 < sm.Count := by
  unfold SessionManager.Count
  rw [length_entries_eq_keys]
  exact List.length_pos_of_mem (AList.mem_keys.mp h)

/-- C4: (scenario) in a registry created with `maxSessions = 1` and `idleTimeout = 0`,
`Add` of a first id succeeds, a following `Add` of a second id is rejected, and after
`Remove` of the first id the `Add` of the second id succeeds; (general) in every registry
reached from `NewSessionManager` by any sequence of operations, if the registry is full
(count ≥ maxSessions) and `id` is registered, then `Remove id` lowers the count by one
and the next `Add` (of a fresh id or of any id) returns true. -/
theorem C4_remove_frees_a_slot :
    (∀ (a b : String) (sa sb : SessionRef) (t1 t2 t3 : Time) (procs : SessionRef → pty.Session),
      ((NewSessionManager 1 0).Add a sa t1).1 = true ∧
      ((((NewSessionManager 1 0).Add a sa t1).2).Add b sb t2).1 = false ∧
      (((Remove { sm := ((((NewSessionManager 1 0).Add a sa t1).2).Add b sb t2).2,
                  procs := procs } a).sm).Add b sb t3).1 = true) ∧
    (∀ (M T : Int) (procs : SessionRef → pty.Session) (ops : List Op)
      (id id2 : String) (s : SessionRef) (now : Time),
      ((run { sm := NewSessionManager M T, procs := procs } ops).sm.Count : Int) ≥
          (run { sm := NewSessionManager M T, procs := procs } ops).sm.maxSessions →
      id ∈ (run { sm := NewSessionManager M T, procs := procs } ops).sm.sessions →
      (Remove (run { sm := NewSessionManager M T, procs := procs } ops) id).sm.Count + 1 =
          (run { sm := NewSessionManager M T, procs := procs } ops).sm.Count ∧
        ((Remove (run { sm := NewSessionManager M T, procs := procs } ops) id).sm.Add
          id2 s now).1 = true) := by
  constructor
  · intro a b sa sb t1 t2 t3 procs
    have h1 : (NewSessionManager 1 0).Add a sa t1 =
        (true, { NewSessionManager 1 0 with
          sessions := (NewSessionManager 1 0).sessions.insert a { session := sa, lastActivity := t1 } }) :=
      Add_of_not_full _ _ _ _ (by decide)
    have h2 : ∀ sm : SessionManager, sm = ((NewSessionManager 1 0).Add a sa t1).2 →
        sm.Add b sb t2 = (false, sm) := by
      intro sm hsm
      apply Add_of_full
      rw [hsm, h1]
      simp [SessionManager.Count, NewSessionManager, AList.insert_entries]
    refine ⟨by rw [h1], by rw [h2 _ rfl], ?_⟩
    rw [h2 _ rfl, h1]
    have hmem : a ∈ (AList.insert a ({ session := sa, lastActivity := t1 } : sessionEntry)
        (NewSessionManager 1 0).sessions) := (AList.mem_insert _).mpr (Or.inl rfl)
    have hc := Remove_count_of_mem
      { sm := { NewSessionManager 1 0 with
          sessions := (NewSessionManager 1 0).sessions.insert a { session := sa, lastActivity := t1 } },
        procs := procs } a hmem
    have hm := Remove_maxSessions
      { sm := { NewSessionManager 1 0 with
          sessions := (NewSessionManager 1 0).sessions.insert a { session := sa, lastActivity := t1 } },
        procs := procs } a
    rw [Add_of_not_full]
    rw [hm, hc]
    simp [SessionManager.Count, NewSessionManager, AList.insert_entries]
  · intro M T procs ops id id2 s now hfull hreg
    obtain ⟨hmax, hbound⟩ := run_bound ops { sm := NewSessionManager M T, procs := procs }
      (max M 0) (le_max_left _ _) (by simp [NewSessionManager, SessionManager.Count])
    have hpos := count_pos_of_mem _ id hreg
    have hc := Remove_count_of_mem _ id hreg
    have hm := Remove_maxSessions (run { sm := NewSessionManager M T, procs := procs } ops) id
    rw [hmax] at hfull hm
    have hM : (NewSessionManager M T).maxSessions = M := rfl
    rw [hM] at hfull hm
    have hle : ((run { sm := NewSessionManager M T, procs := procs } ops).sm.Count : Int) ≤ M := by
      rcases le_max_iff.mp hbound with h | h
      · exact h
      · omega
    refine ⟨by omega, ?_⟩
    rw [Add_of_not_full]
    rw [hm, hc]
    omega

/-- C4, general part, at the registry of capacity one holding `A`. -/
theorem C4_remove_frees_a_slot_witness :
    ((run { sm := NewSessionManager 1 0, procs := fun _ => pty.Spawn } [Op.add "A" 1 10]).sm.Count : Int) ≥
        (run { sm := NewSessionManager 1 0, procs := fun _ => pty.Spawn } [Op.add "A" 1 10]).sm.maxSessions ∧
      "A" ∈ (run { sm := NewSessionManager 1 0, procs := fun _ => pty.Spawn } [Op.add "A" 1 10]).sm.sessions ∧
      ((Remove (run { sm := NewSessionManager 1 0, procs := fun _ => pty.Spawn } [Op.add "A" 1 10])
        "A").sm.Add "B" 2 30).1 = true :=
  ⟨by decide, by decide,
    (C4_remove_frees_a_slot.2 1 0 (fun _ => pty.Spawn) [Op.add "A" 1 10] "A" "B" 2 30
      (by decide) (by decide)).2⟩

/-! ### `CanAccept` -/

/-- C5: for every registry state, `CanAccept` returns true exactly when
count < maxSessions, the operation leaves the state as it is, and its result is the
boolean that `Add` (with any id, session and instant) returns on that same state. -/
theorem C5_canAccept_agrees_with_add (st : State) (id : String) (s : SessionRef) (now : Time) :
    (st.sm.CanAccept = true ↔ (st.sm.Count : Int) < st.sm.maxSessions) ∧
      step st Op.canAccept = st ∧
      st.sm.CanAccept = (st.sm.Add id s now).1 := by
  refine ⟨by simp [SessionManager.CanAccept, SessionManager.Count], rfl, ?_⟩
  unfold SessionManager.CanAccept SessionManager.Add
  by_cases h : (st.sm.sessions.entries.length : Int) ≥ st.sm.maxSessions
  · rw [if_pos h]
    exact decide_eq_false (by omega)
  · rw [if_neg h]
    exact decide_eq_true (by omega)

/-! ### `Touch` -/

theorem Touch_lookup (sm : SessionManager) (id id2 : String) (now : Time) :
    (sm.Touch id now).sessions.lookup id2 =
      if id2 = id then (sm.sessions.lookup id).map (fun e => { e with lastActivity := now })
      else sm.sessions.lookup id2 := by
  unfold SessionManager.Touch
  cases h : sm.sessions.lookup id with
  | none =>
      by_cases h2 : id2 = id
      · subst h2
        simp [h]
      · simp [h2]
  | some e =>
      simp only [lookup_replace, h, Option.map_some']

/-- C6: for every state, id and instant `now`: after `Touch id` the entry of `id`, when
there is one, is the old entry with `lastActivity` set to `now`; the entries of all
other ids (their session and their lastActivity), the list of ids, the count, the session
every id maps to, the two limits and the store of sessions are unchanged; and when `id`
is not registered the registry after `Touch` equals the registry before.  `Touch`
returns nothing, so there is no error to report. -/
theorem C6_touch_updates_only_lastActivity (st : State) (id : String) (now : Time) :
    (st.sm.Touch id now).sessions.lookup id =
        (st.sm.sessions.lookup id).map (fun e => { e with lastActivity := now }) ∧
      (∀ id2, id2 ≠ id →
        (st.sm.Touch id now).sessions.lookup id2 = st.sm.sessions.lookup id2) ∧
      (st.sm.Touch id now).sessions.keys = st.sm.sessions.keys ∧
      (st.sm.Touch id now).Count = st.sm.Count ∧
      (∀ id2, (st.sm.Touch id now).GetSession id2 = st.sm.GetSession id2) ∧
      (st.sm.Touch id now).maxSessions = st.sm.maxSessions ∧
      (st.sm.Touch id now).idleTimeout = st.sm.idleTimeout ∧
      (step st (Op.touch id now)).procs = st.procs ∧
      (st.sm.sessions.lookup id = none → st.sm.Touch id now = st.sm) := by
  refine ⟨?_, ?_, ?_, Touch_count _ _ _, ?_, Touch_maxSessions _ _ _, ?_, rfl, ?_⟩
  · rw [Touch_lookup, if_pos rfl]
  · intro id2 h
    rw [Touch_lookup, if_neg h]
  · unfold SessionManager.Touch
    split
    · exact AList.keys_replace _ _ _
    · rfl
  · intro id2
    unfold SessionManager.GetSession
    rw [Touch_lookup]
    by_cases h : id2 = id
    · subst h
      rw [if_pos rfl]
      cases st.sm.sessions.lookup id2 <;> rfl
    · rw [if_neg h]
  · unfold SessionManager.Touch
    split <;> rfl
  · intro h
    unfold SessionManager.Touch
    rw [h]

/-- C6 at a registry holding `a`: touching the unregistered `b` leaves it as it is. -/
theorem C6_touch_updates_only_lastActivity_witness :
    ((NewSessionManager 2 0).Add "a" 1 10).2.sessions.lookup "b" = none ∧
      ((NewSessionManager 2 0).Add "a" 1 10).2.Touch "b" 50 =
        ((NewSessionManager 2 0).Add "a" 1 10).2 :=
  ⟨by decide,
    (C6_touch_updates_only_lastActivity
      { sm := ((NewSessionManager 2 0).Add "a" 1 10).2, procs := fun _ => pty.Spawn }
      "b" 50).2.2.2.2.2.2.2.2 (by decide)⟩

/-! ### `Remove` -/

theorem Remove_of_lookup_none (st : State) (id : String)
    (h : st.sm.sessions.lookup id = none) : Remove st id = st := by
  unfold Remove
  rw [h]

theorem Remove_lookup_self (st : State) (id : String) :
    (Remove st id).sm.sessions.lookup id = none := by
  unfold Remove
  cases h : st.sm.sessions.lookup id with
  | none => exact h
  | some e => exact AList.lookup_erase _ _

theorem Remove_lookup_ne (st : State) (id id2 : String) (h : id2 ≠ id) :
    (Remove st id).sm.sessions.lookup id2 = st.sm.sessions.lookup id2 := by
  unfold Remove
  cases st.sm.sessions.lookup id with
  | none => rfl
  | some e => exact AList.lookup_erase_ne h

theorem Close_done (s : pty.Session) : s.Close.done = true := by
  unfold pty.Session.Close
  by_cases h : s.done = true
  · rw [if_pos h]; exact h
  · rw [if_neg h]

/-- C7: for every state and id: after `Remove id` the registry has no entry for `id`;
when there was an entry, `Close` has been called on its session (whose done signal is
then set) and no other session of the store was touched; the entries of all other ids
are as before; `Remove` of an id without entry (never registered, or already removed)
returns the state as it is, closing nothing; hence `Remove` after `Remove` equals a
single `Remove`. -/
theorem C7_remove_closes_and_is_idempotent (st : State) (id : String) :
    (Remove st id).sm.sessions.lookup id = none ∧
      (∀ e, st.sm.sessions.lookup id = some e →
        (Remove st id).procs e.session = (st.procs e.session).Close ∧
        ((Remove st id).procs e.session).done = true ∧
        ∀ r, r ≠ e.session → (Remove st id).procs r = st.procs r) ∧
      (∀ id2, id2 ≠ id → (Remove st id).sm.sessions.lookup id2 = st.sm.sessions.lookup id2) ∧
      (st.sm.sessions.lookup id = none → Remove st id = st) ∧
      Remove (Remove st id) id = Remove st id := by
  refine ⟨Remove_lookup_self st id, ?_, fun id2 h => Remove_lookup_ne st id id2 h,
    Remove_of_lookup_none st id, Remove_of_lookup_none _ id (Remove_lookup_self st id)⟩
  intro e he
  have hp : (Remove st id).procs =
      Function.update st.procs e.session (st.procs e.session).Close := by
    unfold Remove
    rw [he]
  rw [hp]
  refine ⟨Function.update_same _ _ _, ?_, fun r hr => Function.update_noteq hr _ _⟩
  rw [Function.update_same]
  exact Close_done _

/-- C7 at a registry holding `a` with session 1: removing `a` closes session 1, and
removing the unregistered `b` changes nothing. -/
theorem C7_remove_closes_and_is_idempotent_witness :
    ((NewSessionManager 2 0).Add "a" 1 10).2.sessions.lookup "a" =
        some { session := 1, lastActivity := 10 } ∧
      ((Remove { sm := ((NewSessionManager 2 0).Add "a" 1 10).2, procs := fun _ => pty.Spawn }
        "a").procs 1).done = true :=
  ⟨by decide,
    ((C7_remove_closes_and_is_idempotent
      { sm := ((NewSessionManager 2 0).Add "a" 1 10).2, procs := fun _ => pty.Spawn }
      "a").2.1 { session := 1, lastActivity := 10 } (by decide)).2.1⟩

/-! ### The reaper -/

theorem Time.Sub_eq_sub (t u : Time) (h1 : minDuration ≤ t - u) (h2 : t - u ≤ maxDuration) :
    Time.Sub t u = t - u := by
  unfold Time.Sub
  rw [if_neg (not_lt.mpr h2), if_neg (not_lt.mpr h1)]

/-- Sessions of two different ids differ, in the form used below. -/
theorem distinctSessions_inj (st : State) (h : distinctSessions st) (k1 k2 : String)
    (e1 e2 : sessionEntry) (h1 : st.sm.sessions.lookup k1 = some e1)
    (h2 : st.sm.sessions.lookup k2 = some e2) (hs : e1.session = e2.session) : k1 = k2 := by
  have m1 : (⟨k1, e1⟩ : Sigma (fun _ : String => sessionEntry)) ∈ st.sm.sessions.entries :=
    AList.mem_lookup_iff.mp h1
  have m2 : (⟨k2, e2⟩ : Sigma (fun _ : String => sessionEntry)) ∈ st.sm.sessions.entries :=
    AList.mem_lookup_iff.mp h2
  have := List.inj_on_of_nodup_map h m1 m2 hs
  exact congrArg Sigma.fst this

theorem reaperVisit_idleTimeout (now : Time) (st : State) (id : String) :
    (reaperVisit now st id).sm.idleTimeout = st.sm.idleTimeout := by
  unfold reaperVisit
  split
  · split
    · rfl
    · split <;> rfl
  · rfl

theorem reaperVisit_none (now : Time) (st : State) (id : String)
    (h : st.sm.sessions.lookup id = none) : reaperVisit now st id = st := by
  unfold reaperVisit
  rw [h]

theorem reaperVisit_done (now : Time) (st : State) (id : String) (e : sessionEntry)
    (h : st.sm.sessions.lookup id = some e) (hd : (st.procs e.session).Done = true) :
    reaperVisit now st id =
      { st with sm := { st.sm with sessions := st.sm.sessions.erase id } } := by
  unfold reaperVisit
  rw [h]
  exact if_pos hd

theorem reaperVisit_idle (now : Time) (st : State) (id : String) (e : sessionEntry)
    (h : st.sm.sessions.lookup id = some e) (hd : (st.procs e.session).Done = false)
    (hi : idleExpired st.sm.idleTimeout now e = true) :
    reaperVisit now st id =
      { sm := { st.sm with sessions := st.sm.sessions.erase id },
        procs := Function.update st.procs e.session (st.procs e.session).Close } := by
  unfold reaperVisit
  rw [h]
  show (if (st.procs e.session).Done = true then _ else _) = _
  rw [if_neg (by simp [hd]), if_pos (by simpa [idleExpired] using hi)]

theorem reaperVisit_live (now : Time) (st : State) (id : String) (e : sessionEntry)
    (h : st.sm.sessions.lookup id = some e) (hd : (st.procs e.session).Done = false)
    (hi : idleExpired st.sm.idleTimeout now e = false) :
    reaperVisit now st id = st := by
  unfold reaperVisit
  rw [h]
  show (if (st.procs e.session).Done = true then _ else _) = _
  rw [if_neg (by simp [hd]), if_neg (by simpa [idleExpired] using hi)]

/-- The map after one visit: the visited key loses its entry when its session is done or
it is idle-expired; every other key keeps its entry. -/
theorem reaperVisit_lookup (now : Time) (st : State) (id k : String) :
    (reaperVisit now st id).sm.sessions.lookup k =
      if k = id then
        (st.sm.sessions.lookup id).filter
          (fun e => !((st.procs e.session).Done || idleExpired st.sm.idleTimeout now e))
      else st.sm.sessions.lookup k := by
  cases h : st.sm.sessions.lookup id with
  | none =>
      rw [reaperVisit_none now st id h]
      by_cases hk : k = id
      · subst hk; simp [h]
      · simp [hk]
  | some e =>
      cases hd : (st.procs e.session).Done with
      | true =>
          rw [reaperVisit_done now st id e h hd]
          by_cases hk : k = id
          · subst hk; simp [Option.filter, hd, AList.lookup_erase]
          · simp [hk, AList.lookup_erase_ne hk]
      | false =>
          cases hi : idleExpired st.sm.idleTimeout now e with
          | true =>
              rw [reaperVisit_idle now st id e h hd hi]
              by_cases hk : k = id
              · subst hk; simp [Option.filter, hd, hi, AList.lookup_erase]
              · simp [hk, AList.lookup_erase_ne hk]
          | false =>
              rw [reaperVisit_live now st id e h hd hi]
              by_cases hk : k = id
              · subst hk; simp [Option.filter, hd, hi, h]
              · simp [hk]

/-- The store after one visit: only the session of the visited entry can change, and
only when that entry is live and idle-expired; it is then closed. -/
theorem reaperVisit_procs (now : Time) (st : State) (id : String) (r : SessionRef) :
    (reaperVisit now st id).procs r = st.procs r ∨
      ∃ e, st.sm.sessions.lookup id = some e ∧ e.session = r ∧
        (st.procs r).Done = false ∧ idleExpired st.sm.idleTimeout now e = true ∧
        (reaperVisit now st id).procs r = (st.procs r).Close := by
  cases h : st.sm.sessions.lookup id with
  | none =>
      rw [reaperVisit_none now st id h]
      exact Or.inl rfl
  | some e =>
      cases hd : (st.procs e.session).Done with
      | true =>
          rw [reaperVisit_done now st id e h hd]
          exact Or.inl rfl
      | false =>
          cases hi : idleExpired st.sm.idleTimeout now e with
          | true =>
              rw [reaperVisit_idle now st id e h hd hi]
              by_cases hr : r = e.session
              · subst hr
                exact Or.inr ⟨e, rfl, rfl, hd, hi, Function.update_same _ _ _⟩
              · exact Or.inl (Function.update_noteq hr _ _)
          | false =>
              rw [reaperVisit_live now st id e h hd hi]
              exact Or.inl rfl

theorem reaperVisit_lookup_ne (now : Time) (st : State) (id k : String) (h : k ≠ id) :
    (reaperVisit now st id).sm.sessions.lookup k = st.sm.sessions.lookup k := by
  rw [reaperVisit_lookup, if_neg h]

theorem filter_eq_some_imp {α : Type} (p : α → Bool) (o : Option α) (a : α)
    (h : o.filter p = some a) : o = some a := by
  cases o with
  | none => simp [Option.filter] at h
  | some b =>
      simp only [Option.filter] at h
      split at h
      · exact h
      · exact absurd h (by simp)

theorem reaperVisit_lookup_sub (now : Time) (st : State) (id k : String) (e : sessionEntry)
    (h : (reaperVisit now st id).sm.sessions.lookup k = some e) :
    st.sm.sessions.lookup k = some e := by
  rw [reaperVisit_lookup] at h
  by_cases hk : k = id
  · subst hk
    rw [if_pos rfl] at h
    exact filter_eq_some_imp _ _ _ h
  · rw [if_neg hk] at h
    exact h

/-- A visit of `id` leaves the session of every other id alone, when sessions are not
shared. -/
theorem reaperVisit_procs_other (now : Time) (st : State) (id k : String) (e : sessionEntry)
    (hinj : ∀ k1 k2 e1 e2, st.sm.sessions.lookup k1 = some e1 →
      st.sm.sessions.lookup k2 = some e2 → e1.session = e2.session → k1 = k2)
    (hk : k ≠ id) (he : st.sm.sessions.lookup k = some e) :
    (reaperVisit now st id).procs e.session = st.procs e.session := by
  rcases reaperVisit_procs now st id e.session with h | ⟨e0, h0, hs, _, _, _⟩
  · exact h
  · exact absurd (hinj k id e e0 he h0 hs.symm) hk

/-- Visiting the pairwise distinct keys `ids` one after another, in a state whose ids
hold pairwise distinct sessions: a visited key keeps its entry exactly when its session
was not done and it was not idle-expired at the start; the sessions of the visited
entries that were live and idle-expired are closed; no other session changes. -/
theorem foldl_reaperVisit_spec (now : Time) (ids : List String) :
    ∀ st : State, ids.Nodup →
      (∀ k1 k2 e1 e2, st.sm.sessions.lookup k1 = some e1 →
        st.sm.sessions.lookup k2 = some e2 → e1.session = e2.session → k1 = k2) →
      (∀ k, (ids.foldl (reaperVisit now) st).sm.sessions.lookup k =
        if k ∈ ids then
          (st.sm.sessions.lookup k).filter
            (fun e => !((st.procs e.session).Done || idleExpired st.sm.idleTimeout now e))
        else st.sm.sessions.lookup k) ∧
      (∀ k, k ∈ ids → ∀ e, st.sm.sessions.lookup k = some e →
        (st.procs e.session).Done = false → idleExpired st.sm.idleTimeout now e = true →
        (ids.foldl (reaperVisit now) st).procs e.session = (st.procs e.session).Close) ∧
      (∀ r, (∀ k, k ∈ ids → ∀ e, st.sm.sessions.lookup k = some e → e.session = r →
          ¬ ((st.procs r).Done = false ∧ idleExpired st.sm.idleTimeout now e = true)) →
        (ids.foldl (reaperVisit now) st).procs r = st.procs r) ∧
      (ids.foldl (reaperVisit now) st).sm.idleTimeout = st.sm.idleTimeout := by
  induction ids with
  | nil =>
      intro st _ _
      exact ⟨fun k => by simp, fun k hk => absurd hk (List.not_mem_nil k), fun _ _ => rfl, rfl⟩
  | cons id rest ih =>
      intro st hnd hinj
      have hnd2 : id ∉ rest ∧ rest.Nodup := List.nodup_cons.mp hnd
      have F3 := reaperVisit_idleTimeout now st id
      have F4 : ∀ k1 k2 e1 e2, (reaperVisit now st id).sm.sessions.lookup k1 = some e1 →
          (reaperVisit now st id).sm.sessions.lookup k2 = some e2 →
          e1.session = e2.session → k1 = k2 := fun k1 k2 e1 e2 h1 h2 hs =>
        hinj k1 k2 e1 e2 (reaperVisit_lookup_sub now st id k1 e1 h1)
          (reaperVisit_lookup_sub now st id k2 e2 h2) hs
      obtain ⟨L, P1, P2, T⟩ := ih (reaperVisit now st id) hnd2.2 F4
      rw [List.foldl_cons]
      refine ⟨?_, ?_, ?_, T.trans F3⟩
      · intro k
        rw [L k]
        by_cases hk : k = id
        · subst hk
          rw [if_neg hnd2.1, if_pos (List.mem_cons_self _ _), reaperVisit_lookup, if_pos rfl]
        · rw [reaperVisit_lookup_ne now st id k hk]
          by_cases hr : k ∈ rest
          · rw [if_pos hr, if_pos (List.mem_cons_of_mem _ hr)]
            cases he : st.sm.sessions.lookup k with
            | none => rfl
            | some e =>
                have hp : (!(((reaperVisit now st id).procs e.session).Done ||
                      idleExpired (reaperVisit now st id).sm.idleTimeout now e)) =
                    (!((st.procs e.session).Done || idleExpired st.sm.idleTimeout now e)) := by
                  rw [reaperVisit_procs_other now st id k e hinj hk he, F3]
                simp only [Option.filter, hp]
          · rw [if_neg hr, if_neg (fun h => (List.mem_cons.mp h).elim hk hr)]
      · intro k hk e he hd hi
        by_cases hkid : k = id
        · subst hkid
          have hv : (reaperVisit now st k).procs e.session = (st.procs e.session).Close := by
            rw [reaperVisit_idle now st k e he hd hi]
            exact Function.update_same _ _ _
          rw [← hv]
          apply P2
          intro k2 hk2 e2 he2 hs _
          have := hinj k2 k e2 e (reaperVisit_lookup_sub now st k k2 e2 he2) he hs
          exact hnd2.1 (this ▸ hk2)
        · have hr : k ∈ rest := (List.mem_cons.mp hk).resolve_left hkid
          have hp := reaperVisit_procs_other now st id k e hinj hkid he
          have := P1 k hr e (by rw [reaperVisit_lookup_ne now st id k hkid]; exact he)
            (by rw [hp]; exact hd) (by rw [F3]; exact hi)
          rw [this, hp]
      · intro r H
        have hv : (reaperVisit now st id).procs r = st.procs r := by
          rcases reaperVisit_procs now st id r with h | ⟨e0, h0, hs, hd, hi, _⟩
          · exact h
          · exact absurd ⟨hd, hi⟩ (H id (List.mem_cons_self _ _) e0 h0 hs)
        rw [← hv]
        apply P2
        intro k2 hk2 e2 he2 hs
        rw [hv, F3]
        exact H k2 (List.mem_cons_of_mem _ hk2) e2 (reaperVisit_lookup_sub now st id k2 e2 he2) hs

theorem rangeOrder_mem (order keys : List String) (k : String) :
    k ∈ rangeOrder order keys ↔ k ∈ keys := by
  unfold rangeOrder
  simp only [List.mem_append, List.mem_filter, List.mem_dedup, decide_eq_true_eq]
  constructor
  · rintro (⟨_, h⟩ | ⟨h, _⟩) <;> exact h
  · intro h
    by_cases ho : k ∈ order
    · exact Or.inl ⟨ho, h⟩
    · exact Or.inr ⟨h, ho⟩

theorem rangeOrder_nodup (order keys : List String) (h : keys.Nodup) :
    (rangeOrder order keys).Nodup := by
  unfold rangeOrder
  rw [List.nodup_append]
  refine ⟨(List.nodup_dedup order).filter _, h.filter _, ?_⟩
  intro k h1 h2
  simp only [List.mem_filter, List.mem_dedup, decide_eq_true_eq] at h1 h2
  exact h2.2 h1.1

/-- One sweep, in a state whose ids hold pairwise distinct sessions. -/
theorem reaperSweep_spec (now : Time) (order : List String) (st : State)
    (hdistinct : distinctSessions st) :
    (∀ k, (reaperSweep now order st).sm.sessions.lookup k =
        (st.sm.sessions.lookup k).filter
          (fun e => !((st.procs e.session).Done || idleExpired st.sm.idleTimeout now e))) ∧
      (∀ k e, st.sm.sessions.lookup k = some e →
        (st.procs e.session).Done = false → idleExpired st.sm.idleTimeout now e = true →
        (reaperSweep now order st).procs e.session = (st.procs e.session).Close) ∧
      (∀ r, (∀ k e, st.sm.sessions.lookup k = some e → e.session = r →
          ¬ ((st.procs r).Done = false ∧ idleExpired st.sm.idleTimeout now e = true)) →
        (reaperSweep now order st).procs r = st.procs r) := by
  obtain ⟨L, P1, P2, _⟩ := foldl_reaperVisit_spec now (rangeOrder order st.sm.sessions.keys) st
    (rangeOrder_nodup _ _ st.sm.sessions.keys_nodup) (distinctSessions_inj st hdistinct)
  unfold reaperSweep
  refine ⟨?_, ?_, ?_⟩
  · intro k
    rw [L k]
    by_cases hk : k ∈ st.sm.sessions
    · rw [if_pos ((rangeOrder_mem _ _ k).mpr (AList.mem_keys.mp hk))]
    · rw [if_neg (fun h => hk (AList.mem_keys.mpr ((rangeOrder_mem _ _ k).mp h))),
        AList.lookup_eq_none.mpr hk]
      rfl
  · intro k e he hd hi
    have hk : k ∈ st.sm.sessions := AList.lookup_isSome.mp (by rw [he]; rfl)
    exact P1 k ((rangeOrder_mem _ _ k).mpr (AList.mem_keys.mp hk)) e he hd hi
  · intro r H
    exact P2 r (fun k _ e he hs => H k e he hs)

/-- C8 (as stated) fails when two ids hold the same session.  The registry is built by
`Add "a"` at instant 0 and `Add "b"` at 20 s with one session 7, `idleTimeout` is 60 s and
the sweep runs at 70 s visiting `a` first: `a` is idle-expired, so session 7 is closed;
`b`, live and not idle-expired before the sweep, is then found done and removed. -/
theorem C8_counterexample_shared_session :
    ¬ ∀ (st : State) (now : Time) (order : List String) (id : String) (e : sessionEntry),
      ((reaperSweep now order st).sm.sessions.lookup id = some e ↔
        (st.sm.sessions.lookup id = some e ∧ (st.procs e.session).Done = false ∧
          idleExpired st.sm.idleTimeout now e = false)) := by
  intro h
  have h1 := (h (run { sm := NewSessionManager 2 60000000000, procs := fun _ => pty.Spawn }
      [Op.add "a" 7 0, Op.add "b" 7 20000000000]) 70000000000 ["a", "b"] "b"
      { session := 7, lastActivity := 20000000000 }).mpr ⟨by decide, by decide, by decide⟩
  revert h1
  decide

/-- C8 (amended): for every state in which no two ids hold the same session, every
sweep instant `now` and every visiting order: after one sweep the registry holds exactly
the entries whose session was not done and which were not idle-expired before the sweep
(idle-expired: `idleTimeout > 0` and `now - lastActivity > idleTimeout`, strictly);
an entry whose session was done is removed whether or not it is idle; an idle-expired
entry is removed and its session is closed (`Close` was called on it when it was still
live); with `idleTimeout = 0` every entry with a live session is kept; and the session
of an entry that stays is not touched. -/
theorem C8_sweep_keeps_exactly_the_live (st : State) (now : Time) (order : List String)
    (hdistinct : distinctSessions st) :
    (∀ id e, (reaperSweep now order st).sm.sessions.lookup id = some e ↔
        (st.sm.sessions.lookup id = some e ∧ (st.procs e.session).Done = false ∧
          idleExpired st.sm.idleTimeout now e = false)) ∧
      (∀ id e, st.sm.sessions.lookup id = some e → (st.procs e.session).Done = true →
        (reaperSweep now order st).sm.sessions.lookup id = none) ∧
      (∀ id e, st.sm.sessions.lookup id = some e →
        idleExpired st.sm.idleTimeout now e = true →
        (reaperSweep now order st).sm.sessions.lookup id = none ∧
          (reaperSweep now order st).procs e.session = (st.procs e.session).Close ∧
          ((reaperSweep now order st).procs e.session).done = true) ∧
      (st.sm.idleTimeout = 0 → ∀ id e, st.sm.sessions.lookup id = some e →
        (st.procs e.session).Done = false →
        (reaperSweep now order st).sm.sessions.lookup id = some e) ∧
      (∀ id e, (reaperSweep now order st).sm.sessions.lookup id = some e →
        (reaperSweep now order st).procs e.session = st.procs e.session) := by
  obtain ⟨L, P, Q⟩ := reaperSweep_spec now order st hdistinct
  have first : ∀ id e, (reaperSweep now order st).sm.sessions.lookup id = some e ↔
      (st.sm.sessions.lookup id = some e ∧ (st.procs e.session).Done = false ∧
        idleExpired st.sm.idleTimeout now e = false) := by
    intro id e
    rw [L id]
    cases hl : st.sm.sessions.lookup id with
    | none => simp [Option.filter]
    | some e0 =>
        simp only [Option.filter]
        constructor
        · intro h
          split at h
          · rename_i hp
            have he : e0 = e := Option.some.inj h
            subst he
            simpa using hp
          · exact absurd h (by simp)
        · rintro ⟨he, hd, hi⟩
          have he : e0 = e := Option.some.inj he
          subst he
          simp [hd, hi]
  refine ⟨first, ?_, ?_, ?_, ?_⟩
  · intro id e he hd
    rw [L id, he]
    simp [Option.filter, hd]
  · intro id e he hi
    have hclose : (reaperSweep now order st).procs e.session = (st.procs e.session).Close := by
      cases hd : (st.procs e.session).Done with
      | false => exact P id e he hd hi
      | true =>
          rw [Q e.session (fun _ _ _ _ h => by rw [hd] at h; exact absurd h.1 (by simp))]
          unfold pty.Session.Close
          exact (if_pos hd).symm
    refine ⟨?_, hclose, ?_⟩
    · rw [L id, he]
      simp [Option.filter, hi]
    · rw [hclose]
      exact Close_done _
  · intro h0 id e he hd
    rw [L id, he]
    simp [Option.filter, hd, idleExpired, h0]
  · intro id e hafter
    obtain ⟨he, _, hi⟩ := (first id e).mp hafter
    apply Q
    intro k e2 he2 hs
    have hk : k = id := distinctSessions_inj st hdistinct k id e2 e he2 he hs
    subst hk
    have : e2 = e := Option.some.inj (he2.symm.trans he)
    subst this
    rw [hi]
    simp

/-- C8 (amended) at a registry holding `a` (added at 0, session 1) and `b` (added at
20 s, session 2) with `idleTimeout` 60 s, swept at 70 s: `a` is removed. -/
theorem C8_sweep_keeps_exactly_the_live_witness :
    distinctSessions (run { sm := NewSessionManager 2 60000000000, procs := fun _ => pty.Spawn }
        [Op.add "a" 1 0, Op.add "b" 2 20000000000]) ∧
      (reaperSweep 70000000000 ["a", "b"]
        (run { sm := NewSessionManager 2 60000000000, procs := fun _ => pty.Spawn }
          [Op.add "a" 1 0, Op.add "b" 2 20000000000])).sm.sessions.lookup "a" = none :=
  ⟨by unfold distinctSessions; decide,
    ((C8_sweep_keeps_exactly_the_live
      (run { sm := NewSessionManager 2 60000000000, procs := fun _ => pty.Spawn }
        [Op.add "a" 1 0, Op.add "b" 2 20000000000]) 70000000000 ["a", "b"]
      (by unfold distinctSessions; decide)).2.2.1 "a" { session := 1, lastActivity := 0 }
      (by decide) (by decide)).1⟩

end web

/-! ## Input framing -/

namespace pty

/-- A frame that starts with `0x01` and has more bytes goes to the decoder and never to
the terminal: the result is a resize or the unchanged session. -/
theorem HandleInput_control (unmarshal : List UInt8 → Except String ResizeMsg) (s : Session)
    (data : List UInt8) (h1 : data.head? = some 0x01) (hlen : data.length > 1) :
    Session.HandleInput unmarshal s data =
      match unmarshal data.tail with
      | .ok msg => if msg.Cols > 0 ∧ msg.Rows > 0 then s.Resize msg.Cols msg.Rows else s
      | .error _ => s := by
  unfold Session.HandleInput
  rw [if_neg (by omega), if_pos ⟨h1, hlen⟩]

/-- A frame that is not a control frame is handed to `Write` as it is. -/
theorem HandleInput_data (unmarshal : List UInt8 → Except String ResizeMsg) (s : Session)
    (data : List UInt8) (h : isControlFrame data = false) :
    Session.HandleInput unmarshal s data = s.Write data := by
  unfold Session.HandleInput
  by_cases h0 : data.length = 0
  · rw [if_pos h0]
    have : data = [] := List.length_eq_zero.mp h0
    subst this
    simp [Session.Write]
  · rw [if_neg h0, if_neg]
    intro hc
    simp [isControlFrame, hc.1, hc.2] at h

/-- C11: for every decoder, session and frame that is not a control frame (its first
byte is not `0x01`, or it is the single byte `0x01`): `HandleInput` hands exactly the
bytes of the frame, unmodified and after the bytes written before, to `Pty.Write`;
the window size and everything else of the session stay as they were (no resize); in
particular the frame `[0x01]` is written as the byte `0x01`. -/
theorem C11_data_frame_is_written_verbatim (unmarshal : List UInt8 → Except String ResizeMsg)
    (s : Session) (data : List UInt8) (h : data.head? ≠ some 0x01 ∨ data = [0x01]) :
    (Session.HandleInput unmarshal s data).written = s.written ++ data ∧
      (Session.HandleInput unmarshal s data).size = s.size ∧
      Session.HandleInput unmarshal s data = { s with written := s.written ++ data } ∧
      (Session.HandleInput unmarshal s [0x01]).written = s.written ++ [0x01] := by
  have hd : isControlFrame data = false := by
    rcases h with h | h
    · simp [isControlFrame, h]
    · subst h
      rfl
  have h1 : isControlFrame [0x01] = false := rfl
  rw [HandleInput_data unmarshal s data hd, HandleInput_data unmarshal s [0x01] h1]
  exact ⟨rfl, rfl, rfl, rfl⟩

/-- C11 at a freshly spawned session: the frame `ls` and the frame `[0x01]`. -/
theorem C11_data_frame_is_written_verbatim_witness :
    ((asciiBytes "ls").head? ≠ some 0x01 ∨ asciiBytes "ls" = [0x01]) ∧
      (Session.HandleInput Unmarshal Spawn (asciiBytes "ls")).written = [0x6c, 0x73] ∧
      (Session.HandleInput Unmarshal Spawn [0x01]).written = [0x01] :=
  ⟨Or.inl (by decide),
    (C11_data_frame_is_written_verbatim Unmarshal Spawn (asciiBytes "ls")
      (Or.inl (by decide))).1.trans (by decide),
    (C11_data_frame_is_written_verbatim Unmarshal Spawn (asciiBytes "ls")
      (Or.inl (by decide))).2.2.2.trans (by decide)⟩

/-! ### `Close` and the `done` signal -/

theorem HandleInput_lifecycle (unmarshal : List UInt8 → Except String ResizeMsg) (s : Session)
    (data : List UInt8) :
    (Session.HandleInput unmarshal s data).done = s.done ∧
      (Session.HandleInput unmarshal s data).kills = s.kills ∧
      (Session.HandleInput unmarshal s data).ptyCloses = s.ptyCloses ∧
      (Session.HandleInput unmarshal s data).waits = s.waits := by
  unfold Session.HandleInput
  split
  · exact ⟨rfl, rfl, rfl, rfl⟩
  · split
    · split
      · split <;> exact ⟨rfl, rfl, rfl, rfl⟩
      · exact ⟨rfl, rfl, rfl, rfl⟩
    · exact ⟨rfl, rfl, rfl, rfl⟩

theorem Close_of_done (s : Session) (h : s.done = true) : s.Close = s := by
  unfold Session.Close
  rw [if_pos h]

theorem Close_of_live (s : Session) (h : s.done = false) :
    s.Close = { s with done := true, kills := s.kills + 1, ptyCloses := s.ptyCloses + 1,
                       waits := s.waits + 1 } := by
  unfold Session.Close
  rw [if_neg (by simp [h])]

theorem Close_Close (s : Session) : s.Close.Close = s.Close := by
  apply Close_of_done
  cases h : s.done with
  | true => rw [Close_of_done s h]; exact h
  | false => rw [Close_of_live s h]

theorem iterate_Close (s : Session) (k : Nat) (hk : 1 ≤ k) :
    Nat.iterate Session.Close k s = s.Close := by
  induction k with
  | zero => omega
  | succ n ih =>
      cases n with
      | zero => rfl
      | succ m =>
          rw [Function.iterate_succ_apply', ih (by omega)]
          exact Close_Close s

/-- One call changes `done` only when it is `Close`, and then sets it. -/
theorem apply_done (unmarshal : List UInt8 → Except String ResizeMsg) (s : Session)
    (op : SessionOp) :
    (Session.apply unmarshal s op).done = (s.done || decide (op = SessionOp.close)) := by
  cases op with
  | resize cols rows => simp [Session.apply, Session.Resize]
  | write data => simp [Session.apply, Session.Write]
  | handleInput data => simp [Session.apply, (HandleInput_lifecycle unmarshal s data).1]
  | close =>
      simp only [Session.apply, decide_True, Bool.or_true]
      cases h : s.done with
      | true => rw [Close_of_done s h]; exact h
      | false => rw [Close_of_live s h]

/-- In every state a session reaches from `Spawn` by complete calls: `done` is set
exactly when `Close` has been called, and then the kill, the handle close and the reap
have each been issued once, while before none of them has been issued. -/
theorem applyAll_lifecycle (unmarshal : List UInt8 → Except String ResizeMsg)
    (ops : List SessionOp) :
    ((Session.applyAll unmarshal Spawn ops).done = decide (SessionOp.close ∈ ops)) ∧
      (Session.applyAll unmarshal Spawn ops).kills =
        (if (Session.applyAll unmarshal Spawn ops).done then 1 else 0) ∧
      (Session.applyAll unmarshal Spawn ops).ptyCloses =
        (if (Session.applyAll unmarshal Spawn ops).done then 1 else 0) ∧
      (Session.applyAll unmarshal Spawn ops).waits =
        (if (Session.applyAll unmarshal Spawn ops).done then 1 else 0) := by
  induction ops using List.reverseRecOn with
  | nil => exact ⟨rfl, rfl, rfl, rfl⟩
  | append_singleton ops op ih =>
      obtain ⟨h1, h2, h3, h4⟩ := ih
      have hstep : Session.applyAll unmarshal Spawn (ops ++ [op]) =
          Session.apply unmarshal (Session.applyAll unmarshal Spawn ops) op := by
        simp [Session.applyAll, List.foldl_append]
      rw [hstep]
      refine ⟨?_, ?_⟩
      · rw [apply_done, h1]
        by_cases hc : op = SessionOp.close <;> by_cases hm : SessionOp.close ∈ ops <;>
          simp [hc, hm, eq_comm]
      · cases op with
        | resize cols rows => exact ⟨h2, h3, h4⟩
        | write data => exact ⟨h2, h3, h4⟩
        | handleInput data =>
            obtain ⟨e1, e2, e3, e4⟩ :=
              HandleInput_lifecycle unmarshal (Session.applyAll unmarshal Spawn ops) data
            simp only [Session.apply, e1, e2, e3, e4]
            exact ⟨h2, h3, h4⟩
        | close =>
            simp only [Session.apply]
            generalize Session.applyAll unmarshal Spawn ops = t at h2 h3 h4 ⊢
            cases hd : t.done with
            | true =>
                simp only [Close_of_done t hd]
                exact ⟨h2, h3, h4⟩
            | false =>
                rw [hd] at h2 h3 h4
                simp at h2 h3 h4
                simp [Close_of_live t hd, h2, h3, h4]

theorem CloseSteps_getLast (t : Session) :
    (t :: t.CloseSteps).getLast (List.cons_ne_nil _ _) = t.Close := by
  cases h : t.done with
  | true => simp [Session.CloseSteps, h, Close_of_done t h]
  | false => simp [Session.CloseSteps, h, Close_of_live t h]

/-- C16: for every session at any point of its life (any sequence of calls since
`Spawn`) and every number `k ≥ 1` of `Close` calls made one after another: afterwards the
process-group kill, the terminal-handle close and the reap have each been issued exactly
once; the `k` calls leave the session as the first of them alone does, so every later
call has no effect; within a call the changes come in the order kill, handle close,
reap (after `done` is closed), none of them when `done` was already closed; and the
state at the end of the steps is the result of `Close`.  `Close` is a total function
without result, so no call fails. -/
theorem C16_close_acts_once (unmarshal : List UInt8 → Except String ResizeMsg)
    (ops : List SessionOp) (k : Nat) (hk : 1 ≤ k) :
    (Nat.iterate Session.Close k (Session.applyAll unmarshal Spawn ops)).kills = 1 ∧
      (Nat.iterate Session.Close k (Session.applyAll unmarshal Spawn ops)).ptyCloses = 1 ∧
      (Nat.iterate Session.Close k (Session.applyAll unmarshal Spawn ops)).waits = 1 ∧
      Nat.iterate Session.Close k (Session.applyAll unmarshal Spawn ops) =
        (Session.applyAll unmarshal Spawn ops).Close ∧
      (∀ t : Session,
        t.CloseSteps.map (fun p => (p.kills - t.kills, p.ptyCloses - t.ptyCloses,
            p.waits - t.waits)) =
          if t.done then [] else [(0, 0, 0), (1, 0, 0), (1, 1, 0), (1, 1, 1)]) ∧
      (∀ t : Session, (t :: t.CloseSteps).getLast (List.cons_ne_nil _ _) = t.Close) := by
  have hit := iterate_Close (Session.applyAll unmarshal Spawn ops) k hk
  have hlife := applyAll_lifecycle unmarshal (ops ++ [SessionOp.close])
  have hstep : Session.applyAll unmarshal Spawn (ops ++ [SessionOp.close]) =
      (Session.applyAll unmarshal Spawn ops).Close := by
    simp [Session.applyAll, List.foldl_append, Session.apply]
  rw [hstep] at hlife
  obtain ⟨h1, h2, h3, h4⟩ := hlife
  have hd : (Session.applyAll unmarshal Spawn ops).Close.done = true := by
    rw [h1]; simp
  rw [hd] at h2 h3 h4
  rw [hit]
  refine ⟨h2, h3, h4, rfl, ?_, CloseSteps_getLast⟩
  intro t
  cases h : t.done with
  | true => simp [Session.CloseSteps, h]
  | false => simp [Session.CloseSteps, h]

/-- C16 at a session that received one frame and is then closed three times. -/
theorem C16_close_acts_once_witness :
    1 ≤ 3 ∧
      (Nat.iterate Session.Close 3
        (Session.applyAll Unmarshal Spawn [SessionOp.handleInput [0x6c, 0x73]])).kills = 1 :=
  ⟨by decide,
    (C16_close_acts_once Unmarshal [SessionOp.handleInput [0x6c, 0x73]] 3 (by decide)).1⟩

/-- C17 (as stated) fails: during the first `Close` of a freshly spawned session the
`done` channel is closed before anything else, so `Done()` is observed set at a point
where no kill, no handle close and no reap has been issued yet. -/
theorem C17_counterexample_done_before_kill :
    ¬ ∀ (unmarshal : List UInt8 → Except String ResizeMsg) (ops : List SessionOp) (p : Session),
      p ∈ (Session.applyAll unmarshal Spawn ops).CloseSteps → p.Done = true →
        1 ≤ p.kills ∧ 1 ≤ p.ptyCloses ∧ 1 ≤ p.waits := by
  intro h
  have h1 := h Unmarshal [] { Spawn with done := true } (by decide) rfl
  revert h1
  decide

/-- C17 (amended): for every sequence of calls on a session since `Spawn`: `done` is set
exactly when `Close` has been called (it is unset from `Spawn` until the first `Close`);
a call sets it only when it is `Close` and no call clears it, so it is set once; in the
state reached, `done` set means that the kill, the handle close and the reap have each
been issued once, and `done` unset means that none has been issued; and within a
`Close` the `done` channel is closed first: `done` is set at every point of the call,
and at its first point no kill, handle close or reap has been issued yet. -/
theorem C17_done_is_set_by_the_first_close (unmarshal : List UInt8 → Except String ResizeMsg)
    (ops : List SessionOp) :
    (Session.applyAll unmarshal Spawn ops).Done = decide (SessionOp.close ∈ ops) ∧
      (∀ op : SessionOp,
        (Session.apply unmarshal (Session.applyAll unmarshal Spawn ops) op).Done =
          ((Session.applyAll unmarshal Spawn ops).Done || decide (op = SessionOp.close))) ∧
      ((Session.applyAll unmarshal Spawn ops).Done = true →
        (Session.applyAll unmarshal Spawn ops).kills = 1 ∧
        (Session.applyAll unmarshal Spawn ops).ptyCloses = 1 ∧
        (Session.applyAll unmarshal Spawn ops).waits = 1) ∧
      ((Session.applyAll unmarshal Spawn ops).Done = false →
        (Session.applyAll unmarshal Spawn ops).kills = 0 ∧
        (Session.applyAll unmarshal Spawn ops).ptyCloses = 0 ∧
        (Session.applyAll unmarshal Spawn ops).waits = 0) ∧
      (∀ p ∈ (Session.applyAll unmarshal Spawn ops).CloseSteps, p.Done = true) ∧
      (∀ p, (Session.applyAll unmarshal Spawn ops).CloseSteps.head? = some p →
        p.kills = 0 ∧ p.ptyCloses = 0 ∧ p.waits = 0) := by
  obtain ⟨h1, h2, h3, h4⟩ := applyAll_lifecycle unmarshal ops
  generalize Session.applyAll unmarshal Spawn ops = s at h1 h2 h3 h4 ⊢
  refine ⟨h1, fun op => apply_done unmarshal s op, ?_, ?_, ?_, ?_⟩
  · intro hd
    have hd2 : s.done = true := hd
    rw [hd2] at h2 h3 h4
    exact ⟨h2, h3, h4⟩
  · intro hd
    have hd2 : s.done = false := hd
    rw [hd2] at h2 h3 h4
    exact ⟨h2, h3, h4⟩
  · intro p hp
    cases hd : s.done with
    | true => simp [Session.CloseSteps, hd] at hp
    | false =>
        simp only [Session.CloseSteps, hd, Bool.false_eq_true, if_false, List.mem_cons,
          List.mem_singleton, List.not_mem_nil, or_false] at hp
        rcases hp with hp | hp | hp | hp <;> rw [hp] <;> rfl
  · intro p hp
    cases hd : s.done with
    | true => simp [Session.CloseSteps, hd] at hp
    | false =>
        rw [hd] at h2 h3 h4
        simp only [Session.CloseSteps, hd, Bool.false_eq_true, if_false, List.head?_cons,
          Option.some.injEq] at hp
        subst hp
        exact ⟨h2, h3, h4⟩

/-- C17 (amended) at a session that received one frame and was closed. -/
theorem C17_done_is_set_by_the_first_close_witness :
    (Session.applyAll Unmarshal Spawn
        [SessionOp.handleInput [0x6c, 0x73], SessionOp.close]).Done = true ∧
      (Session.applyAll Unmarshal Spawn
        [SessionOp.handleInput [0x6c, 0x73], SessionOp.close]).kills = 1 :=
  ⟨by decide,
    ((C17_done_is_set_by_the_first_close Unmarshal
      [SessionOp.handleInput [0x6c, 0x73], SessionOp.close]).2.2.1 (by decide)).1⟩

/-! ### `StreamOutput` -/

theorem join_filter_nonempty (l : List (List UInt8)) :
    (l.filter (fun d => decide (d.length > 0))).flatten = l.flatten := by
  induction l with
  | nil => rfl
  | cons d rest ih =>
      by_cases h : d.length > 0
      · simp [List.filter_cons, h, ih]
      · have : d = [] := List.length_eq_zero.mp (by omega)
        subst this
        simpa [List.filter_cons] using ih

/-- With a `send` that never fails, `StreamOutput` calls `send` once for every non-empty
chunk among the reads up to and including the first one with an error, in order. -/
theorem StreamOutput_of_send_ok {σ : Type} (send : σ → List UInt8 → σ × Bool)
    (hsend : ∀ c d, (send c d).2 = false) (reads : List ReadResult) :
    ∀ c : σ,
      (Session.StreamOutput send reads c).conn =
          (((upToFirstErr reads).map ReadResult.data).filter
            (fun d => decide (d.length > 0))).foldl (fun c d => (send c d).1) c ∧
        (Session.StreamOutput send reads c).sends =
          (((upToFirstErr reads).map ReadResult.data).filter
            (fun d => decide (d.length > 0))).length ∧
        (Session.StreamOutput send reads c).reads = (upToFirstErr reads).length := by
  induction reads with
  | nil => intro c; exact ⟨rfl, rfl, rfl⟩
  | cons r rest ih =>
      intro c
      by_cases hn : r.data.length > 0
      · obtain ⟨h1, h2, h3⟩ := ih (send c r.data).1
        cases he : r.err with
        | true =>
            simp [Session.StreamOutput, upToFirstErr, hn, he, hsend, List.filter_cons]
        | false =>
            simp [Session.StreamOutput, upToFirstErr, hn, he, hsend, List.filter_cons,
              h1, h2, h3]
      · obtain ⟨h1, h2, h3⟩ := ih c
        cases he : r.err with
        | true =>
            simp [Session.StreamOutput, upToFirstErr, hn, he, List.filter_cons]
        | false =>
            simp [Session.StreamOutput, upToFirstErr, hn, he, List.filter_cons, h1, h2, h3]

/-- C14: for every sequence of results of successive Pty reads and every `send` that
never fails: `StreamOutput` calls `send` exactly once for each read, up to and including
the first one that reported an error or EOF, that returned `n > 0` bytes, in order and
with the bytes of that read; it never sends an empty frame; and the concatenation of the
frames sent equals the concatenation of all bytes returned by those reads. -/
theorem C14_stream_forwards_every_nonempty_chunk {σ : Type}
    (send : σ → List UInt8 → σ × Bool) (reads : List ReadResult) (c : σ)
    (hsend : ∀ c d, (send c d).2 = false) :
    (Session.StreamOutput send reads c).conn =
        (((upToFirstErr reads).map ReadResult.data).filter
          (fun d => decide (d.length > 0))).foldl (fun c d => (send c d).1) c ∧
      (Session.StreamOutput send reads c).sends =
        (((upToFirstErr reads).map ReadResult.data).filter
          (fun d => decide (d.length > 0))).length ∧
      (∀ f ∈ ((upToFirstErr reads).map ReadResult.data).filter
          (fun d => decide (d.length > 0)), f ≠ []) ∧
      (((upToFirstErr reads).map ReadResult.data).filter
          (fun d => decide (d.length > 0))).flatten =
        ((upToFirstErr reads).map ReadResult.data).flatten := by
  obtain ⟨h1, h2, _⟩ := StreamOutput_of_send_ok send hsend reads c
  refine ⟨h1, h2, ?_, join_filter_nonempty _⟩
  intro f hf
  have := (List.mem_filter.mp hf).2
  intro hnil
  subst hnil
  simp at this

/-- C14 with the recording receiver: reads `ab`, nothing, `c` with EOF, then `d`: the
frames sent are `ab` and `c`. -/
theorem C14_stream_forwards_every_nonempty_chunk_witness :
    (∀ c d, (recordSend c d).2 = false) ∧
      (Session.StreamOutput recordSend
        [{ data := [0x61, 0x62], err := false }, { data := [], err := false },
          { data := [0x63], err := true }, { data := [0x64], err := false }] []).conn =
        [[0x61, 0x62], [0x63]] :=
  ⟨fun _ _ => rfl,
    (C14_stream_forwards_every_nonempty_chunk recordSend
      [{ data := [0x61, 0x62], err := false }, { data := [], err := false },
        { data := [0x63], err := true }, { data := [0x64], err := false }] []
      (fun _ _ => rfl)).1.trans (by decide)⟩

theorem StreamOutput_cons_sent {σ : Type} (send : σ → List UInt8 → σ × Bool)
    (r : ReadResult) (rest : List ReadResult) (c : σ) (hn : r.data.length > 0)
    (hs : (send c r.data).2 = false) (he : r.err = false) :
    Session.StreamOutput send (r :: rest) c =
      { conn := (Session.StreamOutput send rest (send c r.data).1).conn,
        reads := (Session.StreamOutput send rest (send c r.data).1).reads + 1,
        sends := (Session.StreamOutput send rest (send c r.data).1).sends + 1,
        returned := (Session.StreamOutput send rest (send c r.data).1).returned } := by
  simp [Session.StreamOutput, hn, hs, he]

theorem StreamOutput_cons_empty {σ : Type} (send : σ → List UInt8 → σ × Bool)
    (r : ReadResult) (rest : List ReadResult) (c : σ) (hn : ¬ r.data.length > 0)
    (he : r.err = false) :
    Session.StreamOutput send (r :: rest) c =
      { conn := (Session.StreamOutput send rest c).conn,
        reads := (Session.StreamOutput send rest c).reads + 1,
        sends := (Session.StreamOutput send rest c).sends,
        returned := (Session.StreamOutput send rest c).returned } := by
  simp [Session.StreamOutput, hn, he]

/-- As long as `StreamOutput` has not returned it has consumed every read, and it goes
on with the reads that follow from the state it has reached. -/
theorem StreamOutput_append {σ : Type} (send : σ → List UInt8 → σ × Bool)
    (pre more : List ReadResult) :
    ∀ c : σ, (Session.StreamOutput send pre c).returned = false →
      (Session.StreamOutput send pre c).reads = pre.length ∧
      Session.StreamOutput send (pre ++ more) c =
        { conn := (Session.StreamOutput send more (Session.StreamOutput send pre c).conn).conn,
          reads := pre.length +
            (Session.StreamOutput send more (Session.StreamOutput send pre c).conn).reads,
          sends := (Session.StreamOutput send pre c).sends +
            (Session.StreamOutput send more (Session.StreamOutput send pre c).conn).sends,
          returned :=
            (Session.StreamOutput send more (Session.StreamOutput send pre c).conn).returned } := by
  induction pre with
  | nil =>
      intro c _
      simp [Session.StreamOutput]
  | cons r rest ih =>
      intro c h
      by_cases hn : r.data.length > 0
      · by_cases hs : (send c r.data).2 = true
        · simp [Session.StreamOutput, hn, hs] at h
        · by_cases he : r.err = true
          · simp [Session.StreamOutput, hn, hs, he] at h
          · have hs' : (send c r.data).2 = false := by simpa using hs
            have he' : r.err = false := by simpa using he
            rw [StreamOutput_cons_sent send r rest c hn hs' he'] at h ⊢
            obtain ⟨h1, h2⟩ := ih (send c r.data).1 h
            rw [List.cons_append, StreamOutput_cons_sent send r (rest ++ more) c hn hs' he', h2]
            refine ⟨by simp [h1], ?_⟩
            simp only [List.length_cons, StreamState.mk.injEq, true_and, and_true]
            constructor <;> omega
      · by_cases he : r.err = true
        · simp [Session.StreamOutput, hn, he] at h
        · have he' : r.err = false := by simpa using he
          rw [StreamOutput_cons_empty send r rest c hn he'] at h ⊢
          obtain ⟨h1, h2⟩ := ih c h
          rw [List.cons_append, StreamOutput_cons_empty send r (rest ++ more) c hn he', h2]
          refine ⟨by simp [h1], ?_⟩
          simp only [List.length_cons, StreamState.mk.injEq, true_and, and_true]
          omega

/-- At a read that reports an error, or whose chunk `send` refuses, `StreamOutput`
returns without looking at any later read. -/
theorem StreamOutput_stop {σ : Type} (send : σ → List UInt8 → σ × Bool) (r : ReadResult)
    (post : List ReadResult) (c : σ)
    (hstop : r.err = true ∨ (r.data ≠ [] ∧ (send c r.data).2 = true)) :
    Session.StreamOutput send (r :: post) c =
      { conn := if r.data.length > 0 then (send c r.data).1 else c,
        reads := 1,
        sends := if r.data.length > 0 then 1 else 0,
        returned := true } := by
  by_cases hn : r.data.length > 0
  · by_cases hs : (send c r.data).2 = true
    · simp [Session.StreamOutput, hn, hs]
    · rcases hstop with he | ⟨_, h⟩
      · simp [Session.StreamOutput, hn, hs, he]
      · exact absurd h hs
  · rcases hstop with he | ⟨h, _⟩
    · simp [Session.StreamOutput, hn, he]
    · exact absurd (List.length_pos.mpr h) hn

/-- While no read reports an error and no `send` fails, `StreamOutput` does not return. -/
theorem StreamOutput_running {σ : Type} (send : σ → List UInt8 → σ × Bool)
    (reads : List ReadResult) (hread : ∀ r ∈ reads, r.err = false)
    (hsend : ∀ r ∈ reads, ∀ c, (send c r.data).2 = false) :
    ∀ c : σ, (Session.StreamOutput send reads c).returned = false := by
  induction reads with
  | nil => intro c; rfl
  | cons r rest ih =>
      intro c
      have he := hread r (List.mem_cons_self _ _)
      have hs := hsend r (List.mem_cons_self _ _) c
      have ih' := ih (fun x hx => hread x (List.mem_cons_of_mem _ hx))
        (fun x hx => hsend x (List.mem_cons_of_mem _ hx))
      by_cases hn : r.data.length > 0
      · rw [StreamOutput_cons_sent send r rest c hn hs he]
        exact ih' _
      · rw [StreamOutput_cons_empty send r rest c hn he]
        exact ih' _

/-- C15: (stop) when `StreamOutput` has not returned during the reads `pre` and the next
read `r` reports an error or EOF, or the `send` of its chunk fails, then `StreamOutput`
returns at `r`: it has made `pre.length + 1` reads, the `send` for `r` (if `r` has bytes)
is its last call of `send`, the reads `post` that would follow do not matter (its result
is the result for `pre ++ [r]`), and the goroutine of the process-to-socket direction
then closes the connection; (run) while no read reports an error and no `send` fails,
`StreamOutput` does not return and the goroutine does not close the connection. -/
theorem C15_stream_returns_at_first_failure {σ : Type} (send : σ → List UInt8 → σ × Bool)
    (connClose : σ → σ) :
    (∀ (pre : List ReadResult) (r : ReadResult) (post : List ReadResult) (c : σ),
      (Session.StreamOutput send pre c).returned = false →
      (r.err = true ∨
        (r.data ≠ [] ∧ (send (Session.StreamOutput send pre c).conn r.data).2 = true)) →
      (Session.StreamOutput send (pre ++ r :: post) c).returned = true ∧
        (Session.StreamOutput send (pre ++ r :: post) c).reads = pre.length + 1 ∧
        (Session.StreamOutput send (pre ++ r :: post) c).sends =
          (Session.StreamOutput send pre c).sends + (if r.data.length > 0 then 1 else 0) ∧
        Session.StreamOutput send (pre ++ r :: post) c =
          Session.StreamOutput send (pre ++ [r]) c ∧
        web.outputDirection send connClose (pre ++ r :: post) c =
          (connClose (Session.StreamOutput send (pre ++ [r]) c).conn, true)) ∧
    (∀ (reads : List ReadResult) (c : σ),
      (∀ r ∈ reads, r.err = false) → (∀ r ∈ reads, ∀ c, (send c r.data).2 = false) →
      (Session.StreamOutput send reads c).returned = false ∧
        (Session.StreamOutput send reads c).reads = reads.length ∧
        web.outputDirection send connClose reads c =
          ((Session.StreamOutput send reads c).conn, false)) := by
  constructor
  · intro pre r post c hpre hstop
    have key : ∀ post : List ReadResult,
        Session.StreamOutput send (pre ++ r :: post) c =
          { conn := if r.data.length > 0 then
                (send (Session.StreamOutput send pre c).conn r.data).1
              else (Session.StreamOutput send pre c).conn,
            reads := pre.length + 1,
            sends := (Session.StreamOutput send pre c).sends +
              (if r.data.length > 0 then 1 else 0),
            returned := true } := by
      intro post
      rw [(StreamOutput_append send pre (r :: post) c hpre).2,
        StreamOutput_stop send r post _ hstop]
    have e1 := key post
    have e2 := key []
    have heq : Session.StreamOutput send (pre ++ r :: post) c =
        Session.StreamOutput send (pre ++ [r]) c := e1.trans e2.symm
    refine ⟨by rw [e1], by rw [e1], by rw [e1], heq, ?_⟩
    unfold web.outputDirection
    rw [heq, e2]
    rfl
  · intro reads c hread hsend
    have hrun := StreamOutput_running send reads hread hsend c
    have hlen := (StreamOutput_append send reads [] c hrun).1
    refine ⟨hrun, hlen, ?_⟩
    unfold web.outputDirection
    rw [hrun]
    rfl

/-- C15 (stop) with the recording receiver: after the read `ab`, the read `c` with EOF
ends the loop; the read `d` that would follow is never made. -/
theorem C15_stream_returns_at_first_failure_witness :
    (Session.StreamOutput recordSend [{ data := [0x61, 0x62], err := false }] []).returned
        = false ∧
      (Session.StreamOutput recordSend
        ([{ data := [0x61, 0x62], err := false }] ++
          { data := [0x63], err := true } :: [{ data := [0x64], err := false }]) []).reads
        = 2 :=
  ⟨by decide,
    ((C15_stream_returns_at_first_failure recordSend id).1
      [{ data := [0x61, 0x62], err := false }] { data := [0x63], err := true }
      [{ data := [0x64], err := false }] [] (by decide) (Or.inl rfl)).2.1⟩

/-! ### Sequences of frames -/

theorem HandleInput_written (unmarshal : List UInt8 → Except String ResizeMsg) (s : Session)
    (data : List UInt8) :
    (Session.HandleInput unmarshal s data).written =
      if isControlFrame data then s.written else s.written ++ data := by
  cases hc : isControlFrame data with
  | false =>
      rw [HandleInput_data unmarshal s data hc]
      rfl
  | true =>
      have h : data.head? = some 0x01 ∧ data.length > 1 := by
        simpa [isControlFrame] using hc
      rw [HandleInput_control unmarshal s data h.1 h.2]
      simp only [if_true]
      split
      · split <;> rfl
      · rfl

theorem foldl_HandleInput_written (unmarshal : List UInt8 → Except String ResizeMsg)
    (frames : List (List UInt8)) :
    ∀ s : Session, (frames.foldl (Session.HandleInput unmarshal) s).written =
      s.written ++ (frames.filter (fun d => !isControlFrame d)).flatten := by
  induction frames with
  | nil => intro s; simp
  | cons d rest ih =>
      intro s
      rw [List.foldl_cons, ih, HandleInput_written]
      cases hc : isControlFrame d with
      | true => simp [List.filter_cons, hc]
      | false => simp [List.filter_cons, hc]

end pty

/-! ## The connection handler -/

namespace web

/-- The input loop, frame by frame: the session receives the frames through
`HandleInput`, the registry one `Touch` per frame, and nothing else changes. -/
theorem inputLoop_spec (unmarshal : List UInt8 → Except String pty.ResizeMsg) (id : String)
    (sess : SessionRef) (events : List (Option (List UInt8) × Time)) :
    ∀ acc : InputState,
      (inputLoop unmarshal id sess events acc).st.procs sess =
          ((received events).map Prod.fst).foldl (pty.Session.HandleInput unmarshal)
            (acc.st.procs sess) ∧
        (∀ r, r ≠ sess → (inputLoop unmarshal id sess events acc).st.procs r = acc.st.procs r) ∧
        (inputLoop unmarshal id sess events acc).st.sm =
          ((received events).map Prod.snd).foldl (fun sm t => sm.Touch id t) acc.st.sm ∧
        (inputLoop unmarshal id sess events acc).touches =
          acc.touches ++ (received events).map Prod.snd ∧
        (inputLoop unmarshal id sess events acc).handled =
          acc.handled ++ (received events).map Prod.fst := by
  induction events with
  | nil => intro acc; simp [inputLoop, received]
  | cons ev rest ih =>
      intro acc
      obtain ⟨m, now⟩ := ev
      cases m with
      | none => simp [inputLoop, received]
      | some msg =>
          obtain ⟨h1, h2, h3, h4, h5⟩ := ih
            { st :=
                { sm := acc.st.sm.Touch id now,
                  procs := Function.update acc.st.procs sess
                    ((acc.st.procs sess).HandleInput unmarshal msg) },
              touches := acc.touches ++ [now],
              handled := acc.handled ++ [msg],
              broke := false }
          simp only [inputLoop, received, List.map_cons, List.foldl_cons]
          refine ⟨?_, ?_, h3, ?_, ?_⟩
          · rw [h1]
            simp [Function.update_same]
          · intro r hr
            rw [h2 r hr]
            exact Function.update_noteq hr _ _
          · rw [h4]; simp
          · rw [h5]; simp

/-- C12: for every sequence of `ReadMessage` results handled by the input loop, the bytes
handed to `Pty.Write` (the bytes delivered to the process when every write succeeds in
full) are the bytes written before followed by the concatenation, in receipt order, of
exactly those received frames that are data frames (not control frames); the same holds
for `HandleInput` applied to any list of frames one after another. -/
theorem C12_input_is_the_concatenation_of_data_frames
    (unmarshal : List UInt8 → Except String pty.ResizeMsg) (id : String) (sess : SessionRef)
    (events : List (Option (List UInt8) × Time)) (acc : InputState) :
    ((inputLoop unmarshal id sess events acc).st.procs sess).written =
        (acc.st.procs sess).written ++
          (((received events).map Prod.fst).filter (fun d => !pty.isControlFrame d)).flatten ∧
      (∀ (s : pty.Session) (frames : List (List UInt8)),
        (frames.foldl (pty.Session.HandleInput unmarshal) s).written =
          s.written ++ (frames.filter (fun d => !pty.isControlFrame d)).flatten) := by
  refine ⟨?_, fun s frames => pty.foldl_HandleInput_written unmarshal frames s⟩
  rw [(inputLoop_spec unmarshal id sess events acc).1]
  exact pty.foldl_HandleInput_written unmarshal _ _

/-- After `Touch id` at the instants `ts`, one after another, an entry of `id` carries
the last of them. -/
theorem foldl_Touch_lookup (id : String) (ts : List Time) :
    ∀ (sm : SessionManager) (e : sessionEntry), sm.sessions.lookup id = some e →
      (ts.foldl (fun sm t => sm.Touch id t) sm).sessions.lookup id =
        some { e with lastActivity := ts.getLast?.getD e.lastActivity } := by
  induction ts with
  | nil => intro sm e h; simpa using h
  | cons t rest ih =>
      intro sm e h
      have h1 : (sm.Touch id t).sessions.lookup id = some { e with lastActivity := t } := by
        rw [Touch_lookup, if_pos rfl, h]
        rfl
      rw [List.foldl_cons, ih (sm.Touch id t) _ h1]
      cases rest with
      | nil => rfl
      | cons u rest2 =>
          have hl : (u :: rest2).getLast? = some ((u :: rest2).getLast (List.cons_ne_nil _ _)) :=
            List.getLast?_eq_getLast _ _
          have hl2 : (t :: u :: rest2).getLast? = (u :: rest2).getLast? :=
            List.getLast?_cons_cons
          rw [hl2, hl]
          rfl

/-- C13: for every sequence of `ReadMessage` results handled by the input loop: `Touch`
is called exactly once for every frame received (before the first error), in receipt
order and before that frame is handed to `HandleInput`; so the number of `Touch` calls
equals the number of frames handled; and when the session is registered under the id
of the connection, after the frames have been processed its `lastActivity` is the
instant of the `Touch` of the last (most recent) frame. -/
theorem C13_touch_once_per_frame (unmarshal : List UInt8 → Except String pty.ResizeMsg)
    (id : String) (sess : SessionRef) (events : List (Option (List UInt8) × Time))
    (st : State) (e : sessionEntry) (msg : List UInt8) (t : Time)
    (hreg : st.sm.sessions.lookup id = some e)
    (hlast : (received events).getLast? = some (msg, t)) :
    (inputLoop unmarshal id sess events
        { st := st, touches := [], handled := [], broke := false }).touches =
        (received events).map Prod.snd ∧
      (inputLoop unmarshal id sess events
        { st := st, touches := [], handled := [], broke := false }).handled =
        (received events).map Prod.fst ∧
      (inputLoop unmarshal id sess events
        { st := st, touches := [], handled := [], broke := false }).touches.length =
        (received events).length ∧
      (inputLoop unmarshal id sess events
        { st := st, touches := [], handled := [], broke := false }).st.sm.sessions.lookup id =
        some { e with lastActivity := t } := by
  obtain ⟨_, _, h3, h4, h5⟩ := inputLoop_spec unmarshal id sess events
    { st := st, touches := [], handled := [], broke := false }
  refine ⟨by simpa using h4, by simpa using h5, by rw [h4]; simp, ?_⟩
  rw [h3, foldl_Touch_lookup id _ st.sm e hreg]
  have : ((received events).map Prod.snd).getLast? = some t := by
    rw [List.getLast?_map, hlast]
    rfl
  rw [this]
  rfl

/-- C13 at a registry holding `a`: two frames at the instants 20 and 30, then an error. -/
theorem C13_touch_once_per_frame_witness :
    ((NewSessionManager 2 0).Add "a" 1 10).2.sessions.lookup "a" =
        some { session := 1, lastActivity := 10 } ∧
      (received [(some [0x6c], 20), (some [0x73], 30), (none, 40)]).getLast? =
        some ([0x73], 30) ∧
      (inputLoop pty.Unmarshal "a" 1 [(some [0x6c], 20), (some [0x73], 30), (none, 40)]
        { st := { sm := ((NewSessionManager 2 0).Add "a" 1 10).2, procs := fun _ => pty.Spawn },
          touches := [], handled := [], broke := false }).touches = [20, 30] :=
  ⟨by decide, by decide,
    (C13_touch_once_per_frame pty.Unmarshal "a" 1
      [(some [0x6c], 20), (some [0x73], 30), (none, 40)]
      { sm := ((NewSessionManager 2 0).Add "a" 1 10).2, procs := fun _ => pty.Spawn }
      { session := 1, lastActivity := 10 } [0x73] 30 (by decide) (by decide)).1.trans
      (by decide)⟩

/-! ### The acceptor -/

/-- C18: for every configuration, state, request and environment: when `CanAccept` is
false on arrival, the handler answers with `http.Error(..., 503)` and returns; this is
the only call it makes, so it spawns no process and does not upgrade the socket, and
the registry and the sessions are exactly as before. -/
theorem C18_busy_request_is_rejected_before_spawn (cfg : Config) (st : State) (r : Request)
    (env : Answers) (hfull : st.sm.CanAccept = false) :
    (HandleWebSocketConnect cfg st r env).st = st ∧
      (HandleWebSocketConnect cfg st r env).actions =
        [Action.httpError "Server busy: max sessions reached" 503] ∧
      (HandleWebSocketConnect cfg st r env).outcome = Outcome.busy ∧
      (∀ a ∈ (HandleWebSocketConnect cfg st r env).actions,
        (∀ name args, a ≠ Action.spawn name args) ∧ (∀ ok, a ≠ Action.upgrade ok)) := by
  have h : HandleWebSocketConnect cfg st r env =
      { st := st, actions := [Action.httpError "Server busy: max sessions reached" 503],
        outcome := Outcome.busy } := by
    unfold HandleWebSocketConnect
    rw [if_pos hfull]
  rw [h]
  refine ⟨rfl, rfl, rfl, ?_⟩
  intro a ha
  simp only [List.mem_singleton] at ha
  subst ha
  exact ⟨fun _ _ h => Action.noConfusion h, fun _ h => Action.noConfusion h⟩

/-- C18 at a registry of capacity one that holds one session. -/
theorem C18_busy_request_is_rejected_before_spawn_witness :
    ((NewSessionManager 1 0).Add "a" 1 10).2.CanAccept = false ∧
      (HandleWebSocketConnect
        { Port := 8080, MaxSessions := 1, IdleTimeout := 0, TUIBinary := "" }
        { sm := ((NewSessionManager 1 0).Add "a" 1 10).2, procs := fun _ => pty.Spawn }
        { RemoteAddr := "10.0.0.1:4000", mode := "shell" }
        { others := [], upgradeOk := true, now := 7, executable := "/usr/bin/opendoc",
          spawned := some 2, addNow := 8 }).actions =
        [Action.httpError "Server busy: max sessions reached" 503] :=
  ⟨by decide,
    (C18_busy_request_is_rejected_before_spawn
      { Port := 8080, MaxSessions := 1, IdleTimeout := 0, TUIBinary := "" }
      { sm := ((NewSessionManager 1 0).Add "a" 1 10).2, procs := fun _ => pty.Spawn }
      { RemoteAddr := "10.0.0.1:4000", mode := "shell" }
      { others := [], upgradeOk := true, now := 7, executable := "/usr/bin/opendoc",
        spawned := some 2, addNow := 8 } (by decide)).2.1⟩

/-- C19: for every request that passes the `CanAccept` check, is upgraded, and whose
`Spawn` succeeds with the session `sess`, but for which `Add` returns false (other
goroutines filled the registry in between): the handler calls `Close` on `sess`, whose
`done` is then set with the kill, the handle close and the reap issued once; it sends
the text frame `Error: max sessions reached` and closes the connection; the registry is
exactly the registry `Add` found, so `sess` is not registered; and no other session of
the store is touched. -/
theorem C19_late_session_is_killed_and_not_registered (cfg : Config) (st : State)
    (r : Request) (env : Answers) (sess : SessionRef)
    (hacc : st.sm.CanAccept = true) (hup : env.upgradeOk = true)
    (hspawn : env.spawned = some sess)
    (hadd : ((run st env.others).sm.Add (r.RemoteAddr ++ "-" ++ toString env.now) sess
        env.addNow).1 = false) :
    (HandleWebSocketConnect cfg st r env).st.sm = (run st env.others).sm ∧
      (HandleWebSocketConnect cfg st r env).st.procs sess = pty.Spawn.Close ∧
      ((HandleWebSocketConnect cfg st r env).st.procs sess).done = true ∧
      ((HandleWebSocketConnect cfg st r env).st.procs sess).kills = 1 ∧
      ((HandleWebSocketConnect cfg st r env).st.procs sess).ptyCloses = 1 ∧
      ((HandleWebSocketConnect cfg st r env).st.procs sess).waits = 1 ∧
      (∀ s2, s2 ≠ sess →
        (HandleWebSocketConnect cfg st r env).st.procs s2 = (run st env.others).procs s2) ∧
      (HandleWebSocketConnect cfg st r env).actions =
        [Action.upgrade true,
          Action.spawn (spawnCommand cfg env.executable r.mode).1
            (spawnCommand cfg env.executable r.mode).2,
          Action.writeMessage MessageType.TextMessage "Error: max sessions reached\r\n",
          Action.connClose] ∧
      (HandleWebSocketConnect cfg st r env).outcome = Outcome.addFailed := by
  have hfull : ((run st env.others).sm.Count : Int) ≥ (run st env.others).sm.maxSessions := by
    by_contra hn
    rw [Add_of_not_full _ _ _ _ (by omega)] at hadd
    exact absurd hadd (by simp)
  have hsame := Add_of_full (run st env.others).sm
    (r.RemoteAddr ++ "-" ++ toString env.now) sess env.addNow hfull
  have h : HandleWebSocketConnect cfg st r env =
      { st := { sm := (run st env.others).sm,
                procs := Function.update (run st env.others).procs sess pty.Spawn.Close },
        actions := [Action.upgrade true,
          Action.spawn (spawnCommand cfg env.executable r.mode).1
            (spawnCommand cfg env.executable r.mode).2,
          Action.writeMessage MessageType.TextMessage "Error: max sessions reached\r\n",
          Action.connClose],
        outcome := Outcome.addFailed } := by
    unfold HandleWebSocketConnect
    rw [if_neg (by simp [hacc]), if_neg (by simp [hup]), hspawn]
    simp only [hsame, if_true]
  rw [h]
  have hp : Function.update (run st env.others).procs sess pty.Spawn.Close sess =
      pty.Spawn.Close := Function.update_same _ _ _
  refine ⟨rfl, hp, ?_, ?_, ?_, ?_, fun s2 hs => Function.update_noteq hs _ _, rfl, rfl⟩
  · show (Function.update (run st env.others).procs sess pty.Spawn.Close sess).done = true
    rw [hp]; rfl
  · show (Function.update (run st env.others).procs sess pty.Spawn.Close sess).kills = 1
    rw [hp]; rfl
  · show (Function.update (run st env.others).procs sess pty.Spawn.Close sess).ptyCloses = 1
    rw [hp]; rfl
  · show (Function.update (run st env.others).procs sess pty.Spawn.Close sess).waits = 1
    rw [hp]; rfl

/-- C19 at an empty registry of capacity one: the request passes the check, another
connection registers in between, and `Add` turns the late session 2 away. -/
theorem C19_late_session_is_killed_and_not_registered_witness :
    (NewSessionManager 1 0).CanAccept = true ∧
      ((run { sm := NewSessionManager 1 0, procs := fun _ => pty.Spawn }
          [Op.add "10.0.0.2:5000-5" 1 5]).sm.Add ("10.0.0.1:4000" ++ "-" ++ toString (7 : Int))
          2 8).1 = false ∧
      ((HandleWebSocketConnect
        { Port := 8080, MaxSessions := 1, IdleTimeout := 0, TUIBinary := "" }
        { sm := NewSessionManager 1 0, procs := fun _ => pty.Spawn }
        { RemoteAddr := "10.0.0.1:4000", mode := "shell" }
        { others := [Op.add "10.0.0.2:5000-5" 1 5], upgradeOk := true, now := 7,
          executable := "/usr/bin/opendoc", spawned := some 2, addNow := 8 }).st.procs 2).kills
        = 1 :=
  ⟨by decide, by decide,
    (C19_late_session_is_killed_and_not_registered
      { Port := 8080, MaxSessions := 1, IdleTimeout := 0, TUIBinary := "" }
      { sm := NewSessionManager 1 0, procs := fun _ => pty.Spawn }
      { RemoteAddr := "10.0.0.1:4000", mode := "shell" }
      { others := [Op.add "10.0.0.2:5000-5" 1 5], upgradeOk := true, now := 7,
        executable := "/usr/bin/opendoc", spawned := some 2, addNow := 8 } 2
      (by decide) rfl rfl (by decide)).2.2.2.1⟩

theorem spawnCommand_shell (cfg : Config) (executable : String) :
    spawnCommand cfg executable "shell" = ("/bin/bash", ["--login"]) := by
  unfold spawnCommand
  rw [if_pos rfl]

theorem spawnCommand_other (cfg : Config) (executable mode : String) (h : mode ≠ "shell") :
    spawnCommand cfg executable mode =
      ((if cfg.TUIBinary = "" then executable else cfg.TUIBinary), ["console", "tui"]) := by
  unfold spawnCommand
  rw [if_neg h]

/-- C20: for every configuration, state, request and environment: the command the
handler spawns is a function of the `mode` parameter (and of the server's TUI path)
only: it is `/bin/bash --login` when `mode` equals `shell`; for every other value,
the empty value of an absent parameter included, it is the TUI executable (the
configured `TUIBinary`, or the running executable when none is configured) with the
arguments `console tui`; every `Spawn` the handler calls is this command, and it calls
it whenever the request passed the capacity check and was upgraded. -/
theorem C20_spawn_mode_from_parameter (cfg : Config) (st : State) (r : Request) (env : Answers) :
    (r.mode = "shell" → spawnCommand cfg env.executable r.mode = ("/bin/bash", ["--login"])) ∧
      (r.mode ≠ "shell" → spawnCommand cfg env.executable r.mode =
        ((if cfg.TUIBinary = "" then env.executable else cfg.TUIBinary), ["console", "tui"])) ∧
      spawnCommand cfg env.executable "" =
        ((if cfg.TUIBinary = "" then env.executable else cfg.TUIBinary), ["console", "tui"]) ∧
      (∀ name args, Action.spawn name args ∈ (HandleWebSocketConnect cfg st r env).actions →
        (name, args) = spawnCommand cfg env.executable r.mode) ∧
      (st.sm.CanAccept = true → env.upgradeOk = true →
        Action.spawn (spawnCommand cfg env.executable r.mode).1
            (spawnCommand cfg env.executable r.mode).2 ∈
          (HandleWebSocketConnect cfg st r env).actions) := by
  refine ⟨fun h => by rw [h]; exact spawnCommand_shell cfg _,
    fun h => spawnCommand_other cfg _ _ h,
    spawnCommand_other cfg _ _ (by decide), ?_, ?_⟩
  · intro name args hmem
    unfold HandleWebSocketConnect at hmem
    split at hmem
    · simp at hmem
    · split at hmem
      · simp at hmem
      · split at hmem
        · simp at hmem
          rw [hmem.1, hmem.2]
        · split at hmem
          · simp at hmem
            rw [hmem.1, hmem.2]
          · simp at hmem
            rw [hmem.1, hmem.2]
  · intro hacc hup
    unfold HandleWebSocketConnect
    rw [if_neg (by simp [hacc]), if_neg (by simp [hup])]
    split
    · simp
    · split <;> simp

/-- C20 for a request with `mode=shell` and for one without the parameter. -/
theorem C20_spawn_mode_from_parameter_witness :
    ({ RemoteAddr := "10.0.0.1:4000", mode := "shell" } : Request).mode = "shell" ∧
      spawnCommand { Port := 8080, MaxSessions := 1, IdleTimeout := 0, TUIBinary := "" }
        "/usr/bin/opendoc" "shell" = ("/bin/bash", ["--login"]) ∧
      spawnCommand { Port := 8080, MaxSessions := 1, IdleTimeout := 0, TUIBinary := "" }
        "/usr/bin/opendoc" "" = ("/usr/bin/opendoc", ["console", "tui"]) :=
  ⟨rfl,
    (C20_spawn_mode_from_parameter
      { Port := 8080, MaxSessions := 1, IdleTimeout := 0, TUIBinary := "" }
      { sm := NewSessionManager 1 0, procs := fun _ => pty.Spawn }
      { RemoteAddr := "10.0.0.1:4000", mode := "shell" }
      { others := [], upgradeOk := true, now := 7, executable := "/usr/bin/opendoc",
        spawned := some 2, addNow := 8 }).1 rfl,
    (C20_spawn_mode_from_parameter
      { Port := 8080, MaxSessions := 1, IdleTimeout := 0, TUIBinary := "" }
      { sm := NewSessionManager 1 0, procs := fun _ => pty.Spawn }
      { RemoteAddr := "10.0.0.1:4000", mode := "shell" }
      { others := [], upgradeOk := true, now := 7, executable := "/usr/bin/opendoc",
        spawned := some 2, addNow := 8 }).2.2.1.trans (by decide)⟩

end web

/-! ## Control frames and the decoder -/

namespace pty

theorem UInt16_toNat_le (c : UInt16) : c.toNat ≤ 65535 := by
  have := c.val.isLt
  have h : c.toNat = c.val.val := rfl
  have hs : UInt16.size = 65536 := rfl
  omega

theorem UInt16_one_le_of_pos (c : UInt16) (h : c > 0) : 1 ≤ c.toNat := by
  have : (0 : UInt16).toNat < c.toNat := h
  simpa using this

theorem UInt16_toNat_ofNat_of_le (n : Nat) (h : n ≤ 65535) : (UInt16.ofNat n).toNat = n := by
  show (Fin.ofNat n).val = n
  simp [Fin.ofNat]
  omega

/-- The size after `HandleInput` is the old size, or the pair the decoder returned. -/
theorem HandleInput_size (unmarshal : List UInt8 → Except String ResizeMsg) (s : Session)
    (data : List UInt8) :
    (Session.HandleInput unmarshal s data).size = s.size ∨
      ∃ msg, data.head? = some 0x01 ∧ data.length > 1 ∧ unmarshal data.tail = .ok msg ∧
        msg.Cols > 0 ∧ msg.Rows > 0 ∧
        (Session.HandleInput unmarshal s data).size = { Rows := msg.Rows, Cols := msg.Cols } := by
  cases hc : isControlFrame data with
  | false =>
      rw [HandleInput_data unmarshal s data hc]
      exact Or.inl rfl
  | true =>
      have h : data.head? = some 0x01 ∧ data.length > 1 := by
        simpa [isControlFrame] using hc
      rw [HandleInput_control unmarshal s data h.1 h.2]
      cases hu : unmarshal data.tail with
      | error e => exact Or.inl rfl
      | ok msg =>
          by_cases hp : msg.Cols > 0 ∧ msg.Rows > 0
          · refine Or.inr ⟨msg, h.1, h.2, rfl, hp.1, hp.2, ?_⟩
            show (if msg.Cols > 0 ∧ msg.Rows > 0 then s.Resize msg.Cols msg.Rows else s).size = _
            rw [if_pos hp]
            rfl
          · left
            show (if msg.Cols > 0 ∧ msg.Rows > 0 then s.Resize msg.Cols msg.Rows else s).size = _
            rw [if_neg hp]

/-! ### The decoder -/

theorem HandleInput_Unmarshal (s : Session) (data : List UInt8) (hne : data ≠ []) :
    Session.HandleInput Unmarshal s (0x01 :: data) =
      match Unmarshal data with
      | .ok msg => if msg.Cols > 0 ∧ msg.Rows > 0 then s.Resize msg.Cols msg.Rows else s
      | .error _ => s := by
  have hlen : (0x01 :: data).length > 1 := by
    cases data with
    | nil => exact absurd rfl hne
    | cons b rest => simp
  exact HandleInput_control Unmarshal s (0x01 :: data) rfl hlen

theorem not_matches_both (key : List KeyUnit) :
    ¬ (matchesField key colsName = true ∧ matchesField key rowsName = true) := by
  rintro ⟨h1, h2⟩
  unfold matchesField at h1 h2
  have e1 := eq_of_beq h1
  have e2 := eq_of_beq h2
  rw [e1] at e2
  exact absurd e2 (by decide)

theorem parseUint16_spec (text : List UInt8) (n : UInt16) (h : parseUint16 text = some n) :
    text ≠ [] ∧ text.all isDigit = true ∧ digitsValue text = n.toNat ∧ n.toNat ≤ 65535 := by
  unfold parseUint16 at h
  split at h
  · rename_i hc
    have hn := Option.some.inj h
    refine ⟨hc.1, hc.2.1, ?_, ?_⟩
    · rw [← hn]
      exact (UInt16_toNat_ofNat_of_le _ hc.2.2).symm
    · rw [← hn, UInt16_toNat_ofNat_of_le _ hc.2.2]
      exact hc.2.2
  · cases h

theorem parseUint16_none (text : List UInt8)
    (h : text.all isDigit = false ∨ 65535 < digitsValue text) : parseUint16 text = none := by
  unfold parseUint16
  rw [if_neg]
  rintro ⟨_, h2, h3⟩
  rcases h with h | h
  · rw [h] at h2
    cases h2
  · omega

/-- Storing members that all fit gives, in each field, the number of the last member
that matches it. -/
theorem storeMembers_of_fits (ms : List (List KeyUnit × Value)) :
    ∀ msg : ResizeMsg, (∀ m ∈ ms, fits m = true) →
      storeMembers msg ms =
        .ok { Cols := lastStored colsName msg.Cols ms, Rows := lastStored rowsName msg.Rows ms } := by
  induction ms with
  | nil => intro msg _; rfl
  | cons m rest ih =>
      intro msg h
      have hm := h m (List.mem_cons_self _ _)
      have hrest : ∀ x ∈ rest, fits x = true := fun x hx => h x (List.mem_cons_of_mem _ hx)
      obtain ⟨key, v⟩ := m
      unfold fits at hm
      show (match storeMember msg (key, v) with
        | .ok msg2 => storeMembers msg2 rest
        | .error err => .error err) = _
      unfold storeMember
      by_cases hc : matchesField key colsName = true
      · have hr : matchesField key rowsName = false := by
          cases hrw : matchesField key rowsName with
          | false => rfl
          | true => exact absurd ⟨hc, hrw⟩ (not_matches_both key)
        simp only [hc, hr, Bool.true_or, if_true] at hm ⊢
        cases v with
        | number text =>
            cases hp : parseUint16 text with
            | none => simp [hp] at hm
            | some n =>
                simp only [storeUint16, hp]
                rw [ih _ hrest]
                simp [lastStored, hc, hr, hp]
        | null =>
            simp only [storeUint16]
            rw [ih _ hrest]
            simp [lastStored, hc, hr]
        | other => simp at hm
      · have hc2 : matchesField key colsName = false := by
          cases hcw : matchesField key colsName with
          | false => rfl
          | true => exact absurd hcw hc
        by_cases hr : matchesField key rowsName = true
        · simp only [hc2, hr, Bool.or_true, if_true, Bool.false_eq_true, if_false] at hm ⊢
          cases v with
          | number text =>
              cases hp : parseUint16 text with
              | none => simp [hp] at hm
              | some n =>
                  simp only [storeUint16, hp]
                  rw [ih _ hrest]
                  simp [lastStored, hc2, hr, hp]
          | null =>
              simp only [storeUint16]
              rw [ih _ hrest]
              simp [lastStored, hc2, hr]
          | other => simp at hm
        · have hr2 : matchesField key rowsName = false := by
            cases hrw : matchesField key rowsName with
            | false => rfl
            | true => exact absurd hrw hr
          simp only [hc2, hr2, Bool.false_eq_true, if_false]
          rw [ih _ hrest]
          simp [lastStored, hc2, hr2]

/-- A member that does not fit makes the decoder return an error. -/
theorem storeMembers_of_not_fits (ms : List (List KeyUnit × Value)) :
    ∀ msg : ResizeMsg, (∃ m ∈ ms, fits m = false) →
      ∃ err, storeMembers msg ms = .error err := by
  induction ms with
  | nil =>
      intro msg h
      obtain ⟨m, hm, _⟩ := h
      cases hm
  | cons m rest ih =>
      intro msg h
      show ∃ err, (match storeMember msg m with
        | .ok msg2 => storeMembers msg2 rest
        | .error err => .error err) = .error err
      cases hs : storeMember msg m with
      | error err => exact ⟨err, rfl⟩
      | ok msg2 =>
          show ∃ err, storeMembers msg2 rest = .error err
          apply ih
          obtain ⟨x, hx, hf⟩ := h
          rcases List.mem_cons.mp hx with hx1 | hx2
          · exfalso
            subst hx1
            obtain ⟨key, v⟩ := x
            unfold fits at hf
            unfold storeMember at hs
            by_cases hc : matchesField key colsName = true
            · simp only [hc, Bool.true_or, if_true] at hf hs
              cases v with
              | number text =>
                  cases hp : parseUint16 text with
                  | none => simp [storeUint16, hp] at hs
                  | some n => simp [hp] at hf
              | null => simp at hf
              | other => simp [storeUint16] at hs
            · have hc2 : matchesField key colsName = false := by
                cases hcw : matchesField key colsName with
                | false => rfl
                | true => exact absurd hcw hc
              by_cases hr : matchesField key rowsName = true
              · simp only [hc2, hr, Bool.or_true, if_true, Bool.false_eq_true, if_false] at hf hs
                cases v with
                | number text =>
                    cases hp : parseUint16 text with
                    | none => simp [storeUint16, hp] at hs
                    | some n => simp [hp] at hf
                | null => simp at hf
                | other => simp [storeUint16] at hs
              · have hr2 : matchesField key rowsName = false := by
                  cases hrw : matchesField key rowsName with
                  | false => rfl
                  | true => exact absurd hrw hr
                simp [hc2, hr2] at hf
          · exact ⟨x, hx2, hf⟩

/-- What a field holds after the members were stored is what it held before, or the
number of a member that matches it. -/
theorem lastStored_origin (name : List Nat) (ms : List (List KeyUnit × Value)) :
    ∀ field : UInt16, lastStored name field ms = field ∨
      ∃ m ∈ ms, matchesField m.1 name = true ∧
        ∃ text, m.2 = Value.number text ∧ parseUint16 text = some (lastStored name field ms) := by
  induction ms with
  | nil => intro field; exact Or.inl rfl
  | cons m rest ih =>
      intro field
      obtain ⟨key, v⟩ := m
      show lastStored name _ rest = field ∨ ∃ m ∈ (key, v) :: rest, matchesField m.1 name = true ∧
        ∃ text, m.2 = Value.number text ∧ parseUint16 text = some (lastStored name _ rest)
      rcases ih (if matchesField key name then
          match v with
          | Value.number text => (parseUint16 text).getD field
          | _ => field
        else field) with h | ⟨x, hx, hm, text, hv, hp⟩
      · rw [h]
        by_cases hk : matchesField key name = true
        · rw [if_pos hk]
          cases v with
          | number text =>
              cases hp : parseUint16 text with
              | none => exact Or.inl (by simp [hp])
              | some n =>
                  exact Or.inr ⟨(key, Value.number text), List.mem_cons_self _ _, hk, text, rfl,
                    by simp [hp]⟩
          | null => exact Or.inl rfl
          | other => exact Or.inl rfl
        · rw [if_neg hk]
          exact Or.inl rfl
      · exact Or.inr ⟨x, List.mem_cons_of_mem _ hx, hm, text, hv, hp⟩

/-- A field no member gives a number keeps what it held. -/
theorem lastStored_of_no_number (name : List Nat) (ms : List (List KeyUnit × Value)) :
    ∀ field : UInt16,
      (∀ m ∈ ms, matchesField m.1 name = true → ∀ text, m.2 ≠ Value.number text) →
      lastStored name field ms = field := by
  intro field h
  rcases lastStored_origin name ms field with h1 | ⟨m, hm, hk, text, hv, _⟩
  · exact h1
  · exact absurd hv (h m hm hk text)

/-! ### Numbers written in decimal -/

theorem digitChar_digitByte (k : Nat) (h : k < 10) :
    UInt8.ofNat (Nat.digitChar k).toNat = digitByte k := by
  interval_cases k <;> rfl

theorem isDigit_digitByte (k : Nat) (h : k < 10) : isDigit (digitByte k) = true := by
  interval_cases k <;> rfl

theorem digitByte_toNat (k : Nat) (h : k < 10) : (digitByte k).toNat - 0x30 = k := by
  interval_cases k <;> rfl

theorem toDigitsCore_digits (fuel : Nat) :
    ∀ (n : Nat) (ds : List Char), n < fuel →
      ∃ ks : List Nat, Nat.toDigitsCore 10 fuel n ds = ks.map Nat.digitChar ++ ds ∧
        (∀ k ∈ ks, k < 10) ∧ ks.foldl (fun a k => a * 10 + k) 0 = n ∧
        (0 < n → ∃ k0 rest, ks = k0 :: rest ∧ 1 ≤ k0) ∧ (n = 0 → ks = [0]) := by
  induction fuel with
  | zero => intro n ds h; exact absurd h (Nat.not_lt_zero n)
  | succ fuel ih =>
      intro n ds h
      have hmod : n % 10 < 10 := Nat.mod_lt n (by decide)
      by_cases hz : n / 10 = 0
      · refine ⟨[n % 10], ?_, ?_, ?_, ?_, ?_⟩
        · rw [Nat.toDigitsCore]
          simp only [hz, if_true]
          rfl
        · intro k hk
          rw [List.mem_singleton] at hk
          omega
        · show 0 * 10 + n % 10 = n
          omega
        · intro hpos
          exact ⟨n % 10, [], rfl, by omega⟩
        · intro h0
          rw [h0]
      · obtain ⟨ks, hl, hlt, hval, hhead, _⟩ :=
          ih (n / 10) (Nat.digitChar (n % 10) :: ds) (by omega)
        refine ⟨ks ++ [n % 10], ?_, ?_, ?_, ?_, ?_⟩
        · rw [Nat.toDigitsCore]
          simp only [hz, if_false]
          rw [hl, List.map_append, List.append_assoc]
          rfl
        · intro k hk
          rcases List.mem_append.mp hk with h1 | h1
          · exact hlt k h1
          · rw [List.mem_singleton] at h1
            omega
        · rw [List.foldl_append, hval]
          show n / 10 * 10 + n % 10 = n
          omega
        · intro _
          obtain ⟨k0, rest, hks, hk0⟩ := hhead (Nat.pos_of_ne_zero hz)
          exact ⟨k0, rest ++ [n % 10], by rw [hks]; rfl, hk0⟩
        · intro h0
          rw [h0] at hz
          exact absurd rfl hz

/-- A whole number in decimal: digits, with no leading zero unless the number is 0. -/
theorem decimal_digits (n : Nat) :
    ∃ ks : List Nat, decimal n = ks.map digitByte ∧ (∀ k ∈ ks, k < 10) ∧
      ks.foldl (fun a k => a * 10 + k) 0 = n ∧
      (0 < n → ∃ k0 rest, ks = k0 :: rest ∧ 1 ≤ k0) ∧ (n = 0 → ks = [0]) := by
  obtain ⟨ks, hl, hlt, hval, hhead, hzero⟩ :=
    toDigitsCore_digits (n + 1) n [] (Nat.lt_succ_self n)
  refine ⟨ks, ?_, hlt, hval, hhead, hzero⟩
  show (Nat.toDigitsCore 10 (n + 1) n []).map (fun c => UInt8.ofNat c.toNat) = _
  rw [hl, List.append_nil, List.map_map]
  apply List.map_congr_left
  intro k hk
  exact digitChar_digitByte k (hlt k hk)

theorem digitsValue_map_digitByte (ks : List Nat) (h : ∀ k ∈ ks, k < 10) :
    ∀ a : Nat, (ks.map digitByte).foldl (fun a b => a * 10 + (b.toNat - 0x30)) a =
      ks.foldl (fun a k => a * 10 + k) a := by
  induction ks with
  | nil => intro a; rfl
  | cons k rest ih =>
      intro a
      have hk := h k (List.mem_cons_self _ _)
      rw [List.map_cons, List.foldl_cons, List.foldl_cons, digitByte_toNat k hk]
      exact ih (fun x hx => h x (List.mem_cons_of_mem _ hx)) _

theorem decimal_spec (n : Nat) :
    decimal n ≠ [] ∧ (decimal n).all isDigit = true ∧ digitsValue (decimal n) = n := by
  obtain ⟨ks, hd, hlt, hval, hhead, hzero⟩ := decimal_digits n
  refine ⟨?_, ?_, ?_⟩
  · rw [hd]
    by_cases h0 : n = 0
    · rw [hzero h0]
      exact List.cons_ne_nil _ _
    · obtain ⟨k0, rest, hks, _⟩ := hhead (Nat.pos_of_ne_zero h0)
      rw [hks]
      exact List.cons_ne_nil _ _
  · rw [hd, List.all_eq_true]
    intro b hb
    obtain ⟨k, hk, hkb⟩ := List.mem_map.mp hb
    rw [← hkb]
    exact isDigit_digitByte k (hlt k hk)
  · unfold digitsValue
    rw [hd, digitsValue_map_digitByte ks hlt 0, hval]

/-- A number in decimal is stored in a `uint16` field exactly when it is at most 65535. -/
theorem parseUint16_decimal (n : Nat) :
    parseUint16 (decimal n) = if n ≤ 65535 then some (UInt16.ofNat n) else none := by
  obtain ⟨h1, h2, h3⟩ := decimal_spec n
  unfold parseUint16
  rw [h3]
  by_cases hn : n ≤ 65535
  · rw [if_pos ⟨h1, h2, hn⟩, if_pos hn]
  · rw [if_neg (fun h => hn h.2.2), if_neg hn]

/-! ### The scanner on the text the client sends -/

theorem scanFrom_cons (s : Scanner) (c : UInt8) (rest : List UInt8) :
    scanFrom s (c :: rest) =
      match scanStep s c with
      | some t => scanFrom t rest
      | none => none := rfl

theorem scanFrom_append (a b : List UInt8) :
    ∀ s : Scanner, scanFrom s (a ++ b) =
      match scanFrom s a with
      | some t => scanFrom t b
      | none => none := by
  induction a with
  | nil => intro s; rfl
  | cons c rest ih =>
      intro s
      rw [List.cons_append, scanFrom_cons, scanFrom_cons]
      cases scanStep s c with
      | none => rfl
      | some t => exact ih t

theorem scanFrom_digits (ps : List ParseState) (top : Option Top) (str key : List KeyUnit)
    (mem : List (List KeyUnit × Value)) (ks : List Nat) (h : ∀ k ∈ ks, k < 10) :
    ∀ acc : List UInt8,
      scanFrom { step := Step.s1, parseState := ps, top := top, str := str, key := key,
                 num := acc, members := mem } (ks.map digitByte) =
        some { step := Step.s1, parseState := ps, top := top, str := str, key := key,
               num := acc ++ ks.map digitByte, members := mem } := by
  induction ks with
  | nil => intro acc; simp [scanFrom]
  | cons k rest ih =>
      intro acc
      have hk := h k (List.mem_cons_self _ _)
      rw [List.map_cons]
      have hstep :
          scanStep
              { step := Step.s1, parseState := ps, top := top, str := str, key := key,
                num := acc, members := mem } (digitByte k) =
            some
              { step := Step.s1, parseState := ps, top := top, str := str, key := key,
                num := acc ++ [digitByte k], members := mem } := by
        unfold scanStep
        simp only [isDigit_digitByte k hk, if_true]
      rw [scanFrom_cons, hstep]
      show scanFrom _ (rest.map digitByte) = _
      rw [ih (fun x hx => h x (List.mem_cons_of_mem _ hx)) (acc ++ [digitByte k]),
        List.append_assoc]
      rfl

theorem stateBeginValue_digit (s : Scanner) (k : Nat) (h1 : 1 ≤ k) (h2 : k < 10) :
    stateBeginValue s (digitByte k) = some { s with step := Step.s1, num := [digitByte k] } := by
  interval_cases k <;> rfl

/-- The scanner reads a whole number in decimal as one number. -/
theorem scanFrom_decimal (ps : List ParseState) (top : Option Top) (str key : List KeyUnit)
    (num : List UInt8) (mem : List (List KeyUnit × Value)) (n : Nat) :
    scanFrom { step := Step.beginValue, parseState := ps, top := top, str := str, key := key,
               num := num, members := mem } (decimal n) =
      some { step := if n = 0 then Step.s0 else Step.s1, parseState := ps, top := top,
             str := str, key := key, num := decimal n, members := mem } := by
  obtain ⟨ks, hd, hlt, _, hhead, hzero⟩ := decimal_digits n
  by_cases h0 : n = 0
  · rw [hd, hzero h0, if_pos h0]
    rfl
  · obtain ⟨k0, rest, hks, hk0⟩ := hhead (Nat.pos_of_ne_zero h0)
    have hk0lt : k0 < 10 := hlt k0 (by rw [hks]; exact List.mem_cons_self _ _)
    have hrest : ∀ k ∈ rest, k < 10 := fun k hk =>
      hlt k (by rw [hks]; exact List.mem_cons_of_mem _ hk)
    rw [hd, hks, if_neg h0, List.map_cons]
    have hstep :
        scanStep
            { step := Step.beginValue, parseState := ps, top := top, str := str, key := key,
              num := num, members := mem } (digitByte k0) =
          some
            { step := Step.s1, parseState := ps, top := top, str := str, key := key,
              num := [digitByte k0], members := mem } := by
      show stateBeginValue _ (digitByte k0) = _
      rw [stateBeginValue_digit _ k0 hk0 hk0lt]
    rw [scanFrom_cons, hstep]
    show scanFrom _ (rest.map digitByte) = _
    rw [scanFrom_digits ps top str key mem rest hrest [digitByte k0]]
    rfl

theorem scanFrom_open_cols :
    scanFrom Scanner.reset (asciiBytes "\x7b\"cols\":") =
      some
        { step := Step.beginValue, parseState := [ParseState.parseObjectValue],
          top := some Top.object,
          str := [KeyUnit.byte 0x63, KeyUnit.byte 0x6f, KeyUnit.byte 0x6c, KeyUnit.byte 0x73],
          key := [KeyUnit.byte 0x63, KeyUnit.byte 0x6f, KeyUnit.byte 0x6c, KeyUnit.byte 0x73],
          num := [], members := [] } := by
  decide

theorem scanFrom_comma_rows (st : Step) (hst : st = Step.s0 ∨ st = Step.s1)
    (str key : List KeyUnit) (d : List UInt8) (mem : List (List KeyUnit × Value)) :
    scanFrom
        { step := st, parseState := [ParseState.parseObjectValue], top := some Top.object,
          str := str, key := key, num := d, members := mem } (asciiBytes ",\"rows\":") =
      some
        { step := Step.beginValue, parseState := [ParseState.parseObjectValue],
          top := some Top.object,
          str := [KeyUnit.byte 0x72, KeyUnit.byte 0x6f, KeyUnit.byte 0x77, KeyUnit.byte 0x73],
          key := [KeyUnit.byte 0x72, KeyUnit.byte 0x6f, KeyUnit.byte 0x77, KeyUnit.byte 0x73],
          num := d, members := mem ++ [(key, Value.number d)] } := by
  rcases hst with h | h <;> subst h <;> rfl

theorem scanFrom_close (st : Step) (hst : st = Step.s0 ∨ st = Step.s1)
    (str key : List KeyUnit) (d : List UInt8) (mem : List (List KeyUnit × Value)) :
    scanFrom
        { step := st, parseState := [ParseState.parseObjectValue], top := some Top.object,
          str := str, key := key, num := d, members := mem } (asciiBytes "\x7d") =
      some
        { step := Step.endTop, parseState := [], top := some Top.object, str := str,
          key := key, num := d, members := mem ++ [(key, Value.number d)] } := by
  rcases hst with h | h <;> subst h <;> rfl

/-- The text `{"cols":c,"rows":r}` is valid JSON: an object with the member `cols`, the
number `c`, and the member `rows`, the number `r`. -/
theorem scan_resizeText (c r : Nat) :
    scan (resizeText c r) =
      some (Top.object,
        [([KeyUnit.byte 0x63, KeyUnit.byte 0x6f, KeyUnit.byte 0x6c, KeyUnit.byte 0x73],
            Value.number (decimal c)),
          ([KeyUnit.byte 0x72, KeyUnit.byte 0x6f, KeyUnit.byte 0x77, KeyUnit.byte 0x73],
            Value.number (decimal r))]) := by
  have hc : (if c = 0 then Step.s0 else Step.s1) = Step.s0 ∨
      (if c = 0 then Step.s0 else Step.s1) = Step.s1 := by
    by_cases h : c = 0
    · exact Or.inl (if_pos h)
    · exact Or.inr (if_neg h)
  have hr : (if r = 0 then Step.s0 else Step.s1) = Step.s0 ∨
      (if r = 0 then Step.s0 else Step.s1) = Step.s1 := by
    by_cases h : r = 0
    · exact Or.inl (if_pos h)
    · exact Or.inr (if_neg h)
  have hscan : scanFrom Scanner.reset (resizeText c r) =
      some
        { step := Step.endTop, parseState := [], top := some Top.object,
          str := [KeyUnit.byte 0x72, KeyUnit.byte 0x6f, KeyUnit.byte 0x77, KeyUnit.byte 0x73],
          key := [KeyUnit.byte 0x72, KeyUnit.byte 0x6f, KeyUnit.byte 0x77, KeyUnit.byte 0x73],
          num := decimal r,
          members :=
            [([KeyUnit.byte 0x63, KeyUnit.byte 0x6f, KeyUnit.byte 0x6c, KeyUnit.byte 0x73],
                Value.number (decimal c)),
              ([KeyUnit.byte 0x72, KeyUnit.byte 0x6f, KeyUnit.byte 0x77, KeyUnit.byte 0x73],
                Value.number (decimal r))] } := by
    unfold resizeText
    rw [scanFrom_append, scanFrom_append, scanFrom_append, scanFrom_append, scanFrom_open_cols]
    simp only []
    rw [scanFrom_decimal]
    simp only []
    rw [scanFrom_comma_rows _ hc]
    simp only []
    rw [scanFrom_decimal]
    simp only []
    rw [scanFrom_close _ hr]
    rfl
  unfold scan
  rw [hscan]
  rfl

/-- What the decoder returns for the text `{"cols":c,"rows":r}`. -/
theorem Unmarshal_resizeText (c r : Nat) :
    (c ≤ 65535 → r ≤ 65535 →
      Unmarshal (resizeText c r) = .ok { Cols := UInt16.ofNat c, Rows := UInt16.ofNat r }) ∧
    (65535 < c ∨ 65535 < r → ∃ err, Unmarshal (resizeText c r) = .error err) := by
  have hcols : matchesField
      [KeyUnit.byte 0x63, KeyUnit.byte 0x6f, KeyUnit.byte 0x6c, KeyUnit.byte 0x73] colsName =
      true := by decide
  have hrows : matchesField
      [KeyUnit.byte 0x72, KeyUnit.byte 0x6f, KeyUnit.byte 0x77, KeyUnit.byte 0x73] rowsName =
      true := by decide
  have hrc : matchesField
      [KeyUnit.byte 0x72, KeyUnit.byte 0x6f, KeyUnit.byte 0x77, KeyUnit.byte 0x73] colsName =
      false := by decide
  constructor
  · intro h1 h2
    unfold Unmarshal
    rw [scan_resizeText]
    show storeMembers _ _ = _
    rw [storeMembers_of_fits]
    · simp [lastStored, hcols, hrows, hrc, parseUint16_decimal, h1, h2]
    · intro m hm
      simp only [List.mem_cons, List.mem_singleton, List.not_mem_nil, or_false] at hm
      rcases hm with hm | hm <;> subst hm
      · simp [fits, hcols, parseUint16_decimal, h1]
      · simp [fits, hrows, parseUint16_decimal, h2]
  · intro h
    unfold Unmarshal
    rw [scan_resizeText]
    show ∃ err, storeMembers _ _ = .error err
    apply storeMembers_of_not_fits
    rcases h with h | h
    · refine ⟨_, List.mem_cons_self _ _, ?_⟩
      simp [fits, hcols, parseUint16_decimal]
      omega
    · refine ⟨_, List.mem_cons_of_mem _ (List.mem_cons_self _ _), ?_⟩
      simp [fits, hrows, parseUint16_decimal]
      omega

/-! ### Control frames read by the decoder -/

theorem UInt16_pos_of_one_le (c : UInt16) (h : 1 ≤ c.toNat) : c > 0 := by
  have h0 : (0 : UInt16).toNat = 0 := rfl
  show (0 : UInt16).toNat < c.toNat
  omega

theorem HandleInput_of_error (s : Session) (data : List UInt8) (hne : data ≠ [])
    (h : ∃ err, Unmarshal data = .error err) :
    Session.HandleInput Unmarshal s (0x01 :: data) = s := by
  obtain ⟨err, he⟩ := h
  rw [HandleInput_Unmarshal s data hne, he]

theorem HandleInput_of_ok (s : Session) (data : List UInt8) (hne : data ≠ []) (msg : ResizeMsg)
    (h : Unmarshal data = .ok msg) :
    Session.HandleInput Unmarshal s (0x01 :: data) =
      if msg.Cols > 0 ∧ msg.Rows > 0 then s.Resize msg.Cols msg.Rows else s := by
  rw [HandleInput_Unmarshal s data hne, h]

theorem Unmarshal_of_scan_none (data : List UInt8) (h : scan data = none) :
    ∃ err, Unmarshal data = .error err := by
  unfold Unmarshal
  rw [h]
  exact ⟨_, rfl⟩

theorem Unmarshal_of_scan_object (data : List UInt8) (ms : List (List KeyUnit × Value))
    (h : scan data = some (Top.object, ms)) :
    Unmarshal data = storeMembers { Cols := 0, Rows := 0 } ms := by
  unfold Unmarshal
  rw [h]

/-- A control frame whose payload is an object with a member that does not fit is
ignored. -/
theorem HandleInput_of_not_fits (s : Session) (data : List UInt8) (hne : data ≠ [])
    (ms : List (List KeyUnit × Value)) (h : scan data = some (Top.object, ms))
    (hbad : ∃ m ∈ ms, fits m = false) :
    Session.HandleInput Unmarshal s (0x01 :: data) = s := by
  apply HandleInput_of_error s data hne
  rw [Unmarshal_of_scan_object data ms h]
  exact storeMembers_of_not_fits ms _ hbad

/-- A control frame whose payload is an object with members that all fit resizes to the
numbers of the last members that match `cols` and `rows`, when both are positive. -/
theorem HandleInput_of_fits (s : Session) (data : List UInt8) (hne : data ≠ [])
    (ms : List (List KeyUnit × Value)) (h : scan data = some (Top.object, ms))
    (hfit : ∀ m ∈ ms, fits m = true) :
    Session.HandleInput Unmarshal s (0x01 :: data) =
      if lastStored colsName 0 ms > 0 ∧ lastStored rowsName 0 ms > 0 then
        s.Resize (lastStored colsName 0 ms) (lastStored rowsName 0 ms)
      else s := by
  have hu : Unmarshal data =
      .ok { Cols := lastStored colsName 0 ms, Rows := lastStored rowsName 0 ms } := by
    rw [Unmarshal_of_scan_object data ms h]
    exact storeMembers_of_fits ms _ hfit
  exact HandleInput_of_ok s data hne _ hu

theorem HandleInput_of_zero (s : Session) (data : List UInt8) (hne : data ≠ [])
    (ms : List (List KeyUnit × Value)) (h : scan data = some (Top.object, ms))
    (hz : lastStored colsName 0 ms = 0 ∨ lastStored rowsName 0 ms = 0) :
    Session.HandleInput Unmarshal s (0x01 :: data) = s := by
  by_cases hfit : ∀ m ∈ ms, fits m = true
  · rw [HandleInput_of_fits s data hne ms h hfit]
    apply if_neg
    rintro ⟨hc, hr⟩
    rcases hz with hz | hz
    · rw [hz] at hc
      exact absurd hc (by decide)
    · rw [hz] at hr
      exact absurd hr (by decide)
  · apply HandleInput_of_not_fits s data hne ms h
    by_contra hno
    apply hfit
    intro m hm
    cases hf : fits m with
    | true => rfl
    | false => exact absurd ⟨m, hm, hf⟩ hno

theorem resizeText_ne_nil (c r : Nat) : resizeText c r ≠ [] := by
  intro h
  have := congrArg List.length h
  unfold resizeText at this
  simp only [List.length_append] at this
  have h1 : (asciiBytes "\x7d").length = 1 := rfl
  rw [h1] at this
  simp at this

/-- The frame `0x01` followed by `{"cols":c,"rows":r}`: a resize to `c` by `r` when both
are between 1 and 65535, and nothing otherwise. -/
theorem HandleInput_resizeText (s : Session) (c r : Nat) :
    Session.HandleInput Unmarshal s (0x01 :: resizeText c r) =
      if 1 ≤ c ∧ c ≤ 65535 ∧ 1 ≤ r ∧ r ≤ 65535 then
        { s with size := { Rows := UInt16.ofNat r, Cols := UInt16.ofNat c } }
      else s := by
  by_cases hbig : 65535 < c ∨ 65535 < r
  · rw [HandleInput_of_error s _ (resizeText_ne_nil c r) ((Unmarshal_resizeText c r).2 hbig),
      if_neg]
    omega
  · have hc : c ≤ 65535 := by omega
    have hr : r ≤ 65535 := by omega
    rw [HandleInput_of_ok s _ (resizeText_ne_nil c r) _ ((Unmarshal_resizeText c r).1 hc hr)]
    by_cases hpos : 1 ≤ c ∧ 1 ≤ r
    · have hL : UInt16.ofNat c > 0 ∧ UInt16.ofNat r > 0 :=
        ⟨UInt16_pos_of_one_le _ (by rw [UInt16_toNat_ofNat_of_le c hc]; exact hpos.1),
          UInt16_pos_of_one_le _ (by rw [UInt16_toNat_ofNat_of_le r hr]; exact hpos.2)⟩
      have hR : 1 ≤ c ∧ c ≤ 65535 ∧ 1 ≤ r ∧ r ≤ 65535 := ⟨hpos.1, hc, hpos.2, hr⟩
      rw [if_pos hR]
      show (if UInt16.ofNat c > 0 ∧ UInt16.ofNat r > 0 then
        s.Resize (UInt16.ofNat c) (UInt16.ofNat r) else s) = _
      rw [if_pos hL]
      rfl
    · have hR : ¬ (1 ≤ c ∧ c ≤ 65535 ∧ 1 ≤ r ∧ r ≤ 65535) := fun h => hpos ⟨h.1, h.2.2.1⟩
      have hL : ¬ (UInt16.ofNat c > 0 ∧ UInt16.ofNat r > 0) := by
        rintro ⟨h1, h2⟩
        have e1 := UInt16_one_le_of_pos _ h1
        have e2 := UInt16_one_le_of_pos _ h2
        rw [UInt16_toNat_ofNat_of_le c hc] at e1
        rw [UInt16_toNat_ofNat_of_le r hr] at e2
        exact hpos ⟨e1, e2⟩
      rw [if_neg hR]
      show (if UInt16.ofNat c > 0 ∧ UInt16.ofNat r > 0 then
        s.Resize (UInt16.ofNat c) (UInt16.ofNat r) else s) = _
      rw [if_neg hL]

/-- C9, counterexample: the frame `0x01` followed by `{"cols":70000,"rows":40}`.  Its
payload is valid JSON, the object with `cols` 70000 and `rows` 40, both greater than 0;
the decoder cannot store 70000 in the `uint16` field, and `HandleInput` leaves the size
of a fresh session at 80 columns by 24 rows. -/
theorem C9_counterexample_cols_above_65535 :
    scan (asciiBytes "\x7b\"cols\":70000,\"rows\":40\x7d") =
        some (Top.object,
          [([KeyUnit.byte 0x63, KeyUnit.byte 0x6f, KeyUnit.byte 0x6c, KeyUnit.byte 0x73],
              Value.number (asciiBytes "70000")),
            ([KeyUnit.byte 0x72, KeyUnit.byte 0x6f, KeyUnit.byte 0x77, KeyUnit.byte 0x73],
              Value.number (asciiBytes "40"))]) ∧
      digitsValue (asciiBytes "70000") = 70000 ∧ digitsValue (asciiBytes "40") = 40 ∧
      Session.HandleInput Unmarshal Spawn
          (0x01 :: asciiBytes "\x7b\"cols\":70000,\"rows\":40\x7d") = Spawn ∧
      Spawn.size = { Rows := 24, Cols := 80 } := by
  decide

/-- C9 (amended): (text) for every session and all whole numbers `c` and `r` between 1
and 65535, the frame `0x01` followed by `{"cols":c,"rows":r}`, the numbers written in
decimal, sets the window size to exactly `c` columns by `r` rows (not swapped), writes
nothing to the process and changes nothing else; in particular `{"cols":120,"rows":40}`
sets 120 by 40.  (any payload) the same holds for every payload that is a JSON object
whose members all fit, with `c` and `r` the numbers of the last members that match `cols`
and `rows`, both positive.  (any decoder) for every decoder, a frame whose payload decodes
without error to `cols = c > 0` and `rows = r > 0` sets the size to `c` by `r`. -/
theorem C9_control_frame_in_range_sets_size :
    (∀ (s : Session) (c r : Nat), 1 ≤ c → c ≤ 65535 → 1 ≤ r → r ≤ 65535 →
      (Session.HandleInput Unmarshal s (0x01 :: resizeText c r)).size.Cols.toNat = c ∧
        (Session.HandleInput Unmarshal s (0x01 :: resizeText c r)).size.Rows.toNat = r ∧
        (Session.HandleInput Unmarshal s (0x01 :: resizeText c r)).written = s.written ∧
        Session.HandleInput Unmarshal s (0x01 :: resizeText c r) =
          { s with size := { Rows := UInt16.ofNat r, Cols := UInt16.ofNat c } }) ∧
    (∀ s : Session,
      Session.HandleInput Unmarshal s
          (0x01 :: asciiBytes "\x7b\"cols\":120,\"rows\":40\x7d") =
        { s with size := { Rows := 40, Cols := 120 } }) ∧
    (∀ (s : Session) (data : List UInt8) (ms : List (List KeyUnit × Value)),
      data ≠ [] → scan data = some (Top.object, ms) → (∀ m ∈ ms, fits m = true) →
      lastStored colsName 0 ms > 0 → lastStored rowsName 0 ms > 0 →
      Session.HandleInput Unmarshal s (0x01 :: data) =
        { s with size := { Rows := lastStored rowsName 0 ms,
                           Cols := lastStored colsName 0 ms } }) ∧
    (∀ (unmarshal : List UInt8 → Except String ResizeMsg) (s : Session) (data : List UInt8)
        (c r : UInt16),
      data.head? = some 0x01 → data.length > 1 →
      unmarshal data.tail = .ok { Cols := c, Rows := r } → c > 0 → r > 0 →
      (Session.HandleInput unmarshal s data).size.Cols = c ∧
        (Session.HandleInput unmarshal s data).size.Rows = r ∧
        (Session.HandleInput unmarshal s data).written = s.written ∧
        Session.HandleInput unmarshal s data = { s with size := { Rows := r, Cols := c } }) := by
  have text : ∀ (s : Session) (c r : Nat), 1 ≤ c → c ≤ 65535 → 1 ≤ r → r ≤ 65535 →
      Session.HandleInput Unmarshal s (0x01 :: resizeText c r) =
        { s with size := { Rows := UInt16.ofNat r, Cols := UInt16.ofNat c } } := by
    intro s c r h1 h2 h3 h4
    rw [HandleInput_resizeText s c r, if_pos ⟨h1, h2, h3, h4⟩]
  refine ⟨?_, ?_, ?_, ?_⟩
  · intro s c r h1 h2 h3 h4
    rw [text s c r h1 h2 h3 h4]
    exact ⟨UInt16_toNat_ofNat_of_le c h2, UInt16_toNat_ofNat_of_le r h4, rfl, rfl⟩
  · intro s
    exact text s 120 40 (by decide) (by decide) (by decide) (by decide)
  · intro s data ms hne hscan hfit hc hr
    rw [HandleInput_of_fits s data hne ms hscan hfit, if_pos ⟨hc, hr⟩]
    rfl
  · intro unmarshal s data c r h1 hlen hok hc hr
    have h : Session.HandleInput unmarshal s data =
        { s with size := { Rows := r, Cols := c } } := by
      rw [HandleInput_control unmarshal s data h1 hlen, hok]
      show (if c > 0 ∧ r > 0 then s.Resize c r else s) = _
      rw [if_pos ⟨hc, hr⟩]
      rfl
    rw [h]
    exact ⟨rfl, rfl, rfl, rfl⟩

/-- C9 (amended) at a freshly spawned session and the numbers 120 and 40. -/
theorem C9_control_frame_in_range_sets_size_witness :
    resizeText 120 40 = asciiBytes "\x7b\"cols\":120,\"rows\":40\x7d" ∧
      (Session.HandleInput Unmarshal Spawn (0x01 :: resizeText 120 40)).size.Cols.toNat = 120 ∧
      (Session.HandleInput Unmarshal Spawn (0x01 :: resizeText 120 40)).size.Rows.toNat = 40 :=
  ⟨by decide,
    (C9_control_frame_in_range_sets_size.1 Spawn 120 40 (by decide) (by decide) (by decide)
      (by decide)).1,
    (C9_control_frame_in_range_sets_size.1 Spawn 120 40 (by decide) (by decide) (by decide)
      (by decide)).2.1⟩

/-- C10, counterexample: the frame `0x01` followed by `{"COLS":120,"ROWS":40}`.  Its
payload is a JSON object whose members are named `COLS` and `ROWS`; it has no member
`cols` and no member `rows`.  The decoder matches names ignoring case, and `HandleInput`
resizes a fresh session from 80 by 24 to 120 columns by 40 rows. -/
theorem C10_counterexample_member_names_in_capitals :
    scan (asciiBytes "\x7b\"COLS\":120,\"ROWS\":40\x7d") =
        some (Top.object,
          [([KeyUnit.byte 0x43, KeyUnit.byte 0x4f, KeyUnit.byte 0x4c, KeyUnit.byte 0x53],
              Value.number (asciiBytes "120")),
            ([KeyUnit.byte 0x52, KeyUnit.byte 0x4f, KeyUnit.byte 0x57, KeyUnit.byte 0x53],
              Value.number (asciiBytes "40"))]) ∧
      asciiBytes "COLS" ≠ asciiBytes "cols" ∧ asciiBytes "ROWS" ≠ asciiBytes "rows" ∧
      Session.HandleInput Unmarshal Spawn
          (0x01 :: asciiBytes "\x7b\"COLS\":120,\"ROWS\":40\x7d") =
        { Spawn with size := { Rows := 40, Cols := 120 } } ∧
      (Session.HandleInput Unmarshal Spawn
          (0x01 :: asciiBytes "\x7b\"COLS\":120,\"ROWS\":40\x7d")).size ≠ Spawn.size := by
  decide

/-- C10 (amended): for every session and every frame `0x01` followed by at least one
byte, `HandleInput` returns the session as it was (same size, nothing written, nothing
else changed) in each of these cases: the payload is not valid JSON; it is valid JSON but
not an object; it is an object in which no member that matches `cols` (or none that
matches `rows`), exactly or ignoring case, holds a number; the number it finally gives
`cols` or `rows` is zero; or a member that matches `cols` or `rows` holds a value that
does not fit a `uint16`.  For every decoder, the same holds when the decoder returns an
error or a message with a zero field.  `HandleInput` has no result besides the session,
so no error reaches the caller. -/
theorem C10_bad_control_frame_is_ignored :
    (∀ (s : Session) (data : List UInt8), data ≠ [] → scan data = none →
      Session.HandleInput Unmarshal s (0x01 :: data) = s) ∧
    (∀ (s : Session) (data : List UInt8) (top : Top) (ms : List (List KeyUnit × Value)),
      data ≠ [] → scan data = some (top, ms) → top ≠ Top.object →
      Session.HandleInput Unmarshal s (0x01 :: data) = s) ∧
    (∀ (s : Session) (data : List UInt8) (ms : List (List KeyUnit × Value)),
      data ≠ [] → scan data = some (Top.object, ms) →
      ((∀ m ∈ ms, matchesField m.1 colsName = true → ∀ text, m.2 ≠ Value.number text) ∨
        (∀ m ∈ ms, matchesField m.1 rowsName = true → ∀ text, m.2 ≠ Value.number text) ∨
        lastStored colsName 0 ms = 0 ∨ lastStored rowsName 0 ms = 0 ∨
        (∃ m ∈ ms, fits m = false)) →
      Session.HandleInput Unmarshal s (0x01 :: data) = s) ∧
    (∀ s : Session,
      Session.HandleInput Unmarshal s (0x01 :: asciiBytes "\x7b\"cols\":0,\"rows\":40\x7d") = s ∧
        Session.HandleInput Unmarshal s (0x01 :: asciiBytes "\x7b\"rows\":40\x7d") = s ∧
        Session.HandleInput Unmarshal s (0x01 :: asciiBytes "\x7b\"cols\":80,\"rows\"") = s ∧
        Session.HandleInput Unmarshal s (0x01 :: asciiBytes "resize") = s) ∧
    (∀ (unmarshal : List UInt8 → Except String ResizeMsg) (s : Session) (data : List UInt8),
      data.head? = some 0x01 → data.length > 1 →
      ((∃ err, unmarshal data.tail = .error err) ∨
        (∃ msg, unmarshal data.tail = .ok msg ∧ (msg.Cols = 0 ∨ msg.Rows = 0))) →
      Session.HandleInput unmarshal s data = s) := by
  refine ⟨?_, ?_, ?_, ?_, ?_⟩
  · intro s data hne hscan
    exact HandleInput_of_error s data hne (Unmarshal_of_scan_none data hscan)
  · intro s data top ms hne hscan htop
    cases top with
    | object => exact absurd rfl htop
    | null =>
        have hu : Unmarshal data = .ok { Cols := 0, Rows := 0 } := by
          unfold Unmarshal
          rw [hscan]
        rw [HandleInput_of_ok s data hne _ hu]
        exact if_neg (fun h => absurd h.1 (by decide))
    | other =>
        apply HandleInput_of_error s data hne
        unfold Unmarshal
        rw [hscan]
        exact ⟨_, rfl⟩
  · intro s data ms hne hscan hbad
    rcases hbad with h | h | h | h | h
    · exact HandleInput_of_zero s data hne ms hscan
        (Or.inl (lastStored_of_no_number colsName ms 0 h))
    · exact HandleInput_of_zero s data hne ms hscan
        (Or.inr (lastStored_of_no_number rowsName ms 0 h))
    · exact HandleInput_of_zero s data hne ms hscan (Or.inl h)
    · exact HandleInput_of_zero s data hne ms hscan (Or.inr h)
    · exact HandleInput_of_not_fits s data hne ms hscan h
  · intro s
    refine ⟨?_, ?_, ?_, ?_⟩
    · rw [HandleInput_of_ok s (asciiBytes "\x7b\"cols\":0,\"rows\":40\x7d") (by decide)
        { Cols := 0, Rows := 40 } rfl]
      exact if_neg (fun h => absurd h.1 (by decide))
    · rw [HandleInput_of_ok s (asciiBytes "\x7b\"rows\":40\x7d") (by decide)
        { Cols := 0, Rows := 40 } rfl]
      exact if_neg (fun h => absurd h.1 (by decide))
    · exact HandleInput_of_error s (asciiBytes "\x7b\"cols\":80,\"rows\"") (by decide)
        ⟨_, rfl⟩
    · exact HandleInput_of_error s (asciiBytes "resize") (by decide) ⟨_, rfl⟩
  · intro unmarshal s data h1 hlen hbad
    rw [HandleInput_control unmarshal s data h1 hlen]
    rcases hbad with ⟨err, he⟩ | ⟨msg, hm, hz⟩
    · rw [he]
    · rw [hm]
      show (if msg.Cols > 0 ∧ msg.Rows > 0 then s.Resize msg.Cols msg.Rows else s) = s
      apply if_neg
      rintro ⟨hc, hr⟩
      rcases hz with hz | hz
      · rw [hz] at hc; exact absurd hc (by decide)
      · rw [hz] at hr; exact absurd hr (by decide)

/-- C10 (amended) at a freshly spawned session and the frame `0x01` followed by
`{"rows":40}`, which has no member for `cols`: the size stays 80 columns by 24 rows. -/
theorem C10_bad_control_frame_is_ignored_witness :
    asciiBytes "\x7b\"rows\":40\x7d" ≠ [] ∧
      scan (asciiBytes "\x7b\"rows\":40\x7d") =
        some (Top.object,
          [([KeyUnit.byte 0x72, KeyUnit.byte 0x6f, KeyUnit.byte 0x77, KeyUnit.byte 0x73],
            Value.number (asciiBytes "40"))]) ∧
      Session.HandleInput Unmarshal Spawn (0x01 :: asciiBytes "\x7b\"rows\":40\x7d") = Spawn :=
  ⟨by decide, by decide,
    C10_bad_control_frame_is_ignored.2.2.1 Spawn (asciiBytes "\x7b\"rows\":40\x7d")
      [([KeyUnit.byte 0x72, KeyUnit.byte 0x6f, KeyUnit.byte 0x77, KeyUnit.byte 0x73],
        Value.number (asciiBytes "40"))]
      (by decide) (by decide)
      (Or.inl (by
        intro m hm hk
        rw [List.mem_singleton] at hm
        subst hm
        exact absurd hk (by decide)))⟩

/-- C29, counterexample: the frame `0x01` followed by
`{"cols":0,"COLS":100,"rows":40}`.  Its payload is a JSON object that gives `cols` the
value 0 (and has a further member, named `COLS`).  The decoder stores both members in the
field `Cols`, one after the other, and `HandleInput` resizes a fresh session to 100
columns by 40 rows. -/
theorem C29_counterexample_zero_then_capitals :
    scan (asciiBytes "\x7b\"cols\":0,\"COLS\":100,\"rows\":40\x7d") =
        some (Top.object,
          [([KeyUnit.byte 0x63, KeyUnit.byte 0x6f, KeyUnit.byte 0x6c, KeyUnit.byte 0x73],
              Value.number (asciiBytes "0")),
            ([KeyUnit.byte 0x43, KeyUnit.byte 0x4f, KeyUnit.byte 0x4c, KeyUnit.byte 0x53],
              Value.number (asciiBytes "100")),
            ([KeyUnit.byte 0x72, KeyUnit.byte 0x6f, KeyUnit.byte 0x77, KeyUnit.byte 0x73],
              Value.number (asciiBytes "40"))]) ∧
      digitsValue (asciiBytes "0") = 0 ∧
      Session.HandleInput Unmarshal Spawn
          (0x01 :: asciiBytes "\x7b\"cols\":0,\"COLS\":100,\"rows\":40\x7d") =
        { Spawn with size := { Rows := 40, Cols := 100 } } ∧
      (Session.HandleInput Unmarshal Spawn
          (0x01 :: asciiBytes "\x7b\"cols\":0,\"COLS\":100,\"rows\":40\x7d")).size ≠
        Spawn.size := by
  decide

/-- C29 (amended): a resize is applied only with numbers the frame gives in full,
between 1 and 65535.

* (every frame) Whenever `HandleInput`, with the decoder of `encoding/json`, changes a
  session on a frame `0x01` followed by a payload, the payload is a JSON object whose
  members all fit; it has a member matching `cols` and a member matching `rows` whose
  values are written with digits only and are between 1 and 65535; and the new size is
  exactly these two numbers, nothing being written.
* (values out of range) A control frame whose object has a member matching `cols` or
  `rows` with a number that is not written with digits only (negative, with a fraction,
  with an exponent) or is greater than 65535 leaves the session as it was; so does one in
  which the number finally given to `cols` or `rows`, that of the last member matching
  it, is zero.
* (the client's text) For all whole numbers `c` and `r`, the frame `0x01` followed by
  `{"cols":c,"rows":r}` leaves the session as it was when `c` or `r` is 0 or greater than
  65535; no value is reduced modulo `2^16`.
* (examples) `cols` -1, 1.5, 1e2, 65536, 65537 and 0 give no resize.
* (any decoder) For every decoder the size after `HandleInput` is the old size or the
  pair of `uint16` values the decoder returned, both between 1 and 65535. -/
theorem C29_no_resize_outside_uint16_range :
    (∀ (s : Session) (data : List UInt8), data ≠ [] →
      Session.HandleInput Unmarshal s (0x01 :: data) ≠ s →
      ∃ (ms : List (List KeyUnit × Value)) (kc kr : List KeyUnit) (tc tr : List UInt8),
        scan data = some (Top.object, ms) ∧ (∀ m ∈ ms, fits m = true) ∧
        (kc, Value.number tc) ∈ ms ∧ matchesField kc colsName = true ∧
        tc.all isDigit = true ∧ 1 ≤ digitsValue tc ∧ digitsValue tc ≤ 65535 ∧
        (kr, Value.number tr) ∈ ms ∧ matchesField kr rowsName = true ∧
        tr.all isDigit = true ∧ 1 ≤ digitsValue tr ∧ digitsValue tr ≤ 65535 ∧
        (Session.HandleInput Unmarshal s (0x01 :: data)).size.Cols.toNat = digitsValue tc ∧
        (Session.HandleInput Unmarshal s (0x01 :: data)).size.Rows.toNat = digitsValue tr ∧
        (Session.HandleInput Unmarshal s (0x01 :: data)).written = s.written) ∧
    (∀ (s : Session) (data : List UInt8) (ms : List (List KeyUnit × Value))
        (key : List KeyUnit) (text : List UInt8),
      data ≠ [] → scan data = some (Top.object, ms) → (key, Value.number text) ∈ ms →
      (matchesField key colsName = true ∨ matchesField key rowsName = true) →
      (text.all isDigit = false ∨ 65535 < digitsValue text) →
      Session.HandleInput Unmarshal s (0x01 :: data) = s) ∧
    (∀ (s : Session) (data : List UInt8) (ms : List (List KeyUnit × Value)),
      data ≠ [] → scan data = some (Top.object, ms) →
      (lastStored colsName 0 ms = 0 ∨ lastStored rowsName 0 ms = 0) →
      Session.HandleInput Unmarshal s (0x01 :: data) = s) ∧
    (∀ (s : Session) (c r : Nat), (c = 0 ∨ 65535 < c ∨ r = 0 ∨ 65535 < r) →
      Session.HandleInput Unmarshal s (0x01 :: resizeText c r) = s) ∧
    (∀ s : Session,
      Session.HandleInput Unmarshal s (0x01 :: asciiBytes "\x7b\"cols\":-1,\"rows\":40\x7d") = s ∧
        Session.HandleInput Unmarshal s
          (0x01 :: asciiBytes "\x7b\"cols\":1.5,\"rows\":40\x7d") = s ∧
        Session.HandleInput Unmarshal s
          (0x01 :: asciiBytes "\x7b\"cols\":1e2,\"rows\":40\x7d") = s ∧
        Session.HandleInput Unmarshal s
          (0x01 :: asciiBytes "\x7b\"cols\":65536,\"rows\":40\x7d") = s ∧
        Session.HandleInput Unmarshal s
          (0x01 :: asciiBytes "\x7b\"cols\":65537,\"rows\":40\x7d") = s ∧
        Session.HandleInput Unmarshal s
          (0x01 :: asciiBytes "\x7b\"cols\":0,\"rows\":40\x7d") = s) ∧
    (∀ (unmarshal : List UInt8 → Except String ResizeMsg) (s : Session) (data : List UInt8),
      (Session.HandleInput unmarshal s data).size = s.size ∨
        ∃ c r : UInt16, unmarshal data.tail = .ok { Cols := c, Rows := r } ∧
          1 ≤ c.toNat ∧ c.toNat ≤ 65535 ∧ 1 ≤ r.toNat ∧ r.toNat ≤ 65535 ∧
          (Session.HandleInput unmarshal s data).size = { Rows := r, Cols := c }) := by
  refine ⟨?_, ?_, ?_, ?_, ?_, ?_⟩
  · intro s data hne hch
    cases hscan : scan data with
    | none =>
        exact absurd (HandleInput_of_error s data hne (Unmarshal_of_scan_none data hscan)) hch
    | some p =>
        obtain ⟨top, ms⟩ := p
        cases top with
        | null =>
            exfalso
            apply hch
            have hu : Unmarshal data = .ok { Cols := 0, Rows := 0 } := by
              unfold Unmarshal
              rw [hscan]
            rw [HandleInput_of_ok s data hne _ hu]
            exact if_neg (fun h => absurd h.1 (by decide))
        | other =>
            exfalso
            apply hch
            apply HandleInput_of_error s data hne
            unfold Unmarshal
            rw [hscan]
            exact ⟨_, rfl⟩
        | object =>
            by_cases hfit : ∀ m ∈ ms, fits m = true
            · have hH := HandleInput_of_fits s data hne ms hscan hfit
              by_cases hpos : lastStored colsName 0 ms > 0 ∧ lastStored rowsName 0 ms > 0
              · rw [if_pos hpos] at hH
                have hc1 := UInt16_one_le_of_pos _ hpos.1
                have hr1 := UInt16_one_le_of_pos _ hpos.2
                rcases lastStored_origin colsName ms 0 with h0 | ⟨mc, hmc, hkc, tc, hvc, hpc⟩
                · rw [h0] at hc1
                  exact absurd hc1 (by decide)
                rcases lastStored_origin rowsName ms 0 with h0 | ⟨mr, hmr, hkr, tr, hvr, hpr⟩
                · rw [h0] at hr1
                  exact absurd hr1 (by decide)
                obtain ⟨_, hdc, hvalc, hlec⟩ := parseUint16_spec tc _ hpc
                obtain ⟨_, hdr, hvalr, hler⟩ := parseUint16_spec tr _ hpr
                obtain ⟨kc, vc⟩ := mc
                obtain ⟨kr, vr⟩ := mr
                have hvc2 : vc = Value.number tc := hvc
                have hvr2 : vr = Value.number tr := hvr
                subst hvc2
                subst hvr2
                refine ⟨ms, kc, kr, tc, tr, rfl, hfit, hmc, hkc, hdc, ?_, ?_, hmr, hkr, hdr,
                  ?_, ?_, ?_, ?_, ?_⟩
                · rw [hvalc]; exact hc1
                · rw [hvalc]; exact hlec
                · rw [hvalr]; exact hr1
                · rw [hvalr]; exact hler
                · rw [hH, hvalc]; rfl
                · rw [hH, hvalr]; rfl
                · rw [hH]; rfl
              · rw [if_neg hpos] at hH
                exact absurd hH hch
            · exfalso
              apply hch
              apply HandleInput_of_not_fits s data hne ms hscan
              by_contra hno
              apply hfit
              intro m hm
              cases hf : fits m with
              | true => rfl
              | false => exact absurd ⟨m, hm, hf⟩ hno
  · intro s data ms key text hne hscan hmem hkey hbad
    apply HandleInput_of_not_fits s data hne ms hscan
    refine ⟨(key, Value.number text), hmem, ?_⟩
    have hk : (matchesField key colsName || matchesField key rowsName) = true := by
      rcases hkey with h | h <;> simp [h]
    unfold fits
    simp only [hk, if_true, parseUint16_none text hbad]
    rfl
  · intro s data ms hne hscan hz
    exact HandleInput_of_zero s data hne ms hscan hz
  · intro s c r h
    rw [HandleInput_resizeText s c r, if_neg]
    omega
  · intro s
    refine ⟨?_, ?_, ?_, ?_, ?_, ?_⟩
    · exact HandleInput_of_error s (asciiBytes "\x7b\"cols\":-1,\"rows\":40\x7d") (by decide)
        ⟨_, rfl⟩
    · exact HandleInput_of_error s (asciiBytes "\x7b\"cols\":1.5,\"rows\":40\x7d") (by decide)
        ⟨_, rfl⟩
    · exact HandleInput_of_error s (asciiBytes "\x7b\"cols\":1e2,\"rows\":40\x7d") (by decide)
        ⟨_, rfl⟩
    · exact HandleInput_of_error s (asciiBytes "\x7b\"cols\":65536,\"rows\":40\x7d") (by decide)
        ⟨_, rfl⟩
    · exact HandleInput_of_error s (asciiBytes "\x7b\"cols\":65537,\"rows\":40\x7d") (by decide)
        ⟨_, rfl⟩
    · rw [HandleInput_of_ok s (asciiBytes "\x7b\"cols\":0,\"rows\":40\x7d") (by decide)
        { Cols := 0, Rows := 40 } rfl]
      exact if_neg (fun h => absurd h.1 (by decide))
  · intro unmarshal s data
    rcases HandleInput_size unmarshal s data with h | ⟨msg, _, _, hok, hc, hr, hsz⟩
    · exact Or.inl h
    · exact Or.inr ⟨msg.Cols, msg.Rows, hok, UInt16_one_le_of_pos _ hc, UInt16_toNat_le _,
        UInt16_one_le_of_pos _ hr, UInt16_toNat_le _, hsz⟩

/-- C29 (amended) at a freshly spawned session and `cols` 70000: no resize, and not a resize to
70000 modulo 65536 = 4464 columns. -/
theorem C29_no_resize_outside_uint16_range_witness :
    resizeText 70000 40 = asciiBytes "\x7b\"cols\":70000,\"rows\":40\x7d" ∧
      Session.HandleInput Unmarshal Spawn (0x01 :: resizeText 70000 40) = Spawn :=
  ⟨by decide,
    C29_no_resize_outside_uint16_range.2.2.2.1 Spawn 70000 40 (Or.inr (Or.inl (by decide)))⟩

end pty

/-! ## The whole handler -/

namespace web

/-- A request that is not registered ends with the connecting phase: no goroutine and no
input loop. -/
theorem HandleWebSocket_of_not_accepted (unmarshal : List UInt8 → Except String pty.ResizeMsg)
    (cfg : Config) (st : State) (r : Request) (env : Answers)
    (rounds : List (List Op × Option (List UInt8) × Time))
    (h : ∀ id sess, (HandleWebSocketConnect cfg st r env).outcome ≠ Outcome.accepted id sess) :
    HandleWebSocket unmarshal cfg st r env rounds =
      { st := (HandleWebSocketConnect cfg st r env).st,
        actions := (HandleWebSocketConnect cfg st r env).actions,
        outcome := (HandleWebSocketConnect cfg st r env).outcome,
        outputStarted := false, touches := [], handled := [], returned := true } := by
  unfold HandleWebSocket
  split
  · rename_i id sess heq
    exact absurd heq (h id sess)
  · rfl

theorem Connect_of_spawn_failed (cfg : Config) (st : State) (r : Request) (env : Answers)
    (hacc : st.sm.CanAccept = true) (hup : env.upgradeOk = true) (hspawn : env.spawned = none) :
    HandleWebSocketConnect cfg st r env =
      { st := run st env.others,
        actions := [Action.upgrade true,
          Action.spawn (spawnCommand cfg env.executable r.mode).1
            (spawnCommand cfg env.executable r.mode).2,
          Action.writeMessage MessageType.TextMessage "Error: failed to start console\r\n",
          Action.connClose],
        outcome := Outcome.spawnFailed } := by
  unfold HandleWebSocketConnect
  rw [if_neg (by simp [hacc]), if_neg (by simp [hup]), hspawn]

/-- C21: for every request that passes the capacity check and is upgraded, and whose
`Spawn` returns an error: the handler calls `Spawn` once, then sends exactly one text
frame, `Error: failed to start console`, then closes the connection, and returns; the
state is the one the other goroutines left, so the handler registers nothing; the output
goroutine is not started and the input loop handles no frame and touches nothing. -/
theorem C21_spawn_failure_is_reported (unmarshal : List UInt8 → Except String pty.ResizeMsg)
    (cfg : Config) (st : State) (r : Request) (env : Answers)
    (rounds : List (List Op × Option (List UInt8) × Time))
    (hacc : st.sm.CanAccept = true) (hup : env.upgradeOk = true) (hspawn : env.spawned = none) :
    (HandleWebSocket unmarshal cfg st r env rounds).actions =
        [Action.upgrade true,
          Action.spawn (spawnCommand cfg env.executable r.mode).1
            (spawnCommand cfg env.executable r.mode).2,
          Action.writeMessage MessageType.TextMessage "Error: failed to start console\r\n",
          Action.connClose] ∧
      (HandleWebSocket unmarshal cfg st r env rounds).st = run st env.others ∧
      (HandleWebSocket unmarshal cfg st r env rounds).outcome = Outcome.spawnFailed ∧
      (HandleWebSocket unmarshal cfg st r env rounds).outputStarted = false ∧
      (HandleWebSocket unmarshal cfg st r env rounds).touches = [] ∧
      (HandleWebSocket unmarshal cfg st r env rounds).handled = [] ∧
      (HandleWebSocket unmarshal cfg st r env rounds).returned = true := by
  have hc := Connect_of_spawn_failed cfg st r env hacc hup hspawn
  have h := HandleWebSocket_of_not_accepted unmarshal cfg st r env rounds
    (by rw [hc]; intro id sess hh; cases hh)
  rw [h, hc]
  exact ⟨rfl, rfl, rfl, rfl, rfl, rfl, rfl⟩

/-- C21 at an empty registry of capacity one, with a frame waiting on the socket. -/
theorem C21_spawn_failure_is_reported_witness :
    (NewSessionManager 1 0).CanAccept = true ∧
      (HandleWebSocket pty.Unmarshal
        { Port := 8080, MaxSessions := 1, IdleTimeout := 0, TUIBinary := "" }
        { sm := NewSessionManager 1 0, procs := fun _ => pty.Spawn }
        { RemoteAddr := "10.0.0.1:4000", mode := "shell" }
        { others := [], upgradeOk := true, now := 7, executable := "/usr/bin/opendoc",
          spawned := none, addNow := 8 }
        [([], some [0x6c], 20)]).actions =
        [Action.upgrade true, Action.spawn "/bin/bash" ["--login"],
          Action.writeMessage MessageType.TextMessage "Error: failed to start console\r\n",
          Action.connClose] :=
  ⟨by decide,
    (C21_spawn_failure_is_reported pty.Unmarshal
      { Port := 8080, MaxSessions := 1, IdleTimeout := 0, TUIBinary := "" }
      { sm := NewSessionManager 1 0, procs := fun _ => pty.Spawn }
      { RemoteAddr := "10.0.0.1:4000", mode := "shell" }
      { others := [], upgradeOk := true, now := 7, executable := "/usr/bin/opendoc",
        spawned := none, addNow := 8 }
      [([], some [0x6c], 20)] (by decide) rfl rfl).1.trans (by decide)⟩

/-! ### The monitoring endpoint -/

/-- C24 (as stated) fails: the body the monitoring endpoint writes for a new server with
a maximum of 5 is `{"status":"ok","sessions":0,"max":5}`; it has no member `sessionCount`
and no member `maxSessions`. -/
theorem C24_counterexample_member_names :
    ¬ ∀ s : Server, hasMember s.handleHealth.body "status" = true ∧
        hasMember s.handleHealth.body "sessionCount" = true ∧
        hasMember s.handleHealth.body "maxSessions" = true := by
  intro h
  have h1 := (h (NewServer
    { Port := 8080, MaxSessions := 5, IdleTimeout := 0, TUIBinary := "" })).2.1
  revert h1
  decide

/-- C24 (amended): for every server (configuration and registry state) the monitoring
endpoint answers with content type `application/json` and the body
`{"status":"ok","sessions":N,"max":M}`, where `N` is the decimal form of the registry's
current number of sessions and `M` that of the configured `MaxSessions`; the body has the
members `status`, `sessions` and `max`; and the registry of a server made by `NewServer`
has this `MaxSessions` as its limit. -/
theorem C24_health_reports_count_and_max (s : Server) :
    s.handleHealth.contentType = "application/json" ∧
      s.handleHealth.body =
        "\x7b\"status\":\"ok\",\"sessions\":" ++ toString s.sessions.Count ++
          ",\"max\":" ++ toString s.config.MaxSessions ++ "\x7d" ∧
      hasMember s.handleHealth.body "status" = true ∧
      hasMember s.handleHealth.body "sessions" = true ∧
      hasMember s.handleHealth.body "max" = true ∧
      (∀ cfg : Config, (NewServer cfg).sessions.maxSessions = cfg.MaxSessions ∧
        (NewServer cfg).config = cfg ∧ (NewServer cfg).sessions.Count = 0) := by
  refine ⟨rfl, rfl, ?_, ?_, ?_, fun cfg => ⟨rfl, rfl, rfl⟩⟩
  · simp only [hasMember, Server.handleHealth, decide_eq_true_eq, String.data_append]
    exact ⟨['\x7b'], "\"ok\",\"sessions\":".data ++
      (toString s.sessions.Count).data ++ ",\"max\":".data ++
      (toString s.config.MaxSessions).data ++ "\x7d".data, by simp⟩
  · simp only [hasMember, Server.handleHealth, decide_eq_true_eq, String.data_append]
    exact ⟨"\x7b\"status\":\"ok\",".data, (toString s.sessions.Count).data ++
      ",\"max\":".data ++ (toString s.config.MaxSessions).data ++ "\x7d".data, by simp⟩
  · simp only [hasMember, Server.handleHealth, decide_eq_true_eq, String.data_append]
    exact ⟨"\x7b\"status\":\"ok\",\"sessions\":".data ++ (toString s.sessions.Count).data ++
      ",".data, (toString s.config.MaxSessions).data ++ "\x7d".data, by simp⟩

/-! ### Sessions the registry does not hold -/

theorem Remove_procs (st : State) (id : String) (r : SessionRef) :
    (Remove st id).procs r = st.procs r ∨
      ∃ e, st.sm.sessions.lookup id = some e ∧ e.session = r ∧
        (Remove st id).procs r = (st.procs r).Close := by
  unfold Remove
  cases h : st.sm.sessions.lookup id with
  | none => exact Or.inl rfl
  | some e =>
      by_cases hr : r = e.session
      · subst hr
        exact Or.inr ⟨e, rfl, rfl, Function.update_same _ _ _⟩
      · exact Or.inl (Function.update_noteq hr _ _)

theorem Add_lookup (sm : SessionManager) (id k : String) (s : SessionRef) (now : Time)
    (e : sessionEntry) (h : (sm.Add id s now).2.sessions.lookup k = some e) :
    sm.sessions.lookup k = some e ∨ (k = id ∧ e = { session := s, lastActivity := now }) := by
  unfold SessionManager.Add at h
  split at h
  · exact Or.inl h
  · by_cases hk : k = id
    · subst hk
      rw [AList.lookup_insert] at h
      exact Or.inr ⟨rfl, (Option.some.inj h).symm⟩
    · rw [AList.lookup_insert_ne hk] at h
      exact Or.inl h

theorem Touch_lookup_session (sm : SessionManager) (id k : String) (now : Time)
    (e : sessionEntry) (h : (sm.Touch id now).sessions.lookup k = some e) :
    ∃ e0, sm.sessions.lookup k = some e0 ∧ e0.session = e.session := by
  rw [Touch_lookup] at h
  by_cases hk : k = id
  · subst hk
    rw [if_pos rfl] at h
    cases h0 : sm.sessions.lookup k with
    | none => rw [h0] at h; cases h
    | some e0 =>
        rw [h0] at h
        have := Option.some.inj h
        exact ⟨e0, rfl, by rw [← this]⟩
  · rw [if_neg hk] at h
    exact ⟨e, h, rfl⟩

theorem Remove_lookup_sub (st : State) (id k : String) (e : sessionEntry)
    (h : (Remove st id).sm.sessions.lookup k = some e) : st.sm.sessions.lookup k = some e := by
  by_cases hk : k = id
  · subst hk
    rw [Remove_lookup_self] at h
    cases h
  · rw [Remove_lookup_ne st id k hk] at h
    exact h

/-- Visits of the reaper keep a session that no entry holds out of the registry and do
not touch it. -/
theorem foldl_reaperVisit_unreferenced (now : Time) (r : SessionRef) (ids : List String) :
    ∀ st : State, (∀ k e, st.sm.sessions.lookup k = some e → e.session ≠ r) →
      (∀ k e, (ids.foldl (reaperVisit now) st).sm.sessions.lookup k = some e →
        e.session ≠ r) ∧
      (ids.foldl (reaperVisit now) st).procs r = st.procs r := by
  induction ids with
  | nil => intro st h; exact ⟨h, rfl⟩
  | cons id rest ih =>
      intro st h
      have h1 : ∀ k e, (reaperVisit now st id).sm.sessions.lookup k = some e →
          e.session ≠ r := fun k e hk => h k e (reaperVisit_lookup_sub now st id k e hk)
      have h2 : (reaperVisit now st id).procs r = st.procs r := by
        rcases reaperVisit_procs now st id r with hp | ⟨e0, h0, hs, _, _, _⟩
        · exact hp
        · exact absurd hs (h id e0 h0)
      obtain ⟨i1, i2⟩ := ih (reaperVisit now st id) h1
      rw [List.foldl_cons]
      exact ⟨i1, i2.trans h2⟩

/-- An operation that does not register the session `r` keeps it out of a registry that
does not hold it, and does not touch it. -/
theorem step_unreferenced (st : State) (op : Op) (r : SessionRef)
    (hun : ∀ k e, st.sm.sessions.lookup k = some e → e.session ≠ r)
    (hop : ∀ k t, op ≠ Op.add k r t) :
    (∀ k e, (step st op).sm.sessions.lookup k = some e → e.session ≠ r) ∧
      (step st op).procs r = st.procs r := by
  cases op with
  | add id s now =>
      refine ⟨?_, rfl⟩
      intro k e hk
      rcases Add_lookup st.sm id k s now e hk with h | ⟨_, h⟩
      · exact hun k e h
      · rw [h]
        intro hs
        exact hop id now (by rw [← hs])
  | touch id now =>
      refine ⟨?_, rfl⟩
      intro k e hk
      obtain ⟨e0, h0, hs⟩ := Touch_lookup_session st.sm id k now e hk
      rw [← hs]
      exact hun k e0 h0
  | remove id =>
      refine ⟨fun k e hk => hun k e (Remove_lookup_sub st id k e hk), ?_⟩
      rcases Remove_procs st id r with hp | ⟨e0, h0, hs, _⟩
      · exact hp
      · exact absurd hs (hun id e0 h0)
  | get id => exact ⟨hun, rfl⟩
  | canAccept => exact ⟨hun, rfl⟩
  | sweep now order => exact foldl_reaperVisit_unreferenced now r _ st hun

theorem run_unreferenced (r : SessionRef) (ops : List Op) :
    ∀ st : State, (∀ k e, st.sm.sessions.lookup k = some e → e.session ≠ r) →
      (∀ op ∈ ops, ∀ k t, op ≠ Op.add k r t) →
      (∀ k e, (run st ops).sm.sessions.lookup k = some e → e.session ≠ r) ∧
      (run st ops).procs r = st.procs r := by
  induction ops with
  | nil => intro st h _; exact ⟨h, rfl⟩
  | cons op rest ih =>
      intro st h hops
      obtain ⟨h1, h2⟩ := step_unreferenced st op r h (hops op (List.mem_cons_self _ _))
      obtain ⟨i1, i2⟩ := ih (step st op) h1 (fun o ho => hops o (List.mem_cons_of_mem _ ho))
      unfold run at i1 i2 ⊢
      rw [List.foldl_cons]
      exact ⟨i1, i2.trans h2⟩

/-- C28: for every state whose registry is not full and holds an entry `e` under `id`:
`Add id s2` returns true, leaves the count as it is, and makes `GetSession id` yield
`s2`; it calls `Close` on no session, so the session `e.session` stored before is as it
was; and when no other id holds that session and `s2` is another session, no entry of the
registry holds it afterwards, and no later sequence of registry operations (removals and
reaper sweeps included) that does not register it again ever changes it: the registry
never closes it. -/
theorem C28_add_under_held_id_replaces_without_close (st : State) (id : String)
    (e : sessionEntry) (s2 : SessionRef) (now : Time)
    (hroom : (st.sm.Count : Int) < st.sm.maxSessions)
    (hheld : st.sm.sessions.lookup id = some e) :
    (st.sm.Add id s2 now).1 = true ∧
      (st.sm.Add id s2 now).2.Count = st.sm.Count ∧
      (st.sm.Add id s2 now).2.GetSession id = some s2 ∧
      (step st (Op.add id s2 now)).procs = st.procs ∧
      (distinctSessions st → s2 ≠ e.session →
        (∀ k e2, (step st (Op.add id s2 now)).sm.sessions.lookup k = some e2 →
          e2.session ≠ e.session) ∧
        (∀ ops : List Op, (∀ op ∈ ops, ∀ k t, op ≠ Op.add k e.session t) →
          (run (step st (Op.add id s2 now)) ops).procs e.session = st.procs e.session ∧
          ((run (step st (Op.add id s2 now)) ops).procs e.session).done =
            (st.procs e.session).done)) := by
  have hadd := Add_of_not_full st.sm id s2 now hroom
  have hmem : id ∈ st.sm.sessions := AList.lookup_isSome.mp (by rw [hheld]; rfl)
  refine ⟨by rw [hadd], ?_, ?_, rfl, ?_⟩
  · rw [hadd]
    exact length_insert_of_mem _ _ _ hmem
  · rw [hadd]
    exact GetSession_insert st.sm id { session := s2, lastActivity := now }
  · intro hdist hne
    have hun : ∀ k e2, (step st (Op.add id s2 now)).sm.sessions.lookup k = some e2 →
        e2.session ≠ e.session := by
      intro k e2 hk
      rcases Add_lookup st.sm id k s2 now e2 hk with h | ⟨_, h⟩
      · intro hs
        have hkid := distinctSessions_inj st hdist k id e2 e h hheld hs
        subst hkid
        have hk2 : (st.sm.Add k s2 now).2.sessions.lookup k = some e2 := hk
        rw [hadd] at hk2
        rw [AList.lookup_insert] at hk2
        have := Option.some.inj hk2
        rw [← this] at hs
        exact hne hs
      · rw [h]
        exact hne
    refine ⟨hun, ?_⟩
    intro ops hops
    have h := (run_unreferenced e.session ops (step st (Op.add id s2 now)) hun hops).2
    have h2 : (step st (Op.add id s2 now)).procs e.session = st.procs e.session := rfl
    rw [h, h2]
    exact ⟨rfl, rfl⟩

/-- C28 at a registry of capacity two holding `a` with session 1: `Add a` with session 2
replaces the entry; a later `Remove a` and a sweep leave session 1 open. -/
theorem C28_add_under_held_id_replaces_without_close_witness :
    ((((NewSessionManager 2 0).Add "a" 1 10).2.Count : Int) <
        ((NewSessionManager 2 0).Add "a" 1 10).2.maxSessions) ∧
      ((NewSessionManager 2 0).Add "a" 1 10).2.sessions.lookup "a" =
        some { session := 1, lastActivity := 10 } ∧
      ((run (step { sm := ((NewSessionManager 2 0).Add "a" 1 10).2, procs := fun _ => pty.Spawn }
          (Op.add "a" 2 20)) [Op.remove "a", Op.sweep 30 []]).procs 1).done = false :=
  ⟨by decide, by decide,
    ((((C28_add_under_held_id_replaces_without_close
      { sm := ((NewSessionManager 2 0).Add "a" 1 10).2, procs := fun _ => pty.Spawn } "a"
      { session := 1, lastActivity := 10 } 2 20 (by decide) (by decide)).2.2.2.2
      (by unfold distinctSessions; decide) (by decide)).2
      [Op.remove "a", Op.sweep 30 []]
      (by intro op hop k t h; subst h; simp at hop)).2).trans rfl⟩

/-! ### The end of the handler -/

theorem reaperVisit_done_mono (now : Time) (st : State) (id : String) (r : SessionRef)
    (h : (st.procs r).done = true) : ((reaperVisit now st id).procs r).done = true := by
  rcases reaperVisit_procs now st id r with hp | ⟨_, _, _, _, _, hp⟩
  · rw [hp]; exact h
  · rw [hp]; exact Close_done _

theorem Remove_done_mono (st : State) (id : String) (r : SessionRef)
    (h : (st.procs r).done = true) : ((Remove st id).procs r).done = true := by
  rcases Remove_procs st id r with hp | ⟨_, _, _, hp⟩
  · rw [hp]; exact h
  · rw [hp]; exact Close_done _

theorem Add_lookup_ne (sm : SessionManager) (id k : String) (s : SessionRef) (now : Time)
    (h : id ≠ k) : (sm.Add k s now).2.sessions.lookup id = sm.sessions.lookup id := by
  unfold SessionManager.Add
  split
  · rfl
  · exact AList.lookup_insert_ne h

theorem reaperVisit_held (now : Time) (st : State) (k id : String) (sess : SessionRef)
    (h : heldOrClosed st id sess) : heldOrClosed (reaperVisit now st k) id sess := by
  by_cases hk : id = k
  · subst hk
    rcases h with ⟨e, he, hs⟩ | ⟨hn, hd⟩
    · cases hd : (st.procs e.session).Done with
      | true =>
          rw [reaperVisit_done now st id e he hd]
          refine Or.inr ⟨AList.lookup_erase _ _, ?_⟩
          rw [← hs]
          exact hd
      | false =>
          cases hi : idleExpired st.sm.idleTimeout now e with
          | true =>
              rw [reaperVisit_idle now st id e he hd hi]
              refine Or.inr ⟨AList.lookup_erase _ _, ?_⟩
              rw [← hs]
              show (Function.update st.procs e.session (st.procs e.session).Close
                e.session).done = true
              rw [Function.update_same]
              exact Close_done _
          | false =>
              rw [reaperVisit_live now st id e he hd hi]
              exact Or.inl ⟨e, he, hs⟩
    · rw [reaperVisit_none now st id hn]
      exact Or.inr ⟨hn, hd⟩
  · have hl := reaperVisit_lookup_ne now st k id hk
    rcases h with ⟨e, he, hs⟩ | ⟨hn, hd⟩
    · exact Or.inl ⟨e, by rw [hl]; exact he, hs⟩
    · exact Or.inr ⟨by rw [hl]; exact hn, reaperVisit_done_mono now st k sess hd⟩

theorem foldl_reaperVisit_held (now : Time) (id : String) (sess : SessionRef)
    (ids : List String) :
    ∀ st : State, heldOrClosed st id sess →
      heldOrClosed (ids.foldl (reaperVisit now) st) id sess := by
  induction ids with
  | nil => intro st h; exact h
  | cons k rest ih =>
      intro st h
      rw [List.foldl_cons]
      exact ih _ (reaperVisit_held now st k id sess h)

/-- No operation of another goroutine that does not register `id` again breaks
`heldOrClosed`. -/
theorem step_held (st : State) (op : Op) (id : String) (sess : SessionRef)
    (hop : ∀ s t, op ≠ Op.add id s t) (h : heldOrClosed st id sess) :
    heldOrClosed (step st op) id sess := by
  cases op with
  | add k s now =>
      have hk : id ≠ k := fun hk => hop s now (by rw [hk])
      have hl : (step st (Op.add k s now)).sm.sessions.lookup id = st.sm.sessions.lookup id :=
        Add_lookup_ne st.sm id k s now hk
      rcases h with ⟨e, he, hs⟩ | ⟨hn, hd⟩
      · exact Or.inl ⟨e, by rw [hl]; exact he, hs⟩
      · exact Or.inr ⟨by rw [hl]; exact hn, hd⟩
  | touch k now =>
      have hl : (step st (Op.touch k now)).sm.sessions.lookup id =
          if id = k then (st.sm.sessions.lookup k).map (fun e => { e with lastActivity := now })
          else st.sm.sessions.lookup id := Touch_lookup st.sm k id now
      by_cases hk : id = k
      · subst hk
        rw [if_pos rfl] at hl
        rcases h with ⟨e, he, hs⟩ | ⟨hn, hd⟩
        · exact Or.inl ⟨{ e with lastActivity := now }, by rw [hl, he]; rfl, hs⟩
        · exact Or.inr ⟨by rw [hl, hn]; rfl, hd⟩
      · rw [if_neg hk] at hl
        rcases h with ⟨e, he, hs⟩ | ⟨hn, hd⟩
        · exact Or.inl ⟨e, by rw [hl]; exact he, hs⟩
        · exact Or.inr ⟨by rw [hl]; exact hn, hd⟩
  | remove k =>
      by_cases hk : id = k
      · subst hk
        rcases h with ⟨e, he, hs⟩ | ⟨hn, hd⟩
        · refine Or.inr ⟨Remove_lookup_self st id, ?_⟩
          show ((Remove st id).procs sess).done = true
          unfold Remove
          rw [he, ← hs]
          show (Function.update st.procs e.session (st.procs e.session).Close
            e.session).done = true
          rw [Function.update_same]
          exact Close_done _
        · show heldOrClosed (Remove st id) id sess
          rw [Remove_of_lookup_none st id hn]
          exact Or.inr ⟨hn, hd⟩
      · have hl : (step st (Op.remove k)).sm.sessions.lookup id = st.sm.sessions.lookup id :=
          Remove_lookup_ne st k id hk
        rcases h with ⟨e, he, hs⟩ | ⟨hn, hd⟩
        · exact Or.inl ⟨e, by rw [hl]; exact he, hs⟩
        · exact Or.inr ⟨by rw [hl]; exact hn, Remove_done_mono st k sess hd⟩
  | get k => exact h
  | canAccept => exact h
  | sweep now order => exact foldl_reaperVisit_held now id sess _ st h

theorem run_held (id : String) (sess : SessionRef) (ops : List Op) :
    ∀ st : State, (∀ op ∈ ops, ∀ s t, op ≠ Op.add id s t) → heldOrClosed st id sess →
      heldOrClosed (run st ops) id sess := by
  induction ops with
  | nil => intro st _ h; exact h
  | cons op rest ih =>
      intro st hops h
      unfold run at ih ⊢
      rw [List.foldl_cons]
      exact ih _ (fun o ho => hops o (List.mem_cons_of_mem _ ho))
        (step_held st op id sess (hops op (List.mem_cons_self _ _)) h)

theorem serveLoop_held (unmarshal : List UInt8 → Except String pty.ResizeMsg) (id : String)
    (sess : SessionRef) (rounds : List (List Op × Option (List UInt8) × Time)) :
    ∀ acc : InputState, (∀ x ∈ rounds, ∀ op ∈ x.1, ∀ s t, op ≠ Op.add id s t) →
      heldOrClosed acc.st id sess →
      heldOrClosed (serveLoop unmarshal id sess rounds acc).st id sess := by
  induction rounds with
  | nil => intro acc _ h; exact h
  | cons x rest ih =>
      intro acc hops h
      obtain ⟨others, res, now⟩ := x
      have h1 : heldOrClosed (run acc.st others) id sess :=
        run_held id sess others acc.st (hops (others, res, now) (List.mem_cons_self _ _)) h
      cases res with
      | none => exact h1
      | some msg =>
          show heldOrClosed (serveLoop unmarshal id sess rest _).st id sess
          refine ih _ (fun y hy => hops y (List.mem_cons_of_mem _ hy)) ?_
          have hl : ((run acc.st others).sm.Touch id now).sessions.lookup id =
              ((run acc.st others).sm.sessions.lookup id).map
                (fun e => { e with lastActivity := now }) := by
            rw [Touch_lookup, if_pos rfl]
          rcases h1 with ⟨e, he, hs⟩ | ⟨hn, hd⟩
          · refine Or.inl ⟨{ e with lastActivity := now }, ?_, hs⟩
            show ((run acc.st others).sm.Touch id now).sessions.lookup id = _
            rw [hl, he]
            rfl
          · refine Or.inr ⟨?_, ?_⟩
            · show ((run acc.st others).sm.Touch id now).sessions.lookup id = none
              rw [hl, hn]
              rfl
            · show (Function.update (run acc.st others).procs sess
                (((run acc.st others).procs sess).HandleInput unmarshal msg) sess).done = true
              rw [Function.update_same,
                (pty.HandleInput_lifecycle unmarshal ((run acc.st others).procs sess) msg).1]
              exact hd

theorem serveLoop_broke (unmarshal : List UInt8 → Except String pty.ResizeMsg) (id : String)
    (sess : SessionRef) (rounds : List (List Op × Option (List UInt8) × Time)) :
    ∀ acc : InputState, (∃ x ∈ rounds, x.2.1 = none) →
      (serveLoop unmarshal id sess rounds acc).broke = true := by
  induction rounds with
  | nil => intro acc h; obtain ⟨x, hx, _⟩ := h; cases hx
  | cons x rest ih =>
      intro acc h
      obtain ⟨others, res, now⟩ := x
      cases res with
      | none => rfl
      | some msg =>
          show (serveLoop unmarshal id sess rest _).broke = true
          refine ih _ ?_
          obtain ⟨y, hy, hnone⟩ := h
          rcases List.mem_cons.mp hy with hy1 | hy2
          · rw [hy1] at hnone
            cases hnone
          · exact ⟨y, hy2, hnone⟩

/-- What the connecting phase has done when it ends in a registration. -/
theorem Connect_accepted (cfg : Config) (st : State) (r : Request) (env : Answers)
    (id : String) (sess : SessionRef)
    (h : (HandleWebSocketConnect cfg st r env).outcome = Outcome.accepted id sess) :
    id = r.RemoteAddr ++ "-" ++ toString env.now ∧ env.spawned = some sess ∧
      (HandleWebSocketConnect cfg st r env).st.sm =
        { (run st env.others).sm with
          sessions := (run st env.others).sm.sessions.insert id
            { session := sess, lastActivity := env.addNow } } ∧
      (HandleWebSocketConnect cfg st r env).st.procs =
        Function.update (run st env.others).procs sess pty.Spawn ∧
      (HandleWebSocketConnect cfg st r env).actions =
        [Action.upgrade true,
          Action.spawn (spawnCommand cfg env.executable r.mode).1
            (spawnCommand cfg env.executable r.mode).2] := by
  unfold HandleWebSocketConnect at h ⊢
  by_cases hc : st.sm.CanAccept = false
  · rw [if_pos hc] at h
    cases h
  · rw [if_neg hc] at h ⊢
    by_cases hu : env.upgradeOk = false
    · rw [if_pos hu] at h
      cases h
    · rw [if_neg hu] at h ⊢
      cases hsp : env.spawned with
      | none =>
          rw [hsp] at h
          cases h
      | some s0 =>
          rw [hsp] at h
          by_cases ha : ((run st env.others).sm.Add (r.RemoteAddr ++ "-" ++ toString env.now)
              s0 env.addNow).1 = false
          · simp only [if_pos ha] at h
            cases h
          · simp only [if_neg ha] at h ⊢
            have hid : r.RemoteAddr ++ "-" ++ toString env.now = id := by
              injection h
            have hs : s0 = sess := by
              injection h
            subst hid
            subst hs
            refine ⟨rfl, rfl, ?_, rfl, trivial⟩
            unfold SessionManager.Add at ha ⊢
            split
            · rename_i hfull
              rw [if_pos hfull] at ha
              exact absurd rfl ha
            · rfl

theorem HandleWebSocket_of_accepted_broke
    (unmarshal : List UInt8 → Except String pty.ResizeMsg) (cfg : Config) (st : State)
    (r : Request) (env : Answers) (rounds : List (List Op × Option (List UInt8) × Time))
    (id : String) (sess : SessionRef)
    (hacc : (HandleWebSocketConnect cfg st r env).outcome = Outcome.accepted id sess)
    (hb : (serveLoop unmarshal id sess rounds
      { st := (HandleWebSocketConnect cfg st r env).st, touches := [], handled := [],
        broke := false }).broke = true) :
    (HandleWebSocket unmarshal cfg st r env rounds).returned = true ∧
      (HandleWebSocket unmarshal cfg st r env rounds).st =
        Remove (serveLoop unmarshal id sess rounds
          { st := (HandleWebSocketConnect cfg st r env).st, touches := [], handled := [],
            broke := false }).st id ∧
      (HandleWebSocket unmarshal cfg st r env rounds).actions =
        (HandleWebSocketConnect cfg st r env).actions ++ [Action.connClose] := by
  unfold HandleWebSocket
  rw [hacc]
  simp only [hb, if_true]
  exact ⟨trivial, trivial, trivial⟩

/-- C23, counterexample: the handler registers session 1 under `10.0.0.1:4000-7`; while
it waits for a frame, another connection registers session 2 under the same id; then
`ReadMessage` fails and the handler returns.  Its `Remove` has closed session 2; session
1, the one it spawned, has not been closed. -/
theorem C23_counterexample_id_registered_again :
    (HandleWebSocketConnect
        { Port := 8080, MaxSessions := 2, IdleTimeout := 0, TUIBinary := "" }
        { sm := NewSessionManager 2 0, procs := fun _ => pty.Spawn }
        { RemoteAddr := "10.0.0.1:4000", mode := "" }
        { others := [], upgradeOk := true, now := 7, executable := "/usr/bin/bark",
          spawned := some 1, addNow := 8 }).outcome = Outcome.accepted "10.0.0.1:4000-7" 1 ∧
      (HandleWebSocket pty.Unmarshal
        { Port := 8080, MaxSessions := 2, IdleTimeout := 0, TUIBinary := "" }
        { sm := NewSessionManager 2 0, procs := fun _ => pty.Spawn }
        { RemoteAddr := "10.0.0.1:4000", mode := "" }
        { others := [], upgradeOk := true, now := 7, executable := "/usr/bin/bark",
          spawned := some 1, addNow := 8 }
        [([Op.add "10.0.0.1:4000-7" 2 9], none, 10)]).returned = true ∧
      (HandleWebSocket pty.Unmarshal
        { Port := 8080, MaxSessions := 2, IdleTimeout := 0, TUIBinary := "" }
        { sm := NewSessionManager 2 0, procs := fun _ => pty.Spawn }
        { RemoteAddr := "10.0.0.1:4000", mode := "" }
        { others := [], upgradeOk := true, now := 7, executable := "/usr/bin/bark",
          spawned := some 1, addNow := 8 }
        [([Op.add "10.0.0.1:4000-7" 2 9], none, 10)]).st.sm.sessions.lookup
          "10.0.0.1:4000-7" = none ∧
      ((HandleWebSocket pty.Unmarshal
        { Port := 8080, MaxSessions := 2, IdleTimeout := 0, TUIBinary := "" }
        { sm := NewSessionManager 2 0, procs := fun _ => pty.Spawn }
        { RemoteAddr := "10.0.0.1:4000", mode := "" }
        { others := [], upgradeOk := true, now := 7, executable := "/usr/bin/bark",
          spawned := some 1, addNow := 8 }
        [([Op.add "10.0.0.1:4000-7" 2 9], none, 10)]).st.procs 1).done = false ∧
      ((HandleWebSocket pty.Unmarshal
        { Port := 8080, MaxSessions := 2, IdleTimeout := 0, TUIBinary := "" }
        { sm := NewSessionManager 2 0, procs := fun _ => pty.Spawn }
        { RemoteAddr := "10.0.0.1:4000", mode := "" }
        { others := [], upgradeOk := true, now := 7, executable := "/usr/bin/bark",
          spawned := some 1, addNow := 8 }
        [([Op.add "10.0.0.1:4000-7" 2 9], none, 10)]).st.procs 2).done = true := by
  decide

/-- C23 (amended): for every call of the handler that registers a session `sess` under
`id`, whose `ReadMessage` at some point returns an error (the peer or the output
direction closed the socket), and during which no other goroutine registers `id` again:
the handler returns; its last acts are `Remove id` and closing the socket; on return the
registry has no entry for `id` and `Close` has been called on `sess`.  The operations of
the other goroutines are arbitrary otherwise, so no reaper sweep is needed. -/
theorem C23_handler_removes_and_closes_its_session
    (unmarshal : List UInt8 → Except String pty.ResizeMsg) (cfg : Config) (st : State)
    (r : Request) (env : Answers) (rounds : List (List Op × Option (List UInt8) × Time))
    (id : String) (sess : SessionRef)
    (hacc : (HandleWebSocketConnect cfg st r env).outcome = Outcome.accepted id sess)
    (hread : ∃ x ∈ rounds, x.2.1 = none)
    (hown : ∀ x ∈ rounds, ∀ op ∈ x.1, ∀ s t, op ≠ Op.add id s t) :
    (HandleWebSocket unmarshal cfg st r env rounds).returned = true ∧
      (HandleWebSocket unmarshal cfg st r env rounds).st =
        Remove (serveLoop unmarshal id sess rounds
          { st := (HandleWebSocketConnect cfg st r env).st, touches := [], handled := [],
            broke := false }).st id ∧
      (HandleWebSocket unmarshal cfg st r env rounds).actions =
        (HandleWebSocketConnect cfg st r env).actions ++ [Action.connClose] ∧
      (HandleWebSocket unmarshal cfg st r env rounds).st.sm.sessions.lookup id = none ∧
      ((HandleWebSocket unmarshal cfg st r env rounds).st.procs sess).done = true := by
  obtain ⟨_, _, hsm, _, _⟩ := Connect_accepted cfg st r env id sess hacc
  have h0 : heldOrClosed (HandleWebSocketConnect cfg st r env).st id sess := by
    refine Or.inl ⟨{ session := sess, lastActivity := env.addNow }, ?_, rfl⟩
    rw [hsm]
    exact AList.lookup_insert _
  have h1 := serveLoop_held unmarshal id sess rounds
    { st := (HandleWebSocketConnect cfg st r env).st, touches := [], handled := [],
      broke := false } hown h0
  have h2 := step_held _ (Op.remove id) id sess (fun s t => Op.noConfusion) h1
  obtain ⟨hret, hst, hact⟩ := HandleWebSocket_of_accepted_broke unmarshal cfg st r env rounds
    id sess hacc (serveLoop_broke unmarshal id sess rounds _ hread)
  refine ⟨hret, hst, hact, ?_, ?_⟩
  · rw [hst]
    exact Remove_lookup_self _ id
  · rw [hst]
    rcases h2 with ⟨e, he, _⟩ | ⟨_, hd⟩
    · have hn := Remove_lookup_self (serveLoop unmarshal id sess rounds
        { st := (HandleWebSocketConnect cfg st r env).st, touches := [], handled := [],
          broke := false }).st id
      have he2 : (Remove (serveLoop unmarshal id sess rounds
        { st := (HandleWebSocketConnect cfg st r env).st, touches := [], handled := [],
          broke := false }).st id).sm.sessions.lookup id = some e := he
      rw [hn] at he2
      cases he2
    · exact hd

/-- C23 (amended) at a handler that receives one data frame while another goroutine
touches an unrelated id, and then meets a read error: session 1 is closed on return. -/
theorem C23_handler_removes_and_closes_its_session_witness :
    (HandleWebSocketConnect
        { Port := 8080, MaxSessions := 2, IdleTimeout := 0, TUIBinary := "" }
        { sm := NewSessionManager 2 0, procs := fun _ => pty.Spawn }
        { RemoteAddr := "10.0.0.1:4000", mode := "" }
        { others := [], upgradeOk := true, now := 7, executable := "/usr/bin/bark",
          spawned := some 1, addNow := 8 }).outcome = Outcome.accepted "10.0.0.1:4000-7" 1 ∧
      ((HandleWebSocket pty.Unmarshal
        { Port := 8080, MaxSessions := 2, IdleTimeout := 0, TUIBinary := "" }
        { sm := NewSessionManager 2 0, procs := fun _ => pty.Spawn }
        { RemoteAddr := "10.0.0.1:4000", mode := "" }
        { others := [], upgradeOk := true, now := 7, executable := "/usr/bin/bark",
          spawned := some 1, addNow := 8 }
        [([Op.touch "zz" 9], some [0x61], 10), ([], none, 11)]).st.procs 1).done = true :=
  ⟨by decide,
    (C23_handler_removes_and_closes_its_session pty.Unmarshal
      { Port := 8080, MaxSessions := 2, IdleTimeout := 0, TUIBinary := "" }
      { sm := NewSessionManager 2 0, procs := fun _ => pty.Spawn }
      { RemoteAddr := "10.0.0.1:4000", mode := "" }
      { others := [], upgradeOk := true, now := 7, executable := "/usr/bin/bark",
        spawned := some 1, addNow := 8 }
      [([Op.touch "zz" 9], some [0x61], 10), ([], none, 11)] "10.0.0.1:4000-7" 1
      (by decide) ⟨([], none, 11), by simp, rfl⟩
      (by
        intro x hx op hop s t h
        subst h
        simp only [List.mem_cons, List.mem_singleton, List.not_mem_nil, or_false] at hx
        rcases hx with rfl | rfl
        · simp at hop
        · simp at hop)).2.2.2.2⟩

/-! ### Session ids -/

theorem digitChar_spec (k : Nat) (h : k < 10) :
    (Nat.digitChar k).toNat - 48 = k ∧ Nat.digitChar k ≠ '-' := by
  interval_cases k <;> exact ⟨rfl, by decide⟩

theorem decimalValue_append_singleton (l : List Char) (c : Char) :
    decimalValue (l ++ [c]) = 10 * decimalValue l + (c.toNat - 48) := by
  unfold decimalValue
  rw [List.foldl_append]
  rfl

theorem toDigitsCore_spec (fuel : Nat) :
    ∀ (n : Nat) (ds : List Char), n < fuel →
      ∃ l, Nat.toDigitsCore 10 fuel n ds = l ++ ds ∧ decimalValue l = n ∧ '-' ∉ l := by
  induction fuel with
  | zero => intro n ds h; exact absurd h (Nat.not_lt_zero n)
  | succ fuel ih =>
      intro n ds h
      obtain ⟨hv, hc⟩ := digitChar_spec (n % 10) (Nat.mod_lt n (by decide))
      by_cases hz : n / 10 = 0
      · refine ⟨[Nat.digitChar (n % 10)], ?_, ?_, ?_⟩
        · rw [Nat.toDigitsCore]
          simp only [hz, if_true]
          rfl
        · show 10 * 0 + ((Nat.digitChar (n % 10)).toNat - 48) = n
          rw [hv]
          omega
        · intro hm
          rw [List.mem_singleton] at hm
          exact hc hm.symm
      · obtain ⟨l, hl, hval, hno⟩ := ih (n / 10) (Nat.digitChar (n % 10) :: ds) (by omega)
        refine ⟨l ++ [Nat.digitChar (n % 10)], ?_, ?_, ?_⟩
        · rw [Nat.toDigitsCore]
          simp only [hz, if_false]
          rw [hl, List.append_assoc]
          rfl
        · rw [decimalValue_append_singleton, hval, hv]
          omega
        · intro hm
          rcases List.mem_append.mp hm with h1 | h1
          · exact hno h1
          · rw [List.mem_singleton] at h1
            exact hc h1.symm

theorem toString_nonneg_data (n : Int) (h : 0 ≤ n) :
    ∃ l, (toString n).data = l ∧ (decimalValue l : Int) = n ∧ '-' ∉ l := by
  obtain ⟨m, rfl⟩ := Int.eq_ofNat_of_zero_le h
  obtain ⟨l, hl, hval, hno⟩ := toDigitsCore_spec (m + 1) m [] (Nat.lt_succ_self m)
  refine ⟨l, ?_, by rw [hval], hno⟩
  show (Nat.toDigitsCore 10 (m + 1) m []) = l
  rw [hl, List.append_nil]

theorem append_sep_inj {α : Type} (x : α) :
    ∀ (a1 a2 l1 l2 : List α), x ∉ l1 → x ∉ l2 → a1 ++ x :: l1 = a2 ++ x :: l2 →
      a1 = a2 ∧ l1 = l2 := by
  intro a1
  induction a1 with
  | nil =>
      intro a2 l1 l2 h1 h2 h
      cases a2 with
      | nil => exact ⟨rfl, (List.cons.inj h).2⟩
      | cons y a2 =>
          have ht := (List.cons.inj h).2
          exact absurd (by rw [ht]; simp) h1
  | cons y a1 ih =>
      intro a2 l1 l2 h1 h2 h
      cases a2 with
      | nil =>
          have ht := (List.cons.inj h).2
          exact absurd (by rw [← ht]; simp) h2
      | cons z a2 =>
          obtain ⟨hh, ht⟩ := List.cons.inj h
          obtain ⟨i1, i2⟩ := ih a2 l1 l2 h1 h2 ht
          exact ⟨by rw [hh, i1], i2⟩

/-- The id `addr-now` determines the address and, for an instant that is not negative,
the instant. -/
theorem sessionID_inj (a1 a2 : String) (n1 n2 : Int) (h1 : 0 ≤ n1) (h2 : 0 ≤ n2)
    (h : a1 ++ "-" ++ toString n1 = a2 ++ "-" ++ toString n2) : a1 = a2 ∧ n1 = n2 := by
  obtain ⟨l1, hl1, hv1, hno1⟩ := toString_nonneg_data n1 h1
  obtain ⟨l2, hl2, hv2, hno2⟩ := toString_nonneg_data n2 h2
  have hd := congrArg String.data h
  simp only [String.data_append, List.append_assoc, hl1, hl2] at hd
  have hd2 : a1.data ++ '-' :: l1 = a2.data ++ '-' :: l2 := hd
  obtain ⟨ha, hl⟩ := append_sep_inj '-' a1.data a2.data l1 l2 hno1 hno2 hd2
  refine ⟨String.ext ha, ?_⟩
  rw [← hv1, ← hv2, hl]

/-- C22, counterexample: two requests from the peer address `10.0.0.1:4000`, the second
handled after the first, both reading the clock value 7 (a clock coarser than the time
between them).  Both are registered, under the same id; the second registration replaces
the entry of the first: the registry counts one session, the id maps to session 2, and
session 1 is still running. -/
theorem C22_counterexample_same_address_same_instant :
    (HandleWebSocketConnect
        { Port := 8080, MaxSessions := 2, IdleTimeout := 0, TUIBinary := "" }
        { sm := NewSessionManager 2 0, procs := fun _ => pty.Spawn }
        { RemoteAddr := "10.0.0.1:4000", mode := "" }
        { others := [], upgradeOk := true, now := 7, executable := "/usr/bin/bark",
          spawned := some 1, addNow := 8 }).outcome = Outcome.accepted "10.0.0.1:4000-7" 1 ∧
      (HandleWebSocketConnect
        { Port := 8080, MaxSessions := 2, IdleTimeout := 0, TUIBinary := "" }
        (HandleWebSocketConnect
          { Port := 8080, MaxSessions := 2, IdleTimeout := 0, TUIBinary := "" }
          { sm := NewSessionManager 2 0, procs := fun _ => pty.Spawn }
          { RemoteAddr := "10.0.0.1:4000", mode := "" }
          { others := [], upgradeOk := true, now := 7, executable := "/usr/bin/bark",
            spawned := some 1, addNow := 8 }).st
        { RemoteAddr := "10.0.0.1:4000", mode := "" }
        { others := [], upgradeOk := true, now := 7, executable := "/usr/bin/bark",
          spawned := some 2, addNow := 9 }).outcome = Outcome.accepted "10.0.0.1:4000-7" 2 ∧
      (HandleWebSocketConnect
        { Port := 8080, MaxSessions := 2, IdleTimeout := 0, TUIBinary := "" }
        (HandleWebSocketConnect
          { Port := 8080, MaxSessions := 2, IdleTimeout := 0, TUIBinary := "" }
          { sm := NewSessionManager 2 0, procs := fun _ => pty.Spawn }
          { RemoteAddr := "10.0.0.1:4000", mode := "" }
          { others := [], upgradeOk := true, now := 7, executable := "/usr/bin/bark",
            spawned := some 1, addNow := 8 }).st
        { RemoteAddr := "10.0.0.1:4000", mode := "" }
        { others := [], upgradeOk := true, now := 7, executable := "/usr/bin/bark",
          spawned := some 2, addNow := 9 }).st.sm.sessions.lookup "10.0.0.1:4000-7" =
        some { session := 2, lastActivity := 9 } ∧
      (HandleWebSocketConnect
        { Port := 8080, MaxSessions := 2, IdleTimeout := 0, TUIBinary := "" }
        (HandleWebSocketConnect
          { Port := 8080, MaxSessions := 2, IdleTimeout := 0, TUIBinary := "" }
          { sm := NewSessionManager 2 0, procs := fun _ => pty.Spawn }
          { RemoteAddr := "10.0.0.1:4000", mode := "" }
          { others := [], upgradeOk := true, now := 7, executable := "/usr/bin/bark",
            spawned := some 1, addNow := 8 }).st
        { RemoteAddr := "10.0.0.1:4000", mode := "" }
        { others := [], upgradeOk := true, now := 7, executable := "/usr/bin/bark",
          spawned := some 2, addNow := 9 }).st.sm.Count = 1 ∧
      ((HandleWebSocketConnect
        { Port := 8080, MaxSessions := 2, IdleTimeout := 0, TUIBinary := "" }
        (HandleWebSocketConnect
          { Port := 8080, MaxSessions := 2, IdleTimeout := 0, TUIBinary := "" }
          { sm := NewSessionManager 2 0, procs := fun _ => pty.Spawn }
          { RemoteAddr := "10.0.0.1:4000", mode := "" }
          { others := [], upgradeOk := true, now := 7, executable := "/usr/bin/bark",
            spawned := some 1, addNow := 8 }).st
        { RemoteAddr := "10.0.0.1:4000", mode := "" }
        { others := [], upgradeOk := true, now := 7, executable := "/usr/bin/bark",
          spawned := some 2, addNow := 9 }).st.procs 1).done = false := by
  decide

/-- C22 (amended): for any two connection attempts that both register a session and read
clock values that are not negative: each id is the peer address, a dash and the clock
value in decimal; the two ids are equal exactly when the two attempts have the same peer
address and read the same clock value; when the ids differ, the second registration
leaves the entry of the first id as it found it; when they are equal, the entry of that
id afterwards holds the session of the second attempt. -/
theorem C22_ids_differ_unless_same_address_and_instant (cfg : Config) (st1 st2 : State)
    (r1 r2 : Request) (env1 env2 : Answers) (id1 id2 : String) (s1 s2 : SessionRef)
    (h1 : (HandleWebSocketConnect cfg st1 r1 env1).outcome = Outcome.accepted id1 s1)
    (h2 : (HandleWebSocketConnect cfg st2 r2 env2).outcome = Outcome.accepted id2 s2)
    (hn1 : 0 ≤ env1.now) (hn2 : 0 ≤ env2.now) :
    id1 = r1.RemoteAddr ++ "-" ++ toString env1.now ∧
      id2 = r2.RemoteAddr ++ "-" ++ toString env2.now ∧
      (id1 = id2 ↔ r1.RemoteAddr = r2.RemoteAddr ∧ env1.now = env2.now) ∧
      (id1 ≠ id2 →
        (HandleWebSocketConnect cfg st2 r2 env2).st.sm.sessions.lookup id1 =
          (run st2 env2.others).sm.sessions.lookup id1) ∧
      (id1 = id2 →
        (HandleWebSocketConnect cfg st2 r2 env2).st.sm.sessions.lookup id1 =
          some { session := s2, lastActivity := env2.addNow }) := by
  obtain ⟨e1, _, _, _, _⟩ := Connect_accepted cfg st1 r1 env1 id1 s1 h1
  obtain ⟨e2, _, hsm, _, _⟩ := Connect_accepted cfg st2 r2 env2 id2 s2 h2
  refine ⟨e1, e2, ?_, ?_, ?_⟩
  · constructor
    · intro h
      rw [e1, e2] at h
      exact sessionID_inj _ _ _ _ hn1 hn2 h
    · intro h
      rw [e1, e2, h.1, h.2]
  · intro hne
    rw [hsm]
    exact AList.lookup_insert_ne hne
  · intro heq
    rw [hsm, heq]
    exact AList.lookup_insert _

/-- C22 (amended) at two requests from one peer address that read the clock values 7 and
8: the ids differ. -/
theorem C22_ids_differ_unless_same_address_and_instant_witness :
    (HandleWebSocketConnect
        { Port := 8080, MaxSessions := 2, IdleTimeout := 0, TUIBinary := "" }
        { sm := NewSessionManager 2 0, procs := fun _ => pty.Spawn }
        { RemoteAddr := "10.0.0.1:4000", mode := "" }
        { others := [], upgradeOk := true, now := 7, executable := "/usr/bin/bark",
          spawned := some 1, addNow := 8 }).outcome = Outcome.accepted "10.0.0.1:4000-7" 1 ∧
      (HandleWebSocketConnect
        { Port := 8080, MaxSessions := 2, IdleTimeout := 0, TUIBinary := "" }
        { sm := ((NewSessionManager 2 0).Add "10.0.0.1:4000-7" 1 8).2,
          procs := fun _ => pty.Spawn }
        { RemoteAddr := "10.0.0.1:4000", mode := "" }
        { others := [], upgradeOk := true, now := 8, executable := "/usr/bin/bark",
          spawned := some 2, addNow := 9 }).outcome = Outcome.accepted "10.0.0.1:4000-8" 2 ∧
      ("10.0.0.1:4000-7" = "10.0.0.1:4000-8" ↔
        "10.0.0.1:4000" = "10.0.0.1:4000" ∧ (7 : Int) = 8) :=
  ⟨by decide, by decide,
    (C22_ids_differ_unless_same_address_and_instant
      { Port := 8080, MaxSessions := 2, IdleTimeout := 0, TUIBinary := "" }
      { sm := NewSessionManager 2 0, procs := fun _ => pty.Spawn }
      { sm := ((NewSessionManager 2 0).Add "10.0.0.1:4000-7" 1 8).2,
        procs := fun _ => pty.Spawn }
      { RemoteAddr := "10.0.0.1:4000", mode := "" }
      { RemoteAddr := "10.0.0.1:4000", mode := "" }
      { others := [], upgradeOk := true, now := 7, executable := "/usr/bin/bark",
        spawned := some 1, addNow := 8 }
      { others := [], upgradeOk := true, now := 8, executable := "/usr/bin/bark",
        spawned := some 2, addNow := 9 }
      "10.0.0.1:4000-7" "10.0.0.1:4000-8" 1 2 (by decide) (by decide) (by decide)
      (by decide)).2.2.1⟩

end web

/-! ## Masking of keys -/

namespace core

theorem MaskKey_long (key : List UInt8) (h : 8 < key.length) :
    MaskKey key = key.take 3 ++ utf8 "•••" ++ key.drop (key.length - 4) := by
  unfold MaskKey
  have hne : key ≠ [] := by
    intro h0
    rw [h0] at h
    exact absurd h (by decide)
  rw [if_neg hne, if_neg (by omega)]

theorem MaskKey_short (key : List UInt8) (hne : key ≠ []) (h : key.length ≤ 8) :
    MaskKey key = utf8 "••••••••" := by
  unfold MaskKey
  rw [if_neg hne, if_pos h]

theorem MaskKey_parts (p m q : List UInt8) (hp : p.length = 3) (hq : q.length = 4)
    (hm : 2 ≤ m.length) : MaskKey (p ++ m ++ q) = p ++ utf8 "•••" ++ q := by
  rw [MaskKey_long (p ++ m ++ q) (by simp only [List.length_append]; omega)]
  have h1 : (p ++ m ++ q).take 3 = p := by
    rw [List.append_assoc]
    exact List.take_left' hp
  have h2 : (p ++ m ++ q).drop ((p ++ m ++ q).length - 4) = q := by
    refine List.drop_left' ?_
    simp only [List.length_append]
    omega
  rw [h1, h2]

/-- C27: `MaskKey` of the empty key is empty.  A non-empty key of at most 8 bytes maps to
one and the same mask of eight bullets, whatever the key is; no byte of that mask is below
0x80, so it contains no byte of a key made of ASCII characters.  A key of more than 8
bytes maps to its first 3 bytes, the separator of three bullets, and its last 4 bytes;
every such key is `p ++ m ++ q` with `p` of 3 bytes, `q` of 4 bytes and `m` of at least 2,
and the result does not depend on `m`: the bytes between the revealed prefix and suffix
do not reach the output. -/
theorem C27_mask_reveals_only_prefix_and_suffix :
    MaskKey [] = [] ∧
      (∀ key : List UInt8, key ≠ [] → key.length ≤ 8 → MaskKey key = utf8 "••••••••") ∧
      (∀ key : List UInt8, key ≠ [] → key.length ≤ 8 → (∀ b ∈ key, b < 0x80) →
        ∀ b ∈ key, b ∉ MaskKey key) ∧
      (∀ key : List UInt8, 8 < key.length →
        MaskKey key = key.take 3 ++ utf8 "•••" ++ key.drop (key.length - 4) ∧
        (MaskKey key).length = 16 ∧
        ∃ m, 2 ≤ m.length ∧ key = key.take 3 ++ m ++ key.drop (key.length - 4)) ∧
      (∀ p m m2 q : List UInt8, p.length = 3 → q.length = 4 → 2 ≤ m.length →
        2 ≤ m2.length →
        MaskKey (p ++ m ++ q) = p ++ utf8 "•••" ++ q ∧
        MaskKey (p ++ m ++ q) = MaskKey (p ++ m2 ++ q)) ∧
      MaskKey (utf8 "sk-proj-xyzabc123") = utf8 "sk-•••c123" := by
  refine ⟨rfl, MaskKey_short, ?_, ?_, ?_, by decide⟩
  · intro key hne hlen hascii b hb hmem
    rw [MaskKey_short key hne hlen] at hmem
    have hmask : ∀ c ∈ utf8 "••••••••", ¬ c < 0x80 := by decide
    exact hmask b hmem (hascii b hb)
  · intro key h
    refine ⟨MaskKey_long key h, ?_, ?_⟩
    · rw [MaskKey_long key h]
      simp only [List.length_append, List.length_take, List.length_drop]
      have : (utf8 "•••").length = 9 := by decide
      rw [this]
      omega
    · refine ⟨(key.drop 3).take (key.length - 7), ?_, ?_⟩
      · simp only [List.length_take, List.length_drop]
        omega
      · have h1 : key.drop (key.length - 4) = (key.drop 3).drop (key.length - 7) := by
          rw [List.drop_drop]
          congr 1
          omega
        rw [h1, List.append_assoc, List.take_append_drop, List.take_append_drop]
  · intro p m m2 q hp hq hm hm2
    exact ⟨MaskKey_parts p m q hp hq hm,
      (MaskKey_parts p m q hp hq hm).trans (MaskKey_parts p m2 q hp hq hm2).symm⟩

/-- C27 at the key `sk-proj-xyzabc123`, cut into `sk-`, `proj-xyzab` and `c123`. -/
theorem C27_mask_reveals_only_prefix_and_suffix_witness :
    (utf8 "sk-").length = 3 ∧ (utf8 "c123").length = 4 ∧ 2 ≤ (utf8 "proj-xyzab").length ∧
      MaskKey (utf8 "sk-" ++ utf8 "proj-xyzab" ++ utf8 "c123") =
        utf8 "sk-" ++ utf8 "•••" ++ utf8 "c123" :=
  ⟨by decide, by decide, by decide,
    (C27_mask_reveals_only_prefix_and_suffix.2.2.2.2.1 (utf8 "sk-") (utf8 "proj-xyzab")
      (utf8 "proj-xyzab") (utf8 "c123") (by decide) (by decide) (by decide) (by decide)).1⟩

end core

/-! ## The base path of a site -/

namespace strings

theorem indexAux_spec (substr : List UInt8) :
    ∀ (s : List UInt8) (i : Nat), indexAux substr s = some i → substr <+: s.drop i := by
  intro s
  induction s with
  | nil =>
      intro i h
      unfold indexAux at h
      split at h
      · rename_i h0
        rw [h0]
        exact List.nil_prefix
      · cases h
  | cons b rest ih =>
      intro i h
      unfold indexAux at h
      split at h
      · rename_i hp
        cases h
        exact List.isPrefixOf_iff_prefix.mp hp
      · cases hr : indexAux substr rest with
        | none => rw [hr] at h; cases h
        | some j =>
            rw [hr] at h
            cases h
            exact ih j hr

/-- The first occurrence of `c :: t` in `a ++ (c :: t) ++ rest`, when `c` does not occur
in `a`, is at `a.length`. -/
theorem indexAux_skip (c : UInt8) (t rest : List UInt8) :
    ∀ a : List UInt8, c ∉ a → indexAux (c :: t) (a ++ (c :: t) ++ rest) = some a.length := by
  intro a
  induction a with
  | nil =>
      intro _
      show indexAux (c :: t) (c :: (t ++ rest)) = some 0
      unfold indexAux
      have hp : (c :: t).isPrefixOf (c :: (t ++ rest)) = true :=
        List.isPrefixOf_iff_prefix.mpr (List.prefix_append (c :: t) rest)
      rw [if_pos hp]
  | cons x a ih =>
      intro h
      have hx : c ≠ x := fun hcx => h (by rw [hcx]; exact List.mem_cons_self _ _)
      have ha : c ∉ a := fun hm => h (List.mem_cons_of_mem _ hm)
      show indexAux (c :: t) (x :: (a ++ (c :: t) ++ rest)) = some (a.length + 1)
      unfold indexAux
      rw [if_neg, ih ha]
      · rfl
      · simp [hx]

theorem indexAux_absent (c : UInt8) :
    ∀ s : List UInt8, c ∉ s → indexAux [c] s = none := by
  intro s
  induction s with
  | nil => intro _; rfl
  | cons x s ih =>
      intro h
      have hx : c ≠ x := fun hcx => h (by rw [hcx]; exact List.mem_cons_self _ _)
      have hs : c ∉ s := fun hm => h (List.mem_cons_of_mem _ hm)
      unfold indexAux
      rw [if_neg, ih hs]
      · rfl
      · simp [hx]

theorem Index_found (s substr : List UInt8) (h : Index s substr ≠ -1) :
    substr <+: s.drop (Index s substr).toNat := by
  unfold Index at h ⊢
  cases hi : indexAux substr s with
  | none => rw [hi] at h; exact absurd rfl h
  | some i => exact indexAux_spec substr s i hi

theorem TrimRight_shape (p : List UInt8) (h : p.head? = some 0x2f) :
    TrimRight p [0x2f] = [] ∨
      ((TrimRight p [0x2f]).head? = some 0x2f ∧ (TrimRight p [0x2f]).getLast? ≠ some 0x2f) := by
  by_cases hn : TrimRight p [0x2f] = []
  · exact Or.inl hn
  · refine Or.inr ⟨?_, ?_⟩
    · obtain ⟨t, ht⟩ : TrimRight p [0x2f] <+: p := List.rdropWhile_prefix _ p
      cases hq : TrimRight p [0x2f] with
      | nil => exact absurd hq hn
      | cons x q =>
          rw [hq] at ht
          rw [← ht] at h
          exact h
    · have hl := List.rdropWhile_last_not (fun b => decide (b ∈ [(0x2f : UInt8)])) p hn
      intro hlast
      rw [List.getLast?_eq_getLast _ hn] at hlast
      have := Option.some.inj hlast
      apply hl
      show decide ((TrimRight p [0x2f]).getLast hn ∈ [(0x2f : UInt8)]) = true
      rw [this]
      decide

end strings

namespace core

theorem extractBasePath_eq (siteURL : List UInt8) :
    extractBasePath siteURL =
      if siteURL = [] then []
      else if strings.Index
          (if strings.Index siteURL (utf8 "://") ≠ -1 then
            siteURL.drop (strings.Index siteURL (utf8 "://") + 3).toNat
          else siteURL) (utf8 "/") ≠ -1 then
        strings.TrimRight
          ((if strings.Index siteURL (utf8 "://") ≠ -1 then
            siteURL.drop (strings.Index siteURL (utf8 "://") + 3).toNat
          else siteURL).drop
            (strings.Index
              (if strings.Index siteURL (utf8 "://") ≠ -1 then
                siteURL.drop (strings.Index siteURL (utf8 "://") + 3).toNat
              else siteURL) (utf8 "/")).toNat) (utf8 "/")
      else [] := rfl

theorem extractBasePath_shape (siteURL : List UInt8) :
    extractBasePath siteURL = [] ∨
      ((extractBasePath siteURL).head? = some 0x2f ∧
        (extractBasePath siteURL).getLast? ≠ some 0x2f) := by
  rw [extractBasePath_eq]
  by_cases h0 : siteURL = []
  · rw [if_pos h0]
    exact Or.inl rfl
  · rw [if_neg h0]
    generalize (if strings.Index siteURL (utf8 "://") ≠ -1 then
      siteURL.drop (strings.Index siteURL (utf8 "://") + 3).toNat else siteURL) = u
    by_cases h1 : strings.Index u (utf8 "/") ≠ -1
    · rw [if_pos h1]
      have hp := strings.Index_found u (utf8 "/") h1
      have hhead : (u.drop (strings.Index u (utf8 "/")).toNat).head? = some 0x2f := by
        obtain ⟨t, ht⟩ := hp
        rw [← ht]
        rfl
      exact strings.TrimRight_shape _ hhead
    · rw [if_neg h1]
      exact Or.inl rfl

/-- For a URL made of a scheme without a colon, `://`, a host without a slash, and a path
that is empty or begins with a slash, `extractBasePath` is the path without its trailing
slashes. -/
theorem extractBasePath_url (scheme host path : List UInt8) (hs : 0x3a ∉ scheme)
    (hh : 0x2f ∉ host) (hp : path = [] ∨ path.head? = some 0x2f) :
    extractBasePath (scheme ++ utf8 "://" ++ host ++ path) =
      strings.TrimRight path (utf8 "/") := by
  have hidx : strings.indexAux (utf8 "://") (scheme ++ utf8 "://" ++ host ++ path) =
      some scheme.length := by
    have := strings.indexAux_skip 0x3a [0x2f, 0x2f] (host ++ path) scheme hs
    rw [List.append_assoc (scheme ++ utf8 "://") host path]
    exact this
  have hI : strings.Index (scheme ++ utf8 "://" ++ host ++ path) (utf8 "://") =
      (scheme.length : Int) := by
    unfold strings.Index
    rw [hidx]
  have hne : scheme ++ utf8 "://" ++ host ++ path ≠ [] := by
    intro h
    have := congrArg List.length h
    simp only [List.length_append] at this
    have h3 : (utf8 "://").length = 3 := by decide
    rw [h3] at this
    simp at this
  have hdrop : (scheme ++ utf8 "://" ++ host ++ path).drop (scheme.length + 3) =
      host ++ path := by
    rw [List.append_assoc (scheme ++ utf8 "://") host path]
    refine List.drop_left' ?_
    rw [List.length_append]
    rfl
  rw [extractBasePath_eq, if_neg hne, hI]
  have hc : ((scheme.length : Int) ≠ -1) := by omega
  simp only [if_pos hc]
  have hnat : ((scheme.length : Int) + 3).toNat = scheme.length + 3 := by omega
  rw [hnat, hdrop]
  rcases hp with hp | hp
  · subst hp
    rw [List.append_nil]
    have hab : strings.indexAux (utf8 "/") host = none := strings.indexAux_absent 0x2f host hh
    have hI2 : strings.Index host (utf8 "/") = -1 := by
      unfold strings.Index
      rw [hab]
    rw [if_neg (by rw [hI2]; exact fun h => h rfl)]
    rfl
  · cases path with
    | nil => cases hp
    | cons x p =>
        have hx : x = 0x2f := by
          have := Option.some.inj hp
          exact this
        subst hx
        have hsk : strings.indexAux (utf8 "/") (host ++ 0x2f :: p) = some host.length := by
          have := strings.indexAux_skip 0x2f [] p host hh
          rw [List.append_assoc] at this
          exact this
        have hI2 : strings.Index (host ++ 0x2f :: p) (utf8 "/") = (host.length : Int) := by
          unfold strings.Index
          rw [hsk]
        rw [hI2]
        have hc2 : ((host.length : Int) ≠ -1) := by omega
        rw [if_pos hc2]
        have hn2 : ((host.length : Int)).toNat = host.length := by omega
        rw [hn2, List.drop_left]

/-- C26: `extractBasePath` maps `https://user.github.io/repo` to `/repo`,
`https://example.com` to the empty string and the empty string to the empty string; for
every input the result is empty, or begins with a slash and does not end with a slash;
and for every URL made of a scheme without a colon, `://`, a host without a slash and a
path that is empty or begins with a slash, the result is that path without its trailing
slashes. -/
theorem C26_extractBasePath_returns_the_path :
    extractBasePath (utf8 "https://user.github.io/repo") = utf8 "/repo" ∧
      extractBasePath (utf8 "https://example.com") = utf8 "" ∧
      extractBasePath (utf8 "") = utf8 "" ∧
      (∀ siteURL : List UInt8,
        extractBasePath siteURL = [] ∨
          ((extractBasePath siteURL).head? = (utf8 "/").head? ∧
            (extractBasePath siteURL).getLast? ≠ (utf8 "/").getLast?)) ∧
      (∀ scheme host path : List UInt8, 0x3a ∉ scheme → 0x2f ∉ host →
        (path = [] ∨ path.head? = some 0x2f) →
        extractBasePath (scheme ++ utf8 "://" ++ host ++ path) =
          strings.TrimRight path (utf8 "/")) :=
  ⟨by decide, by decide, by decide, extractBasePath_shape, extractBasePath_url⟩

/-- C26 at `https://user.github.io/repo/`: the result is `/repo`. -/
theorem C26_extractBasePath_returns_the_path_witness :
    (0x3a ∉ utf8 "https") ∧ (0x2f ∉ utf8 "user.github.io") ∧
      (utf8 "/repo/").head? = some 0x2f ∧
      extractBasePath (utf8 "https" ++ utf8 "://" ++ utf8 "user.github.io" ++ utf8 "/repo/") =
        utf8 "/repo" :=
  ⟨by decide, by decide, by decide,
    (C26_extractBasePath_returns_the_path.2.2.2.2 (utf8 "https") (utf8 "user.github.io")
      (utf8 "/repo/") (by decide) (by decide) (Or.inr (by decide))).trans (by decide)⟩

end core

/-! ## The configuration loader -/

namespace core

theorem mem_setCollection (m : List (String × CollectionConfig)) (name : String)
    (coll : CollectionConfig) (p : String × CollectionConfig)
    (h : p ∈ setCollection m name coll) : p ∈ m ∨ p = (name, coll) := by
  unfold setCollection at h
  rcases List.mem_append.mp h with h1 | h1
  · exact Or.inl (List.mem_filter.mp h1).1
  · exact Or.inr (List.mem_singleton.mp h1)

/-- The loop over `collections:` stores validated collections only. -/
theorem parseEach_valid (cs : List (String × List (String × YamlValue))) :
    ∀ cfg cfg2 : OpenDocConfig,
      (∀ p ∈ cfg.Collections, isValidLayout p.2.Layout = true ∧ isValidSort p.2.Sort_ = true) →
      parseEach cs cfg = .ok cfg2 →
      ∀ p ∈ cfg2.Collections, isValidLayout p.2.Layout = true ∧ isValidSort p.2.Sort_ = true := by
  induction cs with
  | nil =>
      intro cfg cfg2 hv h
      have : cfg = cfg2 := Except.ok.inj h
      rw [← this]
      exact hv
  | cons x rest ih =>
      intro cfg cfg2 hv h
      obtain ⟨name, settings⟩ := x
      unfold parseEach at h
      by_cases h1 : (!isValidLayout (collectionOf settings).Layout) = true
      · rw [if_pos h1] at h
        cases h
      · rw [if_neg h1] at h
        by_cases h2 : (!isValidSort (collectionOf settings).Sort_) = true
        · rw [if_pos h2] at h
          cases h
        · rw [if_neg h2] at h
          refine ih _ cfg2 ?_ h
          intro p hp
          rcases mem_setCollection _ _ _ p hp with hm | hm
          · exact hv p hm
          · rw [hm]
            exact ⟨by simpa using h1, by simpa using h2⟩

/-- C25: `LoadConfig` validates the collections declared under `collections:` and does
not validate the collection converted from the legacy `blog:` section.

* For a file with `collections:`, every collection of a returned configuration has a
  valid layout and a valid sort, and `sort: random` there makes `LoadConfig` fail.
* For a file without `collections:` whose `blog:` section has `sort: random`,
  `LoadConfig` succeeds and returns the collection `posts` with the sort `random`, which
  is not one of the valid sorts.
* For a file without `collections:` whose `blog:` section has `layout: masonry`,
  `LoadConfig` succeeds as well (the key is not read). -/
theorem C25_legacy_blog_section_is_not_validated :
    (∀ (unmarshal : List UInt8 → Except String rawConfig) (projectDir : String)
        (data : List UInt8),
        unmarshal data = .ok
          { Site := none, Content := none, Build := none, Collections := none,
            Blog := some [("sort", YamlValue.str "random")], Theme := none, Nav := [] } →
        LoadConfig unmarshal projectDir (some data) = .ok
          { Site := DefaultSite, Content := DefaultContent, Build := DefaultBuild,
            Collections := [("posts", { DefaultCollection with Sort_ := "random" })],
            Theme := DefaultTheme, Nav := [] }) ∧
      isValidSort "random" = false ∧
      (∀ (unmarshal : List UInt8 → Except String rawConfig) (projectDir : String)
        (data : List UInt8),
        unmarshal data = .ok
          { Site := none, Content := none, Build := none, Collections := none,
            Blog := some [("layout", YamlValue.str "masonry")], Theme := none, Nav := [] } →
        LoadConfig unmarshal projectDir (some data) = .ok
          { Site := DefaultSite, Content := DefaultContent, Build := DefaultBuild,
            Collections := [("posts", DefaultCollection)],
            Theme := DefaultTheme, Nav := [] }) ∧
      isValidLayout "masonry" = false ∧
      (∀ (unmarshal : List UInt8 → Except String rawConfig) (projectDir : String)
        (data : List UInt8),
        unmarshal data = .ok
          { Site := none, Content := none, Build := none,
            Collections := some [("posts", [("sort", YamlValue.str "random")])],
            Blog := none, Theme := none, Nav := [] } →
        LoadConfig unmarshal projectDir (some data) = .error
          "invalid sort 'random' for collection 'posts'. Must be one of: newest_first, oldest_first, alphabetical") ∧
      (∀ (unmarshal : List UInt8 → Except String rawConfig) (projectDir : String)
        (data : List UInt8) (raw : rawConfig)
        (cs : List (String × List (String × YamlValue))) (cfg : OpenDocConfig),
        unmarshal data = .ok raw → raw.Collections = some cs →
        LoadConfig unmarshal projectDir (some data) = .ok cfg →
        ∀ p ∈ cfg.Collections,
          isValidLayout p.2.Layout = true ∧ isValidSort p.2.Sort_ = true) := by
  refine ⟨?_, by decide, ?_, by decide, ?_, ?_⟩
  · intro unmarshal projectDir data h
    unfold LoadConfig
    simp only [h]
    rfl
  · intro unmarshal projectDir data h
    unfold LoadConfig
    simp only [h]
    rfl
  · intro unmarshal projectDir data h
    unfold LoadConfig
    simp only [h]
    rfl
  · intro unmarshal projectDir data raw cs cfg h hcs hok
    unfold LoadConfig at hok
    simp only [h] at hok
    unfold parseCollections at hok
    simp only [hcs] at hok
    exact parseEach_valid cs _ cfg (fun p hp => absurd hp (List.not_mem_nil p)) hok

/-- C25 at a decoder that yields the legacy section `blog: {sort: random}`. -/
theorem C25_legacy_blog_section_is_not_validated_witness :
    LoadConfig
        (fun _ => .ok
          { Site := none, Content := none, Build := none, Collections := none,
            Blog := some [("sort", YamlValue.str "random")], Theme := none, Nav := [] })
        "/srv/site" (some []) = .ok
      { Site := DefaultSite, Content := DefaultContent, Build := DefaultBuild,
        Collections := [("posts", { DefaultCollection with Sort_ := "random" })],
        Theme := DefaultTheme, Nav := [] } :=
  C25_legacy_blog_section_is_not_validated.1 _ "/srv/site" [] rfl

end core

/-! ## The access check -/

namespace server

/-- C30: with the workspace `/srv/site`, the relative path `../site-backup/secret.txt`
passes the access check of the file routes and of the chat tools: the joined path
`/srv/site-backup/secret.txt` begins with the bytes `/srv/site`.  It is neither the
workspace directory nor inside it.  (A path such as `../other/secret.txt`, which leaves
the workspace for a directory whose name does not begin with the workspace's, is
denied.) -/
theorem C30_access_check_admits_a_sibling_directory :
    fileRouteAccess (utf8 "/srv/site") (utf8 "../site-backup/secret.txt") =
        .ok (utf8 "/srv/site-backup/secret.txt") ∧
      chat.toolAccess (utf8 "../site-backup/secret.txt") (utf8 "/srv/site") =
        .ok (utf8 "/srv/site-backup/secret.txt") ∧
      chat.toolListFilesAccess (utf8 "../site-backup") (utf8 "/srv/site") =
        .ok (utf8 "/srv/site-backup") ∧
      withinWorkspace (utf8 "/srv/site") (utf8 "/srv/site-backup/secret.txt") = false ∧
      withinWorkspace (utf8 "/srv/site") (utf8 "/srv/site-backup") = false ∧
      withinWorkspace (utf8 "/srv/site") (utf8 "/srv/site/content/about.md") = true ∧
      fileRouteAccess (utf8 "/srv/site") (utf8 "../other/secret.txt") =
        .error (403, "Access denied") :=
  ⟨rfl, rfl, rfl, by decide, by decide, by decide, rfl⟩

end server

end Bark
